import Mathlib

/-!
# Multiplayer chess server: session orchestration

A shallow embedding of the backend of the multiplayer chess game
(`backend/controllers/gameController.js`, `backend/utils/chessLogic.js`,
`backend/models/Game.js`, `backend/server.js`) and theorems about it.

Modelling conventions.

* One game document is followed; the store holds it in `Sys.game`.  User
  documents are reduced to their `rating` field (`Sys.users`).
* Identifiers (`ObjectId`s, user ids sent by clients) are strings compared the
  way the source compares them, by `toString()` equality.
* `Date.now()` is an argument `now` (milliseconds) of every operation that reads
  the clock.
* The rules engine `chess.js` is not part of the repository: it is a parameter
  `Oracle`.  `Math.pow(10, ·)` is a parameter `pow10`.
* JavaScript numbers are exact: `timeControl` and the inactivity threshold are
  rationals (`0.15` is `3/20`, `0.7` is `7/10`), clocks, ratings and time stamps
  are integers.  A counter that is `none` stands for `undefined`/`NaN`.
* `socket.emit` and `io.to(gameId).emit` append to `Sys.emitted`.
* An `await` never interleaves with another handler: every handler runs to
  completion on the state it read.
-/

namespace ChessServer

abbrev UserId := String

/-- Values of `status` in `models/Game.js`. -/
inductive Status where
  | waiting | active | checkmate | stalemate | draw | resigned | timeout | abandoned
  deriving DecidableEq, Repr

/-- Values of `turn` in `models/Game.js`: `'w'` or `'b'`. -/
inductive Color where
  | w | b
  deriving DecidableEq, Repr

/-- An element of `moves` in `models/Game.js`; `from_` and `to_` are the fields
`from` and `to`. -/
structure Move where
  from_ : String
  to_ : String
  promotion : Option String
  deriving DecidableEq, Repr

/-- The `move` field of a request: a string such as `e2e4`, or a move object. -/
inductive MoveInput where
  | str (s : String)
  | obj (m : Move)
  deriving DecidableEq, Repr

/-- The game document of `models/Game.js` (`createdAt` is never read). -/
structure Game where
  updatedAt : Int
  whitePlayer : UserId
  blackPlayer : Option UserId
  creator : UserId
  timeControl : Rat
  whiteTime : Option Int
  blackTime : Option Int
  fen : String
  status : Status
  turn : Color
  winner : Option UserId
  moves : List Move
  deriving DecidableEq

/-- The part of `chess.js` the server calls.  `load` is `new Chess(fen)` and
`move` is `chess.move(m)`; `Except.error` is a thrown exception, `none` the
value `null`. -/
structure Oracle (Pos : Type) where
  load : String → Except String Pos
  turn : Pos → Color
  move : Pos → Move → Except String (Option Pos)
  fen : Pos → String
  isGameOver : Pos → Bool
  isCheckmate : Pos → Bool
  isStalemate : Pos → Bool
  isDraw : Pos → Bool
  isThreefoldRepetition : Pos → Bool
  isInsufficientMaterial : Pos → Bool

/-! ## `utils/chessLogic.js` -/

/-- `getInitialFen`. -/
def getInitialFen : String := "rnbqkbnr/pppppppp/8/8/8/8/PPPPPPPP/RNBQKBNR w KQkq - 0 1"

/-- The expression `fen || '<initial position>'`: the empty string is falsy. -/
def fenOrDefault (fen : String) : String :=
  if fen = "" then getInitialFen else fen

/-- The object `{ ...moveResult, status, winner }` built by `validateMove`;
`winner` is `'white'` (`Color.w`), `'black'` (`Color.b`) or `null`. -/
structure MoveResult where
  move : Move
  status : Status
  winner : Option Color
  deriving DecidableEq, Repr

/-- The record returned by `validateMove`: `invalid` is `valid: false` (with
`moveResult: null`), `valid` is `valid: true` (with `error: null`). -/
inductive Validation where
  | invalid (fen : String) (turn : Option Color) (error : String)
  | valid (fen : String) (turn : Color) (moveResult : MoveResult)
  deriving DecidableEq, Repr

/-- The `catch` branch of `validateMove`. -/
def validateMoveCatch (fen msg : String) : Validation :=
  .invalid fen none ("Invalid FEN: " ++ msg)

/-- The status and winner computed by `validateMove` after a legal move;
`currentTurn` is the side that moved. -/
def outcomeOf {Pos : Type} (O : Oracle Pos) (chess : Pos) (currentTurn : Color) :
    Status × Option Color :=
  if O.isGameOver chess then
    if O.isCheckmate chess then (Status.checkmate, some currentTurn)
    else if O.isStalemate chess then (Status.stalemate, none)
    else if O.isDraw chess then (Status.draw, none)
    else if O.isThreefoldRepetition chess then (Status.draw, none)
    else if O.isInsufficientMaterial chess then (Status.draw, none)
    else (Status.active, none)
  else (Status.active, none)

/-- `validateMove(fen, move, playerColor)`. -/
def validateMove {Pos : Type} (O : Oracle Pos) (fen : String) (move : Move)
    (playerColor : Color) : Validation :=
  match O.load (fenOrDefault fen) with
  | .error msg => validateMoveCatch fen msg
  | .ok chess =>
    let currentTurn := O.turn chess
    if currentTurn ≠ playerColor then
      .invalid fen (some currentTurn)
        ("Not your turn. Current turn: " ++ (if currentTurn = Color.w then "white" else "black"))
    else
      match O.move chess move with
      | .error msg => validateMoveCatch fen msg
      | .ok none => .invalid fen (some currentTurn) "Invalid move"
      | .ok (some chess1) =>
        let newFen := O.fen chess1
        let newTurn := O.turn chess1
        let sw := outcomeOf O chess1 currentTurn
        .valid newFen newTurn { move := move, status := sw.1, winner := sw.2 }

/-- The record returned by `parseMoveString`: `invalid` is `valid: false` (with
`move: null`), `valid` is `valid: true` (with `error: null`). -/
inductive Parsed where
  | invalid (error : String)
  | valid (move : Move)
  deriving DecidableEq, Repr

/-- The object `move` that `parseMoveString` builds from the string: `from` is
`slice(0, 2)`, `to` is `slice(2, 4)`, and `promotion` is
`slice(4, 5).toLowerCase()` when the string has more than four characters
(`slice` counts characters). -/
def moveOfString (moveString : String) : Move :=
  let cs := moveString.toList
  { from_ := String.mk (cs.take 2),
    to_ := String.mk ((cs.drop 2).take 2),
    promotion :=
      if cs.length > 4 then some (String.mk (((cs.drop 4).take 1).map Char.toLower)) else none }

/-- `parseMoveString(moveString, fen)` for a string argument. -/
def parseMoveString {Pos : Type} (O : Oracle Pos) (moveString : String) (fen : String) :
    Parsed :=
  if moveString.toList.length < 4 then .invalid "Invalid move string format"
  else
    let move := moveOfString moveString
    if move.promotion.any (fun p => !(["q", "r", "b", "n"].contains p)) then
      .invalid "Invalid promotion piece"
    else
      match O.load (fenOrDefault fen) with
      | .error msg => .invalid ("Error parsing move: " ++ msg)
      | .ok chess =>
        match O.move chess move with
        | .error msg => .invalid ("Error parsing move: " ++ msg)
        | .ok none => .invalid "Invalid move"
        | .ok (some _) => .valid move

/-! ## Ratings -/

/-- `Math.round` on an exact number: halves go upward. -/
def mathRound (x : Rat) : Int := ⌊x + 1 / 2⌋

/-- `calculateEloChange(playerRating, opponentRating, result)`. -/
def calculateEloChange (pow10 : Rat → Rat) (playerRating opponentRating : Int) (result : Rat) :
    Int :=
  let k : Rat := 32
  let expected : Rat := 1 / (1 + pow10 (((opponentRating : Rat) - (playerRating : Rat)) / 400))
  mathRound (k * (result - expected))

/-- Modelled from the spec: the user model `models/Users.js` is not among the
sources.  The Rating Updater works on the participants' persisted rating
fields, so a user document is its `rating`, found by user id (`User.findById`);
`none`: no such user. -/
abbrev Users := UserId → Option Int

/-- Saving one user document with a new rating. -/
def Users.setRating (users : Users) (u : UserId) (r : Int) : Users :=
  fun v => if v = u then some r else users v

/-- `updateRatings(game)`: the winner document is saved first, the loser second. -/
def updateRatings (pow10 : Rat → Rat) (game : Game) (users : Users) : Users :=
  match game.winner with
  | none => users
  | some winnerId =>
    let winner := users winnerId
    let loserId : Option UserId :=
      if winnerId = game.whitePlayer then game.blackPlayer else some game.whitePlayer
    let loser := loserId.bind users
    match winner, loserId, loser with
    | some winnerRating, some lid, some loserRating =>
      let winnerChange := calculateEloChange pow10 winnerRating loserRating 1
      let loserChange := calculateEloChange pow10 loserRating winnerRating 0
      (users.setRating winnerId (winnerRating + winnerChange)).setRating lid
        (loserRating + loserChange)
    | _, _, _ => users

/-! ## Server state -/

/-- Events sent to clients (`socket.emit`, `io.to(gameId).emit`). -/
inductive Emit where
  | error (msg : String)
  | move_rejected (reason : String) (fen : Option String)
  | game_started (game : Game)
  | timer_update (white black : Option Int)
  | move_made (fen : String) (lastMove : MoveResult) (turn : Color)
  | game_over (status : Status) (winner : Option UserId)
  | inactivity_warning (player : UserId) (remainingSeconds : Int)
  | draw_offered (userId : UserId)
  | sync_game_state (fen : String) (whiteTime blackTime : Option Int) (status : Status)
      (turn : Color)
  deriving DecidableEq

/-- What the interval callback of `startTimer` closes over. -/
structure Driver where
  gameStartTime : Int
  activityCheckThreshold : Rat
  deriving DecidableEq

/-- A callback scheduled by `setTimeout` in `handleDisconnect` and not yet run
or cleared: its handle and the time from which it may run. -/
structure Timeout where
  handle : Nat
  due : Int
  deriving DecidableEq, Repr

/-- The store and the process-wide registries, for one game id.
`playerActivityMap` holds the entries with keys `gameId-userId`; `timerIntervals`
and `disconnectionTimers` hold the entry for `gameId`; `pendingTimeouts` is the
runtime's queue of scheduled disconnection callbacks and `nextHandle` the next
handle `setTimeout` returns. -/
structure Sys where
  game : Game
  users : Users
  playerActivityMap : UserId → Option Int
  timerIntervals : Option Driver
  disconnectionTimers : Option Nat
  pendingTimeouts : List Timeout
  nextHandle : Nat
  emitted : List Emit

/-- One `emit`. -/
def Sys.emit (s : Sys) (e : Emit) : Sys :=
  { s with emitted := s.emitted ++ [e] }

/-- Modelled from the spec: `shared.js`, which exports `playerActivityMap`, is not
among the sources.  It is the Activity Tracker, a map from (session,
participant) to the last-seen time stamp; this is
`playerActivityMap.set(key, now)` for the key of `u` in this game. -/
def setActivity (m : UserId → Option Int) (u : UserId) (now : Int) : UserId → Option Int :=
  fun v => if v = u then some now else m v

/-- `Number.isInteger(timeControl) && timeControl > 0`. -/
def validTimeControl (timeControl : Rat) : Bool :=
  timeControl.isInt && decide (0 < timeControl)

/-- `createGame`: the document saved for `{ userId, timeControl }`, or `none` when
the request is answered with an error status. -/
def createGame (users : Users) (userId : UserId) (timeControl : Rat) (now : Int) :
    Option Game :=
  match users userId with
  | none => none
  | some _ =>
    if !validTimeControl timeControl then none
    else some
      { updatedAt := now, whitePlayer := userId, blackPlayer := none, creator := userId,
        timeControl := timeControl, whiteTime := none, blackTime := none,
        fen := getInitialFen, status := Status.waiting, turn := Color.w, winner := none,
        moves := [] }

/-- The state right after `createGame` stored `game`: no registry has an entry
for the new game id. -/
def Sys.start (users : Users) (game : Game) (nextHandle : Nat) : Sys :=
  { game := game, users := users, playerActivityMap := fun _ => none, timerIntervals := none,
    disconnectionTimers := none, pendingTimeouts := [], nextHandle := nextHandle,
    emitted := [] }

/-- `joinGame`, for an existing game.  The clocks are `timeControl * 60`, an
integer since the guard before it passed. -/
def joinGame (userId : UserId) (now : Int) (s : Sys) : Sys :=
  let game := s.game
  if game.status ≠ Status.waiting then s.emit (.error "Game is not available")
  else if game.whitePlayer = userId then s.emit (.error "You cannot join your own game")
  else
    match s.users userId with
    | none => s.emit (.error "User not found")
    | some _ =>
      if !validTimeControl game.timeControl then s.emit (.error "Invalid time control")
      else
        let game1 : Game :=
          { game with
            blackPlayer := some userId, status := Status.active,
            whiteTime := some (game.timeControl.num * 60),
            blackTime := some (game.timeControl.num * 60), updatedAt := now }
        { s with
          game := game1,
          playerActivityMap :=
            setActivity (setActivity s.playerActivityMap game1.whitePlayer now) userId now,
          emitted := s.emitted ++
            [.game_started game1, .timer_update game1.whiteTime game1.blackTime] }

/-! ## `makeMove` -/

/-- A `make_move` request. -/
structure MoveRequest where
  userId : UserId
  move : MoveInput
  deriving DecidableEq, Repr

/-- How a store call fails: with a message containing
`Write conflict during plan execution`, or with another message. -/
inductive Fault where
  | writeConflict
  | other (msg : String)
  deriving DecidableEq, Repr

/-- What the store does during one pass of the retry loop of `makeMove`: it
serves every call, or `findById` throws, or `save`/`commitTransaction` throws. -/
inductive Txn where
  | ok
  | readFails (f : Fault)
  | commitFails (f : Fault)
  deriving DecidableEq, Repr

/-- How one pass through the body of the `while` loop ends: `done` is a
`return`, `retry` is `retries--; continue` and carries the local variable `game`. -/
inductive Pass where
  | done (s : Sys)
  | retry (s : Sys) (game : Option Game)

/-- The `catch` block of `makeMove`; `game` is the local variable. -/
def makeMoveCatch (f : Fault) (game : Option Game) (s : Sys) : Pass :=
  match f with
  | .writeConflict => .retry s game
  | .other msg =>
    .done (s.emit (.move_rejected ("Server error: " ++ msg) (game.map fun g => g.fen)))

/-- The expression computing `playerColor`; `Except.error` is the `TypeError` of
`game.blackPlayer.toString()` when `blackPlayer` is absent. -/
def playerColorOf (game : Game) (userId : UserId) : Except String (Option Color) :=
  if game.whitePlayer = userId then .ok (some Color.w)
  else
    match game.blackPlayer with
    | none => .error "Cannot read properties of undefined (reading 'toString')"
    | some black => if black = userId then .ok (some Color.b) else .ok none

/-- The document after the field updates of an accepted move, before `save`. -/
def applyMove (game : Game) (move : Move) (fen : String) (turn : Color) (r : MoveResult)
    (now : Int) : Game :=
  let game1 : Game :=
    { game with fen := fen, turn := turn, moves := game.moves ++ [move], updatedAt := now }
  if r.status ≠ Status.active then
    { game1 with
      status := r.status,
      winner :=
        match r.winner with
        | some c => if c = Color.w then some game.whitePlayer else game.blackPlayer
        | none => none }
  else game1

/-- What `makeMove` does between the field updates and `save` when the move ends
the game: it removes the clock driver and, if there is a winner, updates the
ratings. -/
def endGameEffects (pow10 : Rat → Rat) (gameEnded : Bool) (game1 : Game) (s : Sys) : Sys :=
  let s1 : Sys := if gameEnded then { s with timerIntervals := none } else s
  if gameEnded && game1.winner.isSome then
    { s1 with users := updateRatings pow10 game1 s1.users }
  else s1

/-- One pass through the body of the retry loop of `makeMove`. -/
def makeMovePass {Pos : Type} (O : Oracle Pos) (pow10 : Rat → Rat) (req : MoveRequest)
    (now : Int) (t : Txn) (game : Option Game) (s : Sys) : Pass :=
  match t with
  | .readFails f => makeMoveCatch f game s
  | _ =>
    let game := s.game
    if game.status ≠ Status.active then
      .done (s.emit (.move_rejected "Game is not active" (some game.fen)))
    else
      match playerColorOf game req.userId with
      | .error msg => makeMoveCatch (.other msg) (some game) s
      | .ok none =>
        .done (s.emit (.move_rejected "You are not a player in this game" (some game.fen)))
      | .ok (some playerColor) =>
        let parsedMove : Parsed :=
          match req.move with
          | .str m => parseMoveString O m game.fen
          | .obj m => .valid m
        match parsedMove with
        | .invalid error => .done (s.emit (.move_rejected error (some game.fen)))
        | .valid move =>
          match validateMove O game.fen move playerColor with
          | .invalid _ _ error => .done (s.emit (.move_rejected error (some game.fen)))
          | .valid fen turn r =>
            let game1 := applyMove game move fen turn r now
            let gameEnded : Bool := r.status ≠ Status.active
            let s2 : Sys := endGameEffects pow10 gameEnded game1 s
            match t with
            | .commitFails f => makeMoveCatch f (some game1) s2
            | _ =>
              let s3 : Sys := { s2 with game := game1 }.emit (.move_made fen r turn)
              .done (if gameEnded then s3.emit (.game_over r.status game1.winner) else s3)

/-- The retry loop of `makeMove` with `retries` passes left; `txns` lists the
store's behaviour pass by pass (`Txn.ok` once the list is used up). -/
def makeMoveLoop {Pos : Type} (O : Oracle Pos) (pow10 : Rat → Rat) (req : MoveRequest)
    (now : Int) : Nat → List Txn → Option Game → Sys → Sys
  | 0, _, game, s =>
    s.emit (.move_rejected "Transaction conflict after multiple retries. Please try again."
      (game.map fun g => g.fen))
  | retries + 1, txns, game, s =>
    match makeMovePass O pow10 req now (txns.headD .ok) game s with
    | .done s1 => s1
    | .retry s1 game1 => makeMoveLoop O pow10 req now retries txns.tail game1 s1

/-- `makeMove`, for an existing game. -/
def makeMove {Pos : Type} (O : Oracle Pos) (pow10 : Rat → Rat) (req : MoveRequest) (now : Int)
    (txns : List Txn) (s : Sys) : Sys :=
  makeMoveLoop O pow10 req now 3 txns none s

/-! ## The clock driver -/

/-- The constant `initialActivityGracePeriod` of `startTimer`: `2 * 60 * 1000`. -/
def initialActivityGracePeriod : Int := 2 * 60 * 1000

/-- The value `activityCheckThreshold` computed by `startTimer`:
`Math.max(60 * 1000, timeControl * 60 * 1000 * 0.15)`. -/
def activityCheckThreshold (timeControl : Rat) : Rat :=
  max (60 * 1000) (timeControl * 60 * 1000 * (3 / 20))

/-- `startTimer`, up to the installation of the interval. -/
def startTimer (now : Int) (s : Sys) : Sys :=
  let s1 : Sys := { s with timerIntervals := none }
  if s.game.status ≠ Status.active then s1
  else
    { s1 with
      timerIntervals :=
        some { gameStartTime := now,
               activityCheckThreshold := activityCheckThreshold s.game.timeControl } }

/-- The statement `if (game.turn === 'w') game.whiteTime -= 1; else game.blackTime -= 1`. -/
def decrementClock (game : Game) : Game :=
  if game.turn = Color.w then { game with whiteTime := game.whiteTime.map (· - 1) }
  else { game with blackTime := game.blackTime.map (· - 1) }

/-- The counter `decrementClock` writes. -/
def moverTime (game : Game) : Option Int :=
  if game.turn = Color.w then game.whiteTime else game.blackTime

/-- The test `time <= 0`; false for an absent counter. -/
def timeUp (time : Option Int) : Bool :=
  match time with
  | some t => decide (t ≤ 0)
  | none => false

/-- The end of the interval callback, from the comment `Check for timeout
conditions` on; `game` already carries the decremented counter and `saves`
tells whether the store accepts it. -/
def tickTimeout (pow10 : Rat → Rat) (saves : Bool) (game : Game) (s : Sys) : Sys :=
  let whiteUp := timeUp game.whiteTime
  let blackUp := timeUp game.blackTime
  let game1 : Game :=
    if whiteUp then { game with status := Status.timeout, winner := game.blackPlayer }
    else if blackUp then { game with status := Status.timeout, winner := some game.whitePlayer }
    else game
  if !saves then { s with timerIntervals := none }
  else
    let s1 : Sys :=
      if whiteUp || blackUp then
        { s with game := game1, timerIntervals := none,
                 users := updateRatings pow10 game1 s.users }
      else { s with game := game1 }
    let s2 := s1.emit (.timer_update game1.whiteTime game1.blackTime)
    if game1.status ≠ Status.active then s2.emit (.game_over game1.status game1.winner) else s2

/-- The interval callback of `startTimer`, run at time `now`.  Without an
installed interval nothing runs.  A `TypeError` (absent `blackPlayer`) or a
refused `save` (the decremented counter was absent and is `NaN`) reaches the
`catch`, which removes the interval. -/
def tick (pow10 : Rat → Rat) (now : Int) (s : Sys) : Sys :=
  match s.timerIntervals with
  | none => s
  | some driver =>
    let game := s.game
    if game.status ≠ Status.active then { s with timerIntervals := none }
    else
      let game1 := decrementClock game
      let saves : Bool := (moverTime game).isSome
      let elapsedSinceStart := now - driver.gameStartTime
      if elapsedSinceStart > initialActivityGracePeriod then
        let current : Option UserId :=
          if game1.turn = Color.w then some game1.whitePlayer else game1.blackPlayer
        match current with
        | none => { s with timerIntervals := none }
        | some currentPlayerUserId =>
          let lastActivity : Int := (s.playerActivityMap currentPlayerUserId).getD 0
          let timeSinceActivity : Int := now - lastActivity
          if lastActivity > 0 ∧ (timeSinceActivity : Rat) > driver.activityCheckThreshold then
            if !saves then { s with timerIntervals := none }
            else
              { s with game := { game1 with status := Status.abandoned },
                       timerIntervals := none }.emit (.game_over Status.abandoned none)
          else
            let s1 : Sys :=
              if lastActivity > 0 ∧
                  (timeSinceActivity : Rat) > driver.activityCheckThreshold * (7 / 10) then
                s.emit (.inactivity_warning currentPlayerUserId
                  ⌊(driver.activityCheckThreshold - (timeSinceActivity : Rat)) / 1000⌋)
              else s
            tickTimeout pow10 saves game1 s1
      else tickTimeout pow10 saves game1 s

/-! ## Resignation and draws -/

/-- The test `whitePlayer.toString() !== userId.toString() &&
blackPlayer.toString() !== userId.toString()`; `Except.error` is the `TypeError`
for an absent `blackPlayer`. -/
def notAPlayer (game : Game) (userId : UserId) : Except String Bool :=
  if game.whitePlayer ≠ userId then
    match game.blackPlayer with
    | none => .error "Cannot read properties of undefined (reading 'toString')"
    | some black => .ok (decide (black ≠ userId))
  else .ok false

/-- `resignGame`, for an existing game. -/
def resignGame (pow10 : Rat → Rat) (userId : UserId) (s : Sys) : Sys :=
  let game := s.game
  if game.status ≠ Status.active then s.emit (.error "Game is not active")
  else
    match notAPlayer game userId with
    | .error _ => s.emit (.error "Server error")
    | .ok true => s.emit (.error "You are not a player in this game")
    | .ok false =>
      let game1 : Game :=
        { game with
          status := Status.resigned,
          winner := if game.whitePlayer = userId then game.blackPlayer
                    else some game.whitePlayer }
      { s with game := game1, timerIntervals := none,
               users := updateRatings pow10 game1 s.users }.emit
        (.game_over Status.resigned game1.winner)

/-- `offerDraw`, for an existing game. -/
def offerDraw (userId : UserId) (s : Sys) : Sys :=
  let game := s.game
  if game.status ≠ Status.active then s.emit (.error "Game is not active")
  else
    match notAPlayer game userId with
    | .error _ => s.emit (.error "Server error")
    | .ok true => s.emit (.error "You are not a player in this game")
    | .ok false => s.emit (.draw_offered userId)

/-- `acceptDraw`, for an existing game. -/
def acceptDraw (userId : UserId) (s : Sys) : Sys :=
  let game := s.game
  if game.status ≠ Status.active then s.emit (.error "Game is not active")
  else
    match notAPlayer game userId with
    | .error _ => s.emit (.error "Server error")
    | .ok true => s.emit (.error "You are not a player in this game")
    | .ok false =>
      { s with game := { game with status := Status.draw },
               timerIntervals := none }.emit (.game_over Status.draw none)

/-! ## Disconnection, liveness and the sweep job -/

/-- The grace period of `handleDisconnect`: `5 * 60 * 1000`. -/
def disconnectGrace : Int := 5 * 60 * 1000

/-- `clearTimeout(handle)`. -/
def clearTimeout (handle : Nat) (pending : List Timeout) : List Timeout :=
  pending.filter fun t => t.handle ≠ handle

/-- `handleDisconnect` at time `now`, for an existing game. -/
def handleDisconnect (now : Int) (s : Sys) : Sys :=
  if s.game.status ≠ Status.active then s
  else
    let pending :=
      match s.disconnectionTimers with
      | some old => clearTimeout old s.pendingTimeouts
      | none => s.pendingTimeouts
    { s with
      pendingTimeouts := pending ++ [{ handle := s.nextHandle, due := now + disconnectGrace }],
      disconnectionTimers := some s.nextHandle,
      nextHandle := s.nextHandle + 1 }

/-- The callback scheduled by `handleDisconnect`. -/
def disconnectCallback (s : Sys) : Sys :=
  if s.game.status ≠ Status.active then s
  else
    { s with game := { s.game with status := Status.abandoned },
             timerIntervals := none,
             disconnectionTimers := none }.emit (.game_over Status.abandoned none)

/-- The runtime runs the scheduled callback `handle` at time `now`: only when it
is still pending and due. -/
def fireTimeout (handle : Nat) (now : Int) (s : Sys) : Sys :=
  match s.pendingTimeouts.find? fun t => t.handle = handle with
  | none => s
  | some t =>
    if now < t.due then s
    else disconnectCallback { s with pendingTimeouts := clearTimeout handle s.pendingTimeouts }

/-- `handleReconnect`. -/
def handleReconnect (s : Sys) : Sys :=
  match s.disconnectionTimers with
  | none => s
  | some handle =>
    { s with pendingTimeouts := clearTimeout handle s.pendingTimeouts,
             disconnectionTimers := none }

/-- `updatePlayerActivity`, for an existing game. -/
def updatePlayerActivity (userId : UserId) (now : Int) (s : Sys) : Sys :=
  { s with playerActivityMap := setActivity s.playerActivityMap userId now,
           game := { s.game with updatedAt := now } }

/-- The `rejoin_game` handler of `server.js`, for an existing game. -/
def rejoinGame (userId : UserId) (now : Int) (s : Sys) : Sys :=
  let s1 := handleReconnect s
  let game := s1.game
  updatePlayerActivity userId now
    (s1.emit (.sync_game_state game.fen game.whiteTime game.blackTime game.status game.turn))

/-- The test `activity && Date.now() - activity < 10 * 60 * 1000` of the sweep. -/
def recentActivity (now : Int) (activity : Option Int) : Bool :=
  match activity with
  | some t => decide (t ≠ 0) && decide (now - t < 10 * 60 * 1000)
  | none => false

/-- What one run of `cleanupAbandonedGames` at time `now` does to one stored
game. -/
def cleanupGame (now : Int) (activity : UserId → Option Int) (game : Game) : Game :=
  let cutoffTime := now - 10 * 60 * 1000
  if game.status = Status.active ∧ game.updatedAt < cutoffTime then
    let whiteActivity := activity game.whitePlayer
    let blackActivity := game.blackPlayer.bind activity
    if recentActivity now whiteActivity || recentActivity now blackActivity then
      { game with updatedAt := now }
    else { game with status := Status.abandoned }
  else game

/-- `cleanupAbandonedGames` at time `now`. -/
def cleanupAbandonedGames (now : Int) (s : Sys) : Sys :=
  { s with game := cleanupGame now s.playerActivityMap s.game }

/-! ## Runs of the server -/

/-- The events that reach the server for one game, with what the environment
decides: the time, the store's behaviour during a move. -/
inductive Op where
  | join (userId : UserId) (now : Int)
  | move (req : MoveRequest) (now : Int) (txns : List Txn)
  | startTimer (now : Int)
  | tick (now : Int)
  | resign (userId : UserId)
  | offerDraw (userId : UserId)
  | acceptDraw (userId : UserId)
  | heartbeat (userId : UserId) (now : Int)
  | rejoin (userId : UserId) (now : Int)
  | disconnect (now : Int)
  | fireTimeout (handle : Nat) (now : Int)
  | sweep (now : Int)
  deriving DecidableEq, Repr

/-- The server handles one event. -/
def step {Pos : Type} (O : Oracle Pos) (pow10 : Rat → Rat) (s : Sys) : Op → Sys
  | .join userId now => joinGame userId now s
  | .move req now txns => makeMove O pow10 req now txns s
  | .startTimer now => startTimer now s
  | .tick now => tick pow10 now s
  | .resign userId => resignGame pow10 userId s
  | .offerDraw userId => offerDraw userId s
  | .acceptDraw userId => acceptDraw userId s
  | .heartbeat userId now => updatePlayerActivity userId now s
  | .rejoin userId now => rejoinGame userId now s
  | .disconnect now => handleDisconnect now s
  | .fireTimeout handle now => fireTimeout handle now s
  | .sweep now => cleanupAbandonedGames now s

/-- The server handles a sequence of events, one after the other. -/
def run {Pos : Type} (O : Oracle Pos) (pow10 : Rat → Rat) (s : Sys) (ops : List Op) : Sys :=
  ops.foldl (step O pow10) s

/-- The states the server can be in for a game made by `createGame`. -/
inductive Reachable {Pos : Type} (O : Oracle Pos) (pow10 : Rat → Rat) : Sys → Prop where
  | start (users : Users) (userId : UserId) (timeControl : Rat) (now : Int) (game : Game)
      (nextHandle : Nat) (h : createGame users userId timeControl now = some game) :
      Reachable O pow10 (Sys.start users game nextHandle)
  | step (s : Sys) (op : Op) (h : Reachable O pow10 s) : Reachable O pow10 (step O pow10 s op)

/-! ## Vocabulary of the statements -/

/-- The move object a request denotes: the object sent, or the one
`parseMoveString` builds from the string sent. -/
def MoveInput.denotes : MoveInput → Move
  | .str moveString => moveOfString moveString
  | .obj m => m

/-- The rules engine refuses `move` in the position `fen`: it cannot load the
position, or `chess.move` returns `null` or throws. -/
def oracleRejects {Pos : Type} (O : Oracle Pos) (fen : String) (move : Move) : Prop :=
  match O.load (fenOrDefault fen) with
  | .error _ => True
  | .ok chess =>
    match O.move chess move with
    | .ok (some _) => False
    | _ => True

/-- The side to move in the position `fen`, as the rules engine reads it, is
not `c`. -/
def notTurnOf {Pos : Type} (O : Oracle Pos) (fen : String) (c : Color) : Prop :=
  match O.load (fenOrDefault fen) with
  | .error _ => False
  | .ok chess => O.turn chess ≠ c

/-- The colour `userId` plays in `game`, white first. -/
def colorOf (game : Game) (userId : UserId) : Option Color :=
  if game.whitePlayer = userId then some Color.w
  else if game.blackPlayer = some userId then some Color.b
  else none

/-- The statuses other than `waiting` and `active`. -/
def Status.terminal (st : Status) : Prop :=
  st ≠ Status.waiting ∧ st ≠ Status.active

instance (st : Status) : Decidable st.terminal := by
  unfold Status.terminal; infer_instance

instance {Pos : Type} (O : Oracle Pos) (fen : String) (c : Color) :
    Decidable (notTurnOf O fen c) := by
  unfold notTurnOf
  split <;> infer_instance

instance {Pos : Type} (O : Oracle Pos) (fen : String) (move : Move) :
    Decidable (oracleRejects O fen move) := by
  unfold oracleRejects
  split
  · infer_instance
  · split <;> infer_instance

/-- What the document of a game made by `createGame` satisfies at all times. -/
structure GameInv (game : Game) : Prop where
  creator_white : game.creator = game.whitePlayer
  black_ne_white : game.blackPlayer ≠ some game.whitePlayer
  time_control : validTimeControl game.timeControl = true
  waiting : game.status = Status.waiting → game.blackPlayer = none ∧ game.winner = none
  joined : game.status ≠ Status.waiting →
    (∃ black, game.blackPlayer = some black) ∧
      ∃ a b, game.whiteTime = some a ∧ game.blackTime = some b ∧ 0 ≤ a ∧ 0 ≤ b
  active : game.status = Status.active →
    ∃ a b, game.whiteTime = some a ∧ game.blackTime = some b ∧ 1 ≤ a ∧ 1 ≤ b
  winner_iff : (∃ u, game.winner = some u) ↔
    (game.status = Status.checkmate ∨ game.status = Status.resigned ∨
      game.status = Status.timeout)
  winner_mem : ∀ u, game.winner = some u →
    u = game.whitePlayer ∨ game.blackPlayer = some u

/-- What every state of the server satisfies for a game made by `createGame`:
the document is well formed and every pending disconnection callback is the
one the registry names. -/
structure Inv (s : Sys) : Prop where
  game : GameInv s.game
  pending_registered : ∀ t ∈ s.pendingTimeouts, s.disconnectionTimers = some t.handle

/-- The condition under which the interval callback, run at `now` with the
closure `driver`, abandons the game for inactivity of the side to move. -/
def abandonsForInactivity (driver : Driver) (now : Int) (s : Sys) : Prop :=
  now - driver.gameStartTime > initialActivityGracePeriod ∧
    ∃ u, (if s.game.turn = Color.w then some s.game.whitePlayer else s.game.blackPlayer) = some u ∧
      (s.playerActivityMap u).getD 0 > 0 ∧
      (((now - (s.playerActivityMap u).getD 0 : Int) : Rat)) > driver.activityCheckThreshold

/-- What every operation keeps of a game document: the white player, the
creator and the time control, and, once the game is joined, the black player
and the fact of being joined, while no clock goes up. -/
def Keeps (g g1 : Game) : Prop :=
  g1.whitePlayer = g.whitePlayer ∧ g1.creator = g.creator ∧ g1.timeControl = g.timeControl ∧
    (g.status ≠ Status.waiting →
      g1.status ≠ Status.waiting ∧ g1.blackPlayer = g.blackPlayer ∧
        ∀ a b, g.whiteTime = some a → g.blackTime = some b →
          ∃ a1 b1, g1.whiteTime = some a1 ∧ g1.blackTime = some b1 ∧ a1 ≤ a ∧ b1 ≤ b)

/-- The two documents agree on the status, the winner, the position, the side
to move, the moves, both clocks and the black player. -/
def SameOutcome (g g1 : Game) : Prop :=
  g1.status = g.status ∧ g1.winner = g.winner ∧ g1.fen = g.fen ∧ g1.turn = g.turn ∧
    g1.moves = g.moves ∧ g1.whiteTime = g.whiteTime ∧ g1.blackTime = g.blackTime ∧
    g1.blackPlayer = g.blackPlayer

/-- The expected score as the specification words it:
`expected = 1 / (1 + 10^((opponentRating - rating)/400))`. -/
def specExpected (pow10 : Rat → Rat) (rating opponentRating : Int) : Rat :=
  1 / (1 + pow10 (((opponentRating : Rat) - (rating : Rat)) / 400))

/-- The rating change as the specification words it:
`delta = round(K * (actualResult - expected))` with `K = 32`, rounding to the
nearest integer. -/
def specDelta (pow10 : Rat → Rat) (rating opponentRating : Int) (actualResult : Rat) : Int :=
  round (32 * (actualResult - specExpected pow10 rating opponentRating))

/-- The time at which an event is handled, for the events whose handler reads
the clock. -/
def Op.time : Op → Option Int
  | .join _ now => some now
  | .move _ now _ => some now
  | .startTimer now => some now
  | .tick now => some now
  | .resign _ => none
  | .offerDraw _ => none
  | .acceptDraw _ => none
  | .heartbeat _ now => some now
  | .rejoin _ now => some now
  | .disconnect now => some now
  | .fireTimeout _ now => some now
  | .sweep now => some now

/-- The event is a transport loss (`handleDisconnect`). -/
def Op.isDisconnect : Op → Bool
  | .disconnect _ => true
  | _ => false

/-- The event is the runtime trying to run a disconnection callback. -/
def Op.isFireTimeout : Op → Bool
  | .fireTimeout _ _ => true
  | _ => false

/-- The scheduled callback `handle` runs at time `now` in state `s`: it is
pending and due.  This is the condition under which `fireTimeout` runs
`disconnectCallback`. -/
def callbackRuns (handle : Nat) (now : Int) (s : Sys) : Prop :=
  ∃ t, (s.pendingTimeouts.find? fun t => t.handle = handle) = some t ∧ t.due ≤ now

/-- The registries of timers are the same in both states. -/
def SameTimers (s s1 : Sys) : Prop :=
  s1.pendingTimeouts = s.pendingTimeouts ∧ s1.disconnectionTimers = s.disconnectionTimers ∧
    s1.nextHandle = s.nextHandle

/-- The position (`fen`) an event carries, if any. -/
def Emit.position : Emit → Option String
  | .move_rejected _ fen => fen
  | .game_started game => some game.fen
  | .move_made fen _ _ => some fen
  | .sync_game_state fen _ _ _ _ => some fen
  | _ => none

/-- The participant `userId` of `game` has an Activity Tracker entry younger than
ten minutes at time `now`. -/
def freshParticipant (now : Int) (activity : UserId → Option Int) (game : Game)
    (userId : UserId) : Prop :=
  (userId = game.whitePlayer ∨ game.blackPlayer = some userId) ∧
    ∃ t, activity userId = some t ∧ now - t < 10 * 60 * 1000

/-- The event is a `draw_offered` broadcast. -/
def Emit.isDrawOffer : Emit → Bool
  | .draw_offered _ => true
  | _ => false

/-- The pass ended with `retries--; continue`: its attempt failed with a write
conflict. -/
def Pass.isRetry : Pass → Bool
  | .retry _ _ => true
  | .done _ => false

/-- The passes the retry loop of `makeMove` makes, in order, when `retries`
passes are left: the attempts of `makeMoveLoop`, each with how it ended. -/
def makeMovePasses {Pos : Type} (O : Oracle Pos) (pow10 : Rat → Rat) (req : MoveRequest)
    (now : Int) : Nat → List Txn → Option Game → Sys → List Pass
  | 0, _, _, _ => []
  | retries + 1, txns, game, s =>
    match makeMovePass O pow10 req now (txns.headD .ok) game s with
    | .done s1 => [.done s1]
    | .retry s1 game1 =>
      .retry s1 game1 :: makeMovePasses O pow10 req now retries txns.tail game1 s1

/-- The text of the rejection `makeMove` emits when its retries are used up. -/
def conflictExhausted : String :=
  "Transaction conflict after multiple retries. Please try again."

/-! ## `server.js`: the per-connection rate limiter -/

/-- An entry of `socketLimiters[socket.id]`. -/
structure Limiter where
  windowStart : Int
  count : Nat
  windowMs : Int
  max : Nat
  deriving DecidableEq, Repr

/-- The table `socketRateLimits`: `(windowMs, max)` for an event name. -/
def socketRateLimits (eventName : String) : Option (Int × Nat) :=
  if eventName = "make_move" then some (1000, 3)
  else if eventName = "send_message" then some (5000, 5)
  else if eventName = "join_game" then some (30000, 5)
  else none

/-- The limiter the `connection` handler installs for `eventName` at time `now`. -/
def installLimiter (eventName : String) (now : Int) : Option Limiter :=
  (socketRateLimits eventName).map fun limit =>
    { windowStart := now, count := 0, windowMs := limit.1, max := limit.2 }

/-- What `rateLimitEvent` does with an event: it runs the handler, or it emits
an `error` advisory and returns. -/
inductive Admission where
  | dispatched
  | dropped (advisory : String)
  deriving DecidableEq, Repr

/-- `rateLimitEvent` at time `now`: the limiter afterwards and what became of the
event.  Without a limiter for the event the handler runs. -/
def rateLimitEvent (eventName : String) (limiter : Option Limiter) (now : Int) :
    Option Limiter × Admission :=
  match limiter with
  | none => (none, .dispatched)
  | some limiter =>
    let limiter1 : Limiter :=
      if now - limiter.windowStart > limiter.windowMs then
        { limiter with windowStart := now, count := 0 }
      else limiter
    if limiter1.count ≥ limiter1.max then
      (some limiter1, .dropped ("Too many " ++ eventName ++ " requests. Please wait."))
    else (some { limiter1 with count := limiter1.count + 1 }, .dispatched)

/-- The events of one name that arrive on a connection at `times`, in this
order: each arrival time with what became of the event. -/
def rateLimitEvents (eventName : String) : Option Limiter → List Int → List (Int × Admission)
  | _, [] => []
  | limiter, now :: rest =>
    (now, (rateLimitEvent eventName limiter now).2) ::
      rateLimitEvents eventName (rateLimitEvent eventName limiter now).1 rest

/-- The event was dispatched and arrived in the interval from `a` to `a + span`,
both ends included. -/
def dispatchedIn (a span : Int) (e : Int × Admission) : Bool :=
  decide (e.2 = Admission.dispatched) && decide (a ≤ e.1) && decide (e.1 ≤ a + span)

/-- The number of events dispatched to their handler with an arrival time in the
interval from `a` to `a + span`, both ends included. -/
def dispatchedWithin (a span : Int) (events : List (Int × Admission)) : Nat :=
  (events.filter (dispatchedIn a span)).length

/-- The number of events dispatched to their handler. -/
def dispatchedCount (events : List (Int × Admission)) : Nat :=
  (events.filter fun e => decide (e.2 = Admission.dispatched)).length

/-- The side to move a FEN string encodes: its second field, the character after
the first blank, `w` or `b`. -/
def fenSide (fen : String) : Option Color :=
  match (fen.toList.dropWhile (· ≠ ' ')).drop 1 with
  | 'w' :: _ => some Color.w
  | 'b' :: _ => some Color.b
  | _ => none

/-- The rules engine's `turn()` agrees with the side-to-move field of the FEN
strings it loads and of those it produces. -/
def turnAgrees {Pos : Type} (O : Oracle Pos) : Prop :=
  (∀ fen pos, O.load fen = .ok pos → fenSide fen = some (O.turn pos)) ∧
    ∀ pos, fenSide (O.fen pos) = some (O.turn pos)

/-- The event is a `move_made` broadcast: a move was committed. -/
def Emit.isMoveMade : Emit → Bool
  | .move_made _ _ _ => true
  | _ => false

/-- The event is a `move_rejected`. -/
def Emit.isMoveRejected : Emit → Bool
  | .move_rejected _ _ => true
  | _ => false

/-- A `make_move` submission as the server handles it: the request, the time and
what the store does during its attempts. -/
structure Submission where
  req : MoveRequest
  now : Int
  txns : List Txn

/-- The server handles the submissions one after the other, in the order in
which they reach the store. -/
def submitAll {Pos : Type} (O : Oracle Pos) (pow10 : Rat → Rat) (s : Sys)
    (subs : List Submission) : Sys :=
  subs.foldl (fun s1 x => makeMove O pow10 x.req x.now x.txns s1) s

/-- After a move the rules engine accepted, the position it loads back from the
FEN string it produced has the other side to move. -/
def turnPasses {Pos : Type} (O : Oracle Pos) : Prop :=
  ∀ chess move chess1, O.move chess move = .ok (some chess1) →
    ∀ chess2, O.load (fenOrDefault (O.fen chess1)) = .ok chess2 → O.turn chess2 ≠ O.turn chess

/-- No move of `p` can be accepted in the stored game: it is not active, or `p`
is not the side to move in the stored position. -/
def cannotMove {Pos : Type} (O : Oracle Pos) (game : Game) (p : UserId) : Prop :=
  game.status ≠ Status.active ∨
    ∀ c, playerColorOf game p = .ok (some c) →
      ∀ chess, O.load (fenOrDefault game.fen) = .ok chess → O.turn chess ≠ c

/-- The expression of `calculateEloChange` evaluated in an ordered field `K` with
a floor.  With the rationals for `K` this is `calculateEloChange`; with the
reals for `K` and the real power for `pow10` it is the exact arithmetic of the
expression. -/
def calculateEloChangeIn {K : Type} [LinearOrderedField K] [FloorRing K] (pow10 : K → K)
    (playerRating opponentRating : Int) (result : K) : Int :=
  let k : K := 32
  let expected : K := 1 / (1 + pow10 (((opponentRating : K) - (playerRating : K)) / 400))
  ⌊k * (result - expected) + 1 / 2⌋

/-- The loser `updateRatings` finds for a game won by `winnerId`. -/
def loserOf (game : Game) (winnerId : UserId) : Option UserId :=
  if winnerId = game.whitePlayer then game.blackPlayer else some game.whitePlayer

/-! ## A small rules engine and user table, for concrete runs -/

/-- A toy rules engine: a position is the list of characters of its FEN, the
side to move alternates with the length, a move appends one character, `#`
ends the game by checkmate and `=` by stalemate.  A move with an empty origin
throws, a move whose origin equals its target is refused. -/
def toyOracle : Oracle (List Char) where
  load := fun fen => if fen.toList.contains '!' then .error "bad FEN" else .ok fen.toList
  turn := fun p => if p.length % 2 = 0 then Color.w else Color.b
  move := fun p m =>
    if m.from_ = "" then .error "Invalid move"
    else if m.from_ = m.to_ then .ok none
    else .ok (some (p ++ [if m.promotion = some "q" then '#'
                          else if m.promotion = some "r" then '=' else '+']))
  fen := fun p => String.mk p
  isGameOver := fun p => p.getLast? = some '#' || p.getLast? = some '='
  isCheckmate := fun p => p.getLast? = some '#'
  isStalemate := fun p => p.getLast? = some '='
  isDraw := fun _ => false
  isThreefoldRepetition := fun _ => false
  isInsufficientMaterial := fun _ => false

/-- A toy `Math.pow(10, ·)`: exact at `0`, a crude step elsewhere. -/
def toyPow10 (x : Rat) : Rat :=
  if x = 0 then 1 else if 0 < x then 10 else 1 / 10

/-- Two registered users, `alice` and `bob`, rated 1500. -/
def toyUsers : Users := fun u => if u = "alice" ∨ u = "bob" then some 1500 else none

/-- The game `alice` creates with a time control of `timeControl` minutes. -/
def toyGame (timeControl : Rat) : Game :=
  { updatedAt := 0, whitePlayer := "alice", blackPlayer := none, creator := "alice",
    timeControl := timeControl, whiteTime := none, blackTime := none, fen := getInitialFen,
    status := Status.waiting, turn := Color.w, winner := none, moves := [] }

/-- The state after `alice` created a game with `timeControl` minutes. -/
def toyStart (timeControl : Rat) : Sys := Sys.start toyUsers (toyGame timeControl) 0

/-- The toy game after `bob` joined at time 1000. -/
def toyJoined : Sys := step toyOracle toyPow10 (toyStart 2) (.join "bob" 1000)

/-- The clock ticks number 1 to `n` of a driver started at `start`, one per
second. -/
def toyTicks (n : Nat) (start : Int) : List Op :=
  (List.range n).map fun i => Op.tick (start + 1000 * ((i : Int) + 1))

/-- The two-minute toy game when `alice` has one second left: `bob` joined at
time 1000, the driver started at 6000 and ticked 119 times while nobody moved
or sent a heartbeat. -/
def toyLastSecond : Sys :=
  run toyOracle toyPow10 (toyStart 2)
    ([.join "bob" 1000, .startTimer 6000] ++ toyTicks 119 6000)

/-- The toy game after `bob` joined and `alice` mated at once. -/
def toyMated : Sys :=
  run toyOracle toyPow10 (toyStart 2)
    [.join "bob" 1000, .move ⟨"alice", .str "e2e4q"⟩ 2000 []]

/-- The toy game with its clock driver running: `bob` joined at 1000 and the
driver started at 6000. -/
def toyRunning : Sys := startTimer 6000 toyJoined

/-- A toy rules engine that reads the side to move off the FEN string: a
position is the side to move, every move with distinct squares is accepted and
passes the move to the other side, and no game ever ends. -/
def sideOracle : Oracle Color where
  load := fun fen =>
    match fenSide fen with
    | some c => .ok c
    | none => .error "bad FEN"
  turn := fun p => p
  move := fun p m => if m.from_ = m.to_ then .ok none
    else .ok (some (if p = Color.w then Color.b else Color.w))
  fen := fun p =>
    if p = Color.w then "8/8/8/8/8/8/8/8 w - - 0 1" else "8/8/8/8/8/8/8/8 b - - 0 1"
  isGameOver := fun _ => false
  isCheckmate := fun _ => false
  isStalemate := fun _ => false
  isDraw := fun _ => false
  isThreefoldRepetition := fun _ => false
  isInsufficientMaterial := fun _ => false

/-! ## Theorems: `chessLogic.js` -/

theorem validateMove_valid {Pos : Type} (O : Oracle Pos) (fen : String) (move : Move)
    (c : Color) (fen1 : String) (turn : Color) (r : MoveResult)
    (h : validateMove O fen move c = .valid fen1 turn r) :
    ∃ chess chess1, O.load (fenOrDefault fen) = .ok chess ∧ O.turn chess = c ∧
      O.move chess move = .ok (some chess1) ∧ fen1 = O.fen chess1 ∧ turn = O.turn chess1 ∧
      r = { move := move, status := (outcomeOf O chess1 c).1,
            winner := (outcomeOf O chess1 c).2 } := by
  unfold validateMove at h
  split at h
  · simp [validateMoveCatch] at h
  · rename_i chess hload
    simp only at h
    split at h
    · simp at h
    · rename_i hturn
      have hturn1 : O.turn chess = c := by simpa using hturn
      split at h
      · simp [validateMoveCatch] at h
      · simp at h
      · rename_i chess1 hmove
        simp only [Validation.valid.injEq] at h
        refine ⟨chess, chess1, hload, hturn1, hmove, h.1.symm, h.2.1.symm, ?_⟩
        rw [← h.2.2, hturn1]

theorem parseMoveString_valid {Pos : Type} (O : Oracle Pos) (moveString fen : String)
    (move : Move) (h : parseMoveString O moveString fen = .valid move) :
    move = moveOfString moveString ∧
      ∃ chess chess1, O.load (fenOrDefault fen) = .ok chess ∧
        O.move chess move = .ok (some chess1) := by
  unfold parseMoveString at h
  split at h
  · simp at h
  · simp only at h
    split at h
    · simp at h
    · split at h
      · simp at h
      · rename_i chess hload
        split at h
        · simp at h
        · simp at h
        · rename_i chess1 hmove
          simp only [Parsed.valid.injEq] at h
          subst h
          exact ⟨rfl, chess, chess1, hload, hmove⟩

/-! ## Theorems: one pass of `makeMove` -/

theorem playerColorOf_eq_colorOf (game : Game) (userId : UserId) (c : Color)
    (h : playerColorOf game userId = .ok (some c)) : colorOf game userId = some c := by
  unfold playerColorOf at h
  unfold colorOf
  split at h
  · rename_i hw
    simp only [Except.ok.injEq] at h
    simp [hw, h]
  · rename_i hw
    split at h
    · simp at h
    · rename_i black hb
      split at h
      · rename_i hbu
        simp only [Except.ok.injEq] at h
        simp [hw, hb, hbu, h]
      · simp at h

/-- The move a pass works on: the parsed string, or the object sent. -/
theorem parsed_valid_denotes {Pos : Type} (O : Oracle Pos) (input : MoveInput) (fen : String)
    (move : Move)
    (h : (match input with
          | .str m => parseMoveString O m fen
          | .obj m => Parsed.valid m) = .valid move) :
    move = input.denotes := by
  cases input with
  | str m => exact (parseMoveString_valid O m fen move h).1
  | obj m =>
    simp only [Parsed.valid.injEq] at h
    simp [MoveInput.denotes, h]

/-- A pass whose read is served either rejects the move, leaving the state as it
was but for one `move_rejected` carrying the stored position, or it accepts the
move and goes on to `save`. -/
theorem makeMovePass_cases {Pos : Type} (O : Oracle Pos) (pow10 : Rat → Rat)
    (req : MoveRequest) (now : Int) (t : Txn) (game0 : Option Game) (s : Sys)
    (ht : ∀ f, t ≠ .readFails f) :
    (∃ reason, makeMovePass O pow10 req now t game0 s =
        .done (s.emit (.move_rejected reason (some s.game.fen)))) ∨
    (s.game.status = Status.active ∧
      ∃ c fen turn r,
        playerColorOf s.game req.userId = .ok (some c) ∧
        validateMove O s.game.fen req.move.denotes c = .valid fen turn r ∧
        makeMovePass O pow10 req now t game0 s =
          (let game1 := applyMove s.game req.move.denotes fen turn r now
           let gameEnded : Bool := r.status ≠ Status.active
           let s2 : Sys := endGameEffects pow10 gameEnded game1 s
           match t with
           | .commitFails f => makeMoveCatch f (some game1) s2
           | _ =>
             let s3 : Sys := { s2 with game := game1 }.emit (.move_made fen r turn)
             .done (if gameEnded then s3.emit (.game_over r.status game1.winner) else s3))) := by
  by_cases hst : s.game.status = Status.active
  swap
  · left
    refine ⟨"Game is not active", ?_⟩
    cases t with
    | readFails f => exact absurd rfl (ht f)
    | ok => simp [makeMovePass, hst]
    | commitFails f => simp [makeMovePass, hst]
  · cases hpc : playerColorOf s.game req.userId with
    | error msg =>
      left
      refine ⟨"Server error: " ++ msg, ?_⟩
      cases t with
      | readFails f => exact absurd rfl (ht f)
      | ok => simp [makeMovePass, hst, hpc, makeMoveCatch]
      | commitFails f => simp [makeMovePass, hst, hpc, makeMoveCatch]
    | ok oc =>
      cases oc with
      | none =>
        left
        refine ⟨"You are not a player in this game", ?_⟩
        cases t with
        | readFails f => exact absurd rfl (ht f)
        | ok => simp [makeMovePass, hst, hpc]
        | commitFails f => simp [makeMovePass, hst, hpc]
      | some c =>
        cases hparse : (match req.move with
            | .str m => parseMoveString O m s.game.fen
            | .obj m => Parsed.valid m) with
        | invalid error =>
          left
          refine ⟨error, ?_⟩
          cases t with
          | readFails f => exact absurd rfl (ht f)
          | ok => simp [makeMovePass, hst, hpc, hparse]
          | commitFails f => simp [makeMovePass, hst, hpc, hparse]
        | valid move =>
          have hmove : move = req.move.denotes :=
            parsed_valid_denotes O req.move s.game.fen move hparse
          cases hval : validateMove O s.game.fen move c with
          | invalid fen1 turn1 error =>
            left
            refine ⟨error, ?_⟩
            cases t with
            | readFails f => exact absurd rfl (ht f)
            | ok => simp [makeMovePass, hst, hpc, hparse, hval]
            | commitFails f => simp [makeMovePass, hst, hpc, hparse, hval]
          | valid fen turn r =>
            right
            refine ⟨hst, c, fen, turn, r, rfl, hmove ▸ hval, ?_⟩
            subst hmove
            cases t with
            | readFails f => exact absurd rfl (ht f)
            | ok => simp [makeMovePass, hst, hpc, hparse, hval]
            | commitFails f => simp [makeMovePass, hst, hpc, hparse, hval]

/-! ## Theorems: rejected moves -/

/-- C1. For every stored game and every `make_move` request, while the store
serves its reads: if the game is not active, or the user is neither the white
nor the black player, or the side to move in the stored position is not the
user's colour, or the rules engine refuses the move, then `makeMove` emits one
`move_rejected` whose `fen` is the stored one and changes nothing else: the
stored game (fen, turn, moves, status, winner, both clocks) is as before. -/
theorem makeMove_rejects {Pos : Type} (O : Oracle Pos) (pow10 : Rat → Rat)
    (req : MoveRequest) (now : Int) (txns : List Txn) (s : Sys)
    (hread : ∀ f, Txn.readFails f ∉ txns)
    (h : s.game.status ≠ Status.active ∨
      (s.game.whitePlayer ≠ req.userId ∧ s.game.blackPlayer ≠ some req.userId) ∨
      (∃ c, colorOf s.game req.userId = some c ∧ notTurnOf O s.game.fen c) ∨
      oracleRejects O s.game.fen req.move.denotes) :
    (∃ reason, makeMove O pow10 req now txns s =
        s.emit (.move_rejected reason (some s.game.fen))) ∧
      (makeMove O pow10 req now txns s).game = s.game := by
  have ht : ∀ f, txns.headD Txn.ok ≠ .readFails f := by
    intro f hf
    cases txns with
    | nil => simp at hf
    | cons t rest =>
      simp only [List.headD_cons] at hf
      exact hread f (by simp [hf])
  have key : ∃ reason, makeMovePass O pow10 req now (txns.headD .ok) none s =
      .done (s.emit (.move_rejected reason (some s.game.fen))) := by
    rcases makeMovePass_cases O pow10 req now (txns.headD .ok) none s ht with hrej | hacc
    · exact hrej
    · exfalso
      obtain ⟨hst, c, fen, turn, r, hpc, hval, -⟩ := hacc
      obtain ⟨chess, chess1, hload, hturn, hmove, -⟩ :=
        validateMove_valid O s.game.fen req.move.denotes c fen turn r hval
      have hcol := playerColorOf_eq_colorOf s.game req.userId c hpc
      rcases h with h | h | h | h
      · exact h hst
      · unfold colorOf at hcol
        simp [h.1, h.2] at hcol
      · obtain ⟨c1, hc1, hnt⟩ := h
        rw [hcol] at hc1
        simp only [Option.some.injEq] at hc1
        subst hc1
        unfold notTurnOf at hnt
        rw [hload] at hnt
        exact hnt hturn
      · unfold oracleRejects at h
        rw [hload] at h
        simp only [hmove] at h
  obtain ⟨reason, hk⟩ := key
  have hmk : makeMove O pow10 req now txns s =
      s.emit (.move_rejected reason (some s.game.fen)) := by
    unfold makeMove
    show makeMoveLoop O pow10 req now (2 + 1) txns none s = _
    simp only [makeMoveLoop, hk]
  exact ⟨⟨reason, hmk⟩, by rw [hmk]; rfl⟩

/-- C1 at a concrete request: `bob`, who plays black, sends a move in the initial
position, where white is to move. -/
theorem makeMove_rejects_witness :
    (∃ reason, makeMove toyOracle toyPow10 ⟨"bob", .str "e7e5"⟩ 2000 []
        (joinGame "bob" 1000 (toyStart 2)) =
        (joinGame "bob" 1000 (toyStart 2)).emit
          (.move_rejected reason (some (joinGame "bob" 1000 (toyStart 2)).game.fen))) ∧
      (makeMove toyOracle toyPow10 ⟨"bob", .str "e7e5"⟩ 2000 []
        (joinGame "bob" 1000 (toyStart 2))).game = (joinGame "bob" 1000 (toyStart 2)).game :=
  makeMove_rejects toyOracle toyPow10 ⟨"bob", .str "e7e5"⟩ 2000 []
    (joinGame "bob" 1000 (toyStart 2)) (by simp)
    (Or.inr (Or.inr (Or.inl ⟨Color.b, by decide, by decide⟩)))

/-! ## Theorems: the retry loop of `makeMove` -/

theorem SameTimers.rfl_timers (s : Sys) : SameTimers s s := ⟨rfl, rfl, rfl⟩

theorem SameTimers.then_timers {s s1 s2 : Sys} (h1 : SameTimers s s1) (h2 : SameTimers s1 s2) :
    SameTimers s s2 :=
  ⟨h2.1.trans h1.1, h2.2.1.trans h1.2.1, h2.2.2.trans h1.2.2⟩

theorem endGameEffects_frame (pow10 : Rat → Rat) (gameEnded : Bool) (game1 : Game) (s : Sys) :
    SameTimers s (endGameEffects pow10 gameEnded game1 s) ∧
      (endGameEffects pow10 gameEnded game1 s).game = s.game ∧
      (endGameEffects pow10 gameEnded game1 s).emitted = s.emitted ∧
      (endGameEffects pow10 gameEnded game1 s).playerActivityMap = s.playerActivityMap := by
  unfold endGameEffects
  cases gameEnded <;> cases game1.winner.isSome <;> exact ⟨⟨rfl, rfl, rfl⟩, rfl, rfl, rfl⟩

/-- Whatever the store does, `makeMove` leaves the stored game as it was or
stores the document of an accepted move, and it never touches the
disconnection timers. -/
theorem makeMoveLoop_game {Pos : Type} (O : Oracle Pos) (pow10 : Rat → Rat)
    (req : MoveRequest) (now : Int) (retries : Nat) :
    ∀ (txns : List Txn) (game0 : Option Game) (s : Sys),
      SameTimers s (makeMoveLoop O pow10 req now retries txns game0 s) ∧
      ((makeMoveLoop O pow10 req now retries txns game0 s).game = s.game ∨
        (s.game.status = Status.active ∧
          ∃ c fen turn r,
            playerColorOf s.game req.userId = .ok (some c) ∧
            validateMove O s.game.fen req.move.denotes c = .valid fen turn r ∧
            (makeMoveLoop O pow10 req now retries txns game0 s).game =
              applyMove s.game req.move.denotes fen turn r now)) := by
  induction retries with
  | zero =>
    intro txns game0 s
    exact ⟨⟨rfl, rfl, rfl⟩, Or.inl rfl⟩
  | succ n ih =>
    intro txns game0 s
    rw [makeMoveLoop]
    generalize txns.headD Txn.ok = t
    cases t with
    | readFails f =>
      cases f with
      | writeConflict =>
        simp only [makeMovePass, makeMoveCatch]
        exact ih txns.tail game0 s
      | other msg =>
        simp only [makeMovePass, makeMoveCatch]
        exact ⟨⟨rfl, rfl, rfl⟩, Or.inl rfl⟩
    | ok =>
      rcases makeMovePass_cases O pow10 req now .ok game0 s (by intro f; simp) with hrej | hacc
      · obtain ⟨reason, hk⟩ := hrej
        rw [hk]
        exact ⟨⟨rfl, rfl, rfl⟩, Or.inl rfl⟩
      · obtain ⟨hst, c, fen, turn, r, hpc, hval, hk⟩ := hacc
        rw [hk]
        obtain ⟨hT, hG, -, -⟩ := endGameEffects_frame pow10 (decide (r.status ≠ Status.active))
          (applyMove s.game req.move.denotes fen turn r now) s
        refine ⟨?_, Or.inr ⟨hst, c, fen, turn, r, hpc, hval, ?_⟩⟩
        · simp only
          split_ifs <;> exact hT
        · simp only
          split_ifs <;> rfl
    | commitFails f =>
      rcases makeMovePass_cases O pow10 req now (.commitFails f) game0 s (by intro f; simp)
        with hrej | hacc
      · obtain ⟨reason, hk⟩ := hrej
        rw [hk]
        exact ⟨⟨rfl, rfl, rfl⟩, Or.inl rfl⟩
      · obtain ⟨hst, c, fen, turn, r, hpc, hval, hk⟩ := hacc
        rw [hk]
        obtain ⟨hT, hG, -, -⟩ := endGameEffects_frame pow10 (decide (r.status ≠ Status.active))
          (applyMove s.game req.move.denotes fen turn r now) s
        cases f with
        | writeConflict =>
          simp only [makeMoveCatch]
          obtain ⟨ihT, ihG⟩ := ih txns.tail
            (some (applyMove s.game req.move.denotes fen turn r now))
            (endGameEffects pow10 (decide (r.status ≠ Status.active))
              (applyMove s.game req.move.denotes fen turn r now) s)
          refine ⟨hT.then_timers ihT, ?_⟩
          rw [hG] at ihG
          exact ihG
        | other msg =>
          simp only [makeMoveCatch]
          exact ⟨hT, Or.inl hG⟩

/-! ## Theorems: the invariant -/

@[simp] theorem emit_game (s : Sys) (e : Emit) : (s.emit e).game = s.game := rfl

@[simp] theorem emit_pendingTimeouts (s : Sys) (e : Emit) :
    (s.emit e).pendingTimeouts = s.pendingTimeouts := rfl

@[simp] theorem emit_disconnectionTimers (s : Sys) (e : Emit) :
    (s.emit e).disconnectionTimers = s.disconnectionTimers := rfl

@[simp] theorem emit_nextHandle (s : Sys) (e : Emit) : (s.emit e).nextHandle = s.nextHandle := rfl

@[simp] theorem emit_timerIntervals (s : Sys) (e : Emit) :
    (s.emit e).timerIntervals = s.timerIntervals := rfl

@[simp] theorem emit_users (s : Sys) (e : Emit) : (s.emit e).users = s.users := rfl

@[simp] theorem emit_playerActivityMap (s : Sys) (e : Emit) :
    (s.emit e).playerActivityMap = s.playerActivityMap := rfl

theorem validTimeControl_num {timeControl : Rat} (h : validTimeControl timeControl = true) :
    1 ≤ timeControl.num := by
  unfold validTimeControl at h
  simp only [Bool.and_eq_true, decide_eq_true_eq] at h
  have := Rat.num_pos.mpr h.2
  omega

theorem validTimeControl_eq {timeControl : Rat} (h : validTimeControl timeControl = true) :
    ((timeControl.num : Int) : Rat) = timeControl := by
  unfold validTimeControl at h
  simp only [Bool.and_eq_true, decide_eq_true_eq] at h
  have hden : timeControl.den = 1 := by
    have := h.1
    unfold Rat.isInt at this
    simpa using this
  exact (Rat.den_eq_one_iff timeControl).mp hden

/-- The invariant only reads the players, the time control, the status, the
clocks and the winner. -/
theorem GameInv.congr {g g1 : Game} (h : GameInv g) (h1 : g1.creator = g.creator)
    (h2 : g1.whitePlayer = g.whitePlayer) (h3 : g1.blackPlayer = g.blackPlayer)
    (h4 : g1.timeControl = g.timeControl) (h5 : g1.status = g.status)
    (h6 : g1.whiteTime = g.whiteTime) (h7 : g1.blackTime = g.blackTime)
    (h8 : g1.winner = g.winner) : GameInv g1 := by
  constructor
  · rw [h1, h2]; exact h.creator_white
  · rw [h2, h3]; exact h.black_ne_white
  · rw [h4]; exact h.time_control
  · rw [h5, h3, h8]; exact h.waiting
  · rw [h5, h3, h6, h7]; exact h.joined
  · rw [h5, h6, h7]; exact h.active
  · rw [h5, h8]; exact h.winner_iff
  · rw [h2, h3, h8]; exact h.winner_mem

/-- A joined game stays well formed when the players and the time control are
kept, the clocks stay non-negative (positive while active) and the winner is
set exactly with a decisive status, to one of the players. -/
theorem GameInv.update {g g1 : Game} (h : GameInv g) (hj : g.status ≠ Status.waiting)
    (h1 : g1.creator = g.creator) (h2 : g1.whitePlayer = g.whitePlayer)
    (h3 : g1.blackPlayer = g.blackPlayer) (h4 : g1.timeControl = g.timeControl)
    (a b : Int) (ha : g1.whiteTime = some a) (hb : g1.blackTime = some b)
    (ha0 : 0 ≤ a) (hb0 : 0 ≤ b) (hst : g1.status ≠ Status.waiting)
    (hact : g1.status = Status.active → 1 ≤ a ∧ 1 ≤ b)
    (hwin : (∃ u, g1.winner = some u) ↔
      (g1.status = Status.checkmate ∨ g1.status = Status.resigned ∨
        g1.status = Status.timeout))
    (hmem : ∀ u, g1.winner = some u → u = g.whitePlayer ∨ g.blackPlayer = some u) :
    GameInv g1 := by
  constructor
  · rw [h1, h2]; exact h.creator_white
  · rw [h2, h3]; exact h.black_ne_white
  · rw [h4]; exact h.time_control
  · intro hw; exact absurd hw hst
  · intro _
    rw [h3]
    exact ⟨(h.joined hj).1, a, b, ha, hb, ha0, hb0⟩
  · intro hactive
    exact ⟨a, b, ha, hb, (hact hactive).1, (hact hactive).2⟩
  · exact hwin
  · rw [h2, h3]; exact hmem

theorem createGame_inv (users : Users) (userId : UserId) (timeControl : Rat) (now : Int)
    (game : Game) (h : createGame users userId timeControl now = some game) : GameInv game := by
  unfold createGame at h
  split at h
  · simp at h
  · split at h
    · simp at h
    · rename_i htc
      simp only [Option.some.injEq] at h
      subst h
      constructor <;> simp_all

/-- `joinGame` either answers with an error and changes nothing else, or it seats
the joiner as black, starts both clocks and records the activity of both
players. -/
theorem joinGame_cases (userId : UserId) (now : Int) (s : Sys) :
    (∃ msg, joinGame userId now s = s.emit (.error msg)) ∨
    (s.game.status = Status.waiting ∧ s.game.whitePlayer ≠ userId ∧
      (∃ rating, s.users userId = some rating) ∧
      validTimeControl s.game.timeControl = true ∧
      joinGame userId now s =
        { s with
          game :=
            { s.game with
              blackPlayer := some userId, status := Status.active,
              whiteTime := some (s.game.timeControl.num * 60),
              blackTime := some (s.game.timeControl.num * 60), updatedAt := now },
          playerActivityMap :=
            setActivity (setActivity s.playerActivityMap s.game.whitePlayer now) userId now,
          emitted := s.emitted ++
            [.game_started
              { s.game with
                blackPlayer := some userId, status := Status.active,
                whiteTime := some (s.game.timeControl.num * 60),
                blackTime := some (s.game.timeControl.num * 60), updatedAt := now },
             .timer_update (some (s.game.timeControl.num * 60))
               (some (s.game.timeControl.num * 60))] }) := by
  by_cases hst : s.game.status = Status.waiting
  swap
  · exact Or.inl ⟨"Game is not available", by simp [joinGame, hst]⟩
  by_cases hw : s.game.whitePlayer = userId
  · exact Or.inl ⟨"You cannot join your own game", by simp [joinGame, hst, hw]⟩
  cases hu : s.users userId with
  | none => exact Or.inl ⟨"User not found", by simp [joinGame, hst, hw, hu]⟩
  | some rating =>
    by_cases htc : validTimeControl s.game.timeControl = true
    swap
    · exact Or.inl ⟨"Invalid time control", by simp [joinGame, hst, hw, hu, htc]⟩
    · exact Or.inr ⟨hst, hw, ⟨rating, rfl⟩, htc, by simp [joinGame, hst, hw, hu, htc]⟩

theorem joinGame_inv (userId : UserId) (now : Int) (s : Sys) (h : Inv s) :
    Inv (joinGame userId now s) := by
  rcases joinGame_cases userId now s with ⟨msg, hj⟩ | ⟨hst, hw, -, htc, hj⟩
  · rw [hj]
    exact ⟨h.game, h.pending_registered⟩
  · rw [hj]
    have hnum := validTimeControl_num htc
    refine ⟨?_, h.pending_registered⟩
    constructor
    · exact h.game.creator_white
    · simp only [ne_eq, Option.some.injEq]
      exact fun e => hw e.symm
    · exact htc
    · simp
    · intro _
      exact ⟨⟨userId, rfl⟩, _, _, rfl, rfl, by omega, by omega⟩
    · intro _
      exact ⟨_, _, rfl, rfl, by omega, by omega⟩
    · simp [(h.game.waiting hst).2]
    · simp [(h.game.waiting hst).2]

/-! ## Theorems: the interval callback -/

@[simp] theorem decrementClock_turn (game : Game) : (decrementClock game).turn = game.turn := by
  unfold decrementClock; split_ifs <;> rfl

@[simp] theorem decrementClock_whitePlayer (game : Game) :
    (decrementClock game).whitePlayer = game.whitePlayer := by
  unfold decrementClock; split_ifs <;> rfl

@[simp] theorem decrementClock_blackPlayer (game : Game) :
    (decrementClock game).blackPlayer = game.blackPlayer := by
  unfold decrementClock; split_ifs <;> rfl

@[simp] theorem decrementClock_status (game : Game) :
    (decrementClock game).status = game.status := by
  unfold decrementClock; split_ifs <;> rfl

@[simp] theorem decrementClock_winner (game : Game) :
    (decrementClock game).winner = game.winner := by
  unfold decrementClock; split_ifs <;> rfl

@[simp] theorem decrementClock_creator (game : Game) :
    (decrementClock game).creator = game.creator := by
  unfold decrementClock; split_ifs <;> rfl

@[simp] theorem decrementClock_timeControl (game : Game) :
    (decrementClock game).timeControl = game.timeControl := by
  unfold decrementClock; split_ifs <;> rfl

/-- The callback on an active game whose side to move has a counter and a
player: either it abandons the game for inactivity, or it goes on to the
timeout check, possibly after an inactivity warning. -/
theorem tick_cases (pow10 : Rat → Rat) (now : Int) (s : Sys) (driver : Driver)
    (hd : s.timerIntervals = some driver) (hst : s.game.status = Status.active)
    (a : Int) (hm : moverTime s.game = some a) (u : UserId)
    (hu : (if s.game.turn = Color.w then some s.game.whitePlayer else s.game.blackPlayer)
      = some u) :
    (abandonsForInactivity driver now s ∧
      tick pow10 now s =
        { s with game := { decrementClock s.game with status := Status.abandoned },
                 timerIntervals := none }.emit (.game_over Status.abandoned none)) ∨
    (¬ abandonsForInactivity driver now s ∧
      ∃ s1, (s1 = s ∨ ∃ remaining, s1 = s.emit (.inactivity_warning u remaining)) ∧
        tick pow10 now s = tickTimeout pow10 true (decrementClock s.game) s1) := by
  unfold tick
  simp only [hd, hst, hm, ne_eq, not_true_eq_false, ↓reduceIte, Option.isSome_some,
    decrementClock_turn, decrementClock_whitePlayer, decrementClock_blackPlayer, hu,
    Bool.not_true, Bool.false_eq_true]
  by_cases hel : now - driver.gameStartTime > initialActivityGracePeriod
  · simp only [hel, ↓reduceIte]
    by_cases hab : (s.playerActivityMap u).getD 0 > 0 ∧
        (((now - (s.playerActivityMap u).getD 0 : Int) : Rat)) > driver.activityCheckThreshold
    · left
      refine ⟨⟨hel, u, hu, hab.1, hab.2⟩, ?_⟩
      rw [if_pos hab]
    · right
      refine ⟨?_, ?_⟩
      · rintro ⟨-, v, hv, h1, h2⟩
        rw [hu] at hv
        simp only [Option.some.injEq] at hv
        subst hv
        exact hab ⟨h1, h2⟩
      · rw [if_neg hab]
        split_ifs
        · exact ⟨_, Or.inr ⟨_, rfl⟩, rfl⟩
        · exact ⟨_, Or.inl rfl, rfl⟩
  · right
    refine ⟨fun h => hel h.1, s, Or.inl rfl, ?_⟩
    simp only [hel, ↓reduceIte]

/-- The stored game after the timeout check, when the store accepts the save. -/
theorem tickTimeout_game (pow10 : Rat → Rat) (game : Game) (s : Sys) :
    (tickTimeout pow10 true game s).game =
      (if timeUp game.whiteTime then
        { game with status := Status.timeout, winner := game.blackPlayer }
       else if timeUp game.blackTime then
        { game with status := Status.timeout, winner := some game.whitePlayer }
       else game) := by
  unfold tickTimeout
  simp only [Bool.not_true, Bool.false_eq_true, ↓reduceIte]
  split_ifs <;> rfl

theorem tickTimeout_timers (pow10 : Rat → Rat) (saves : Bool) (game : Game) (s : Sys) :
    SameTimers s (tickTimeout pow10 saves game s) := by
  unfold tickTimeout
  simp only
  split_ifs <;> exact ⟨rfl, rfl, rfl⟩

theorem tick_timers (pow10 : Rat → Rat) (now : Int) (s : Sys) :
    SameTimers s (tick pow10 now s) := by
  unfold tick
  split
  · exact ⟨rfl, rfl, rfl⟩
  · simp only
    repeat' split
    all_goals
      first
      | exact ⟨rfl, rfl, rfl⟩
      | exact tickTimeout_timers _ _ _ _

theorem Keeps.refl (g : Game) : Keeps g g :=
  ⟨rfl, rfl, rfl, fun h => ⟨h, rfl, fun a b ha hb => ⟨a, b, ha, hb, le_refl a, le_refl b⟩⟩⟩

theorem Keeps.of_eq {g g1 : Game} (h1 : g1.creator = g.creator)
    (h2 : g1.whitePlayer = g.whitePlayer) (h3 : g1.blackPlayer = g.blackPlayer)
    (h4 : g1.timeControl = g.timeControl) (h5 : g1.status = g.status)
    (h6 : g1.whiteTime = g.whiteTime) (h7 : g1.blackTime = g.blackTime) : Keeps g g1 :=
  ⟨h2, h1, h4, fun h => ⟨by rw [h5]; exact h, h3, fun a b ha hb =>
    ⟨a, b, by rw [h6]; exact ha, by rw [h7]; exact hb, le_refl a, le_refl b⟩⟩⟩

theorem Keeps.trans {g g1 g2 : Game} (h1 : Keeps g g1) (h2 : Keeps g1 g2) : Keeps g g2 := by
  obtain ⟨a1, a2, a3, a4⟩ := h1
  obtain ⟨b1, b2, b3, b4⟩ := h2
  refine ⟨b1.trans a1, b2.trans a2, b3.trans a3, fun h => ?_⟩
  obtain ⟨c1, c2, c3⟩ := a4 h
  obtain ⟨d1, d2, d3⟩ := b4 c1
  refine ⟨d1, d2.trans c2, fun a b ha hb => ?_⟩
  obtain ⟨x, y, hx, hy, hxa, hyb⟩ := c3 a b ha hb
  obtain ⟨x1, y1, hx1, hy1, hxa1, hyb1⟩ := d3 x y hx hy
  exact ⟨x1, y1, hx1, hy1, hxa1.trans hxa, hyb1.trans hyb⟩

/-- An operation on an active game that keeps the players and the time control,
lowers no clock below zero, keeps both clocks positive if the game stays
active, and names a player as winner exactly with a decisive status, keeps the
document well formed. -/
theorem GameInv.step_active {g g1 : Game} (h : GameInv g) (hst : g.status = Status.active)
    (h1 : g1.creator = g.creator) (h2 : g1.whitePlayer = g.whitePlayer)
    (h3 : g1.blackPlayer = g.blackPlayer) (h4 : g1.timeControl = g.timeControl)
    (a b a1 b1 : Int) (ha : g.whiteTime = some a) (hb : g.blackTime = some b)
    (ha1 : g1.whiteTime = some a1) (hb1 : g1.blackTime = some b1)
    (hle : a1 ≤ a ∧ b1 ≤ b ∧ 0 ≤ a1 ∧ 0 ≤ b1) (hst1 : g1.status ≠ Status.waiting)
    (hact : g1.status = Status.active → 1 ≤ a1 ∧ 1 ≤ b1)
    (hwin : (∃ u, g1.winner = some u) ↔
      (g1.status = Status.checkmate ∨ g1.status = Status.resigned ∨
        g1.status = Status.timeout))
    (hmem : ∀ u, g1.winner = some u → u = g.whitePlayer ∨ g.blackPlayer = some u) :
    GameInv g1 ∧ Keeps g g1 := by
  have hj : g.status ≠ Status.waiting := by rw [hst]; decide
  refine ⟨GameInv.update h hj h1 h2 h3 h4 a1 b1 ha1 hb1 hle.2.2.1 hle.2.2.2 hst1 hact hwin hmem,
    h2, h1, h4, fun _ => ⟨hst1, h3, fun x y hx hy => ?_⟩⟩
  rw [ha] at hx
  rw [hb] at hy
  simp only [Option.some.injEq] at hx hy
  subst hx hy
  exact ⟨a1, b1, ha1, hb1, hle.1, hle.2.1⟩

/-- What an active, well-formed game provides: a black player, positive clocks
and no winner. -/
theorem GameInv.active_facts {g : Game} (h : GameInv g) (hst : g.status = Status.active) :
    ∃ black a b, g.blackPlayer = some black ∧ g.whiteTime = some a ∧ g.blackTime = some b ∧
      1 ≤ a ∧ 1 ≤ b ∧ g.winner = none ∧ black ≠ g.whitePlayer := by
  obtain ⟨a, b, ha, hb, ha1, hb1⟩ := h.active hst
  obtain ⟨⟨black, hbl⟩, -⟩ := h.joined (by rw [hst]; decide)
  refine ⟨black, a, b, hbl, ha, hb, ha1, hb1, ?_, ?_⟩
  · cases hw : g.winner with
    | none => rfl
    | some u =>
      have := h.winner_iff.mp ⟨u, hw⟩
      rw [hst] at this
      simp at this
  · intro e
    exact h.black_ne_white (by rw [hbl, e])

theorem tick_inv (pow10 : Rat → Rat) (now : Int) (s : Sys) (h : Inv s) :
    Inv (tick pow10 now s) ∧ Keeps s.game (tick pow10 now s).game := by
  have hT := tick_timers pow10 now s
  have hpend : ∀ g1, GameInv g1 → (tick pow10 now s).game = g1 → Inv (tick pow10 now s) := by
    intro g1 hg1 he
    refine ⟨he ▸ hg1, ?_⟩
    rw [hT.1, hT.2.1]
    exact h.pending_registered
  cases hd : s.timerIntervals with
  | none =>
    have : tick pow10 now s = s := by simp [tick, hd]
    rw [this]
    exact ⟨h, Keeps.refl _⟩
  | some driver =>
    by_cases hst : s.game.status = Status.active
    swap
    · have : (tick pow10 now s).game = s.game := by simp [tick, hd, hst]
      exact ⟨hpend _ h.game this, this ▸ Keeps.refl _⟩
    · obtain ⟨black, a, b, hbl, ha, hb, ha1, hb1, hwin, hne⟩ := h.game.active_facts hst
      have hm : ∃ m, moverTime s.game = some m := by
        unfold moverTime
        split_ifs
        · exact ⟨a, ha⟩
        · exact ⟨b, hb⟩
      obtain ⟨m, hm⟩ := hm
      have hu : ∃ u, (if s.game.turn = Color.w then some s.game.whitePlayer
          else s.game.blackPlayer) = some u := by
        split_ifs
        · exact ⟨_, rfl⟩
        · exact ⟨black, hbl⟩
      obtain ⟨u, hu⟩ := hu
      have hdec : ∃ a1 b1, (decrementClock s.game).whiteTime = some a1 ∧
          (decrementClock s.game).blackTime = some b1 ∧ a1 ≤ a ∧ b1 ≤ b ∧ 0 ≤ a1 ∧ 0 ≤ b1 ∧
          (1 ≤ a1 ∨ 1 ≤ b1) := by
        unfold decrementClock
        split_ifs
        · exact ⟨a - 1, b, by simp [ha], by simp [hb], by omega, by omega, by omega, by omega,
            Or.inr hb1⟩
        · exact ⟨a, b - 1, by simp [ha], by simp [hb], by omega, by omega, by omega, by omega,
            Or.inl ha1⟩
      obtain ⟨a1, b1, hda, hdb, hle1, hle2, h0a, h0b, hpos⟩ := hdec
      have hshape : ∀ g1 : Game, (tick pow10 now s).game = g1 →
          g1.creator = (decrementClock s.game).creator →
          g1.whitePlayer = (decrementClock s.game).whitePlayer →
          g1.blackPlayer = (decrementClock s.game).blackPlayer →
          g1.timeControl = (decrementClock s.game).timeControl →
          g1.whiteTime = (decrementClock s.game).whiteTime →
          g1.blackTime = (decrementClock s.game).blackTime →
          g1.status ≠ Status.waiting →
          (g1.status = Status.active → 1 ≤ a1 ∧ 1 ≤ b1) →
          ((∃ u, g1.winner = some u) ↔
            (g1.status = Status.checkmate ∨ g1.status = Status.resigned ∨
              g1.status = Status.timeout)) →
          (∀ u, g1.winner = some u → u = s.game.whitePlayer ∨ s.game.blackPlayer = some u) →
          Inv (tick pow10 now s) ∧ Keeps s.game (tick pow10 now s).game := by
        intro g1 he e1 e2 e3 e4 e5 e6 e7 e8 e9 e10
        have := GameInv.step_active h.game hst (by simpa using e1) (by simpa using e2)
          (by simpa using e3) (by simpa using e4) a b a1 b1 ha hb (e5.trans hda) (e6.trans hdb)
          ⟨hle1, hle2, h0a, h0b⟩ e7 e8 e9 e10
        exact ⟨hpend g1 this.1 he, he ▸ this.2⟩
      rcases tick_cases pow10 now s driver hd hst m hm u hu with ⟨-, ht⟩ | ⟨-, s1, -, ht⟩
      · refine hshape { decrementClock s.game with status := Status.abandoned }
          (by rw [ht]; rfl) rfl rfl rfl rfl rfl rfl (by simp) (by simp) ?_ ?_
        · simp [hwin]
        · simp [hwin]
      · have hg := (congrArg Sys.game ht).trans
          (tickTimeout_game pow10 (decrementClock s.game) s1)
        by_cases hwu : timeUp (decrementClock s.game).whiteTime = true
        · rw [if_pos hwu] at hg
          refine hshape _ hg rfl rfl rfl rfl rfl rfl (by simp) (by simp) ?_ ?_
          · simp [hbl]
          · simp [hbl]
        · rw [if_neg hwu] at hg
          by_cases hbu : timeUp (decrementClock s.game).blackTime = true
          · rw [if_pos hbu] at hg
            refine hshape _ hg rfl rfl rfl rfl rfl rfl (by simp) (by simp) ?_ ?_
            · simp
            · simp
          · rw [if_neg hbu] at hg
            rw [hda] at hwu
            rw [hdb] at hbu
            simp only [timeUp, decide_eq_true_eq, not_le] at hwu hbu
            refine hshape _ hg rfl rfl rfl rfl rfl rfl (by simp [hst])
              (fun _ => ⟨by omega, by omega⟩) ?_ ?_
            · simp [hwin, hst]
            · simp [hwin]

/-! ## Theorems: the invariant under moves, resignation and draws -/

theorem outcomeOf_cases {Pos : Type} (O : Oracle Pos) (chess : Pos) (c : Color) :
    outcomeOf O chess c = (Status.checkmate, some c) ∨
      outcomeOf O chess c = (Status.stalemate, none) ∨
      outcomeOf O chess c = (Status.draw, none) ∨
      outcomeOf O chess c = (Status.active, none) := by
  unfold outcomeOf
  split_ifs <;> simp

theorem applyMove_inv {Pos : Type} (O : Oracle Pos) (g : Game) (move : Move) (c : Color)
    (fen : String) (turn : Color) (r : MoveResult) (now : Int) (h : GameInv g)
    (hst : g.status = Status.active)
    (hval : validateMove O g.fen move c = .valid fen turn r) :
    GameInv (applyMove g move fen turn r now) ∧ Keeps g (applyMove g move fen turn r now) := by
  obtain ⟨black, a, b, hbl, ha, hb, ha1, hb1, hwin, hne⟩ := h.active_facts hst
  obtain ⟨chess, chess1, -, -, -, -, -, hr⟩ := validateMove_valid O g.fen move c fen turn r hval
  have hcases := outcomeOf_cases O chess1 c
  have hrs : r.status = (outcomeOf O chess1 c).1 := by rw [hr]
  have hrw : r.winner = (outcomeOf O chess1 c).2 := by rw [hr]
  have happ : ∀ st w, r.status = st → r.winner = w →
      applyMove g move fen turn r now =
        (if st ≠ Status.active then
          { g with fen := fen, turn := turn, moves := g.moves ++ [move], updatedAt := now,
                   status := st,
                   winner := match w with
                     | some c => if c = Color.w then some g.whitePlayer else g.blackPlayer
                     | none => none }
         else { g with fen := fen, turn := turn, moves := g.moves ++ [move],
                       updatedAt := now }) := by
    intro st w e1 e2
    unfold applyMove
    simp only [e1, e2]
  rcases hcases with hc | hc | hc | hc
  all_goals
    rw [hc] at hrs hrw
    simp only at hrs hrw
    rw [happ _ _ hrs hrw]
    simp only [ne_eq, reduceCtorEq, not_false_eq_true, not_true_eq_false, ↓reduceIte]
    refine GameInv.step_active h hst rfl rfl rfl rfl a b a b ha hb ha hb
      ⟨le_refl a, le_refl b, by omega, by omega⟩ ?_ ?_ ?_ ?_
  · simp
  · simp
  · refine ⟨fun _ => Or.inl rfl, fun _ => ?_⟩
    show ∃ u, (if c = Color.w then some g.whitePlayer else g.blackPlayer) = some u
    split_ifs
    · exact ⟨_, rfl⟩
    · exact ⟨black, hbl⟩
  · intro u hu
    have hu1 : (if c = Color.w then some g.whitePlayer else g.blackPlayer) = some u := hu
    split_ifs at hu1
    · left; simpa using hu1.symm
    · right; exact hu1
  · simp
  · simp
  · simp
  · simp
  · simp
  · simp
  · simp
  · simp
  · simp [hst]
  · intro _; exact ⟨ha1, hb1⟩
  · simp [hst, hwin]
  · simp [hwin]

theorem makeMove_inv {Pos : Type} (O : Oracle Pos) (pow10 : Rat → Rat) (req : MoveRequest)
    (now : Int) (txns : List Txn) (s : Sys) (h : Inv s) :
    Inv (makeMove O pow10 req now txns s) ∧ Keeps s.game (makeMove O pow10 req now txns s).game := by
  obtain ⟨hT, hG⟩ := makeMoveLoop_game O pow10 req now 3 txns none s
  have hpend : ∀ t ∈ (makeMove O pow10 req now txns s).pendingTimeouts,
      (makeMove O pow10 req now txns s).disconnectionTimers = some t.handle := by
    unfold makeMove
    rw [hT.1, hT.2.1]
    exact h.pending_registered
  rcases hG with hG | ⟨hst, c, fen, turn, r, -, hval, hG⟩
  · have hG1 : (makeMove O pow10 req now txns s).game = s.game := hG
    exact ⟨⟨hG1 ▸ h.game, hpend⟩, hG1 ▸ Keeps.refl _⟩
  · have hG1 : (makeMove O pow10 req now txns s).game =
        applyMove s.game req.move.denotes fen turn r now := hG
    have := applyMove_inv O s.game req.move.denotes c fen turn r now h.game hst hval
    exact ⟨⟨hG1 ▸ this.1, hpend⟩, hG1 ▸ this.2⟩

/-- On an active, well-formed game the participant test does not throw. -/
theorem notAPlayer_ok (g : Game) (userId : UserId) (black : UserId)
    (hbl : g.blackPlayer = some black) :
    notAPlayer g userId = .ok (decide (g.whitePlayer ≠ userId ∧ black ≠ userId)) := by
  unfold notAPlayer
  by_cases hw : g.whitePlayer = userId
  · simp [hw]
  · simp [hw, hbl]

theorem resignGame_inv (pow10 : Rat → Rat) (userId : UserId) (s : Sys) (h : Inv s) :
    Inv (resignGame pow10 userId s) ∧ Keeps s.game (resignGame pow10 userId s).game := by
  by_cases hst : s.game.status = Status.active
  swap
  · have : resignGame pow10 userId s = s.emit (.error "Game is not active") := by
      simp [resignGame, hst]
    rw [this]
    exact ⟨⟨h.game, h.pending_registered⟩, Keeps.refl _⟩
  · obtain ⟨black, a, b, hbl, ha, hb, ha1, hb1, hwin, hne⟩ := h.game.active_facts hst
    have hnp := notAPlayer_ok s.game userId black hbl
    by_cases hp : s.game.whitePlayer ≠ userId ∧ black ≠ userId
    · have : resignGame pow10 userId s = s.emit (.error "You are not a player in this game") := by
        simp only [resignGame, hst, hnp]
        simp [hp]
      rw [this]
      exact ⟨⟨h.game, h.pending_registered⟩, Keeps.refl _⟩
    · have hres : (resignGame pow10 userId s).game =
            { s.game with
              status := Status.resigned,
              winner := if s.game.whitePlayer = userId then s.game.blackPlayer
                        else some s.game.whitePlayer } ∧
          SameTimers s (resignGame pow10 userId s) := by
        simp only [resignGame, hst, hnp]
        simp only [hp, decide_False]
        exact ⟨rfl, rfl, rfl, rfl⟩
      have := @GameInv.step_active s.game (resignGame pow10 userId s).game h.game hst
        (by rw [hres.1]) (by rw [hres.1]) (by rw [hres.1]) (by rw [hres.1]) a b a b ha hb
        (by rw [hres.1]; exact ha) (by rw [hres.1]; exact hb)
        ⟨le_refl a, le_refl b, by omega, by omega⟩ (by rw [hres.1]; simp)
        (by rw [hres.1]; simp)
        (by
          rw [hres.1]
          simp only [or_true, true_or, iff_true]
          split_ifs
          · exact ⟨black, hbl⟩
          · exact ⟨_, rfl⟩)
        (by
          rw [hres.1]
          intro u hu
          simp only at hu
          split_ifs at hu
          · right; exact hu
          · left; simpa using hu.symm)
      refine ⟨⟨this.1, ?_⟩, this.2⟩
      rw [hres.2.1, hres.2.2.1]
      exact h.pending_registered

theorem offerDraw_game (userId : UserId) (s : Sys) :
    (offerDraw userId s).game = s.game ∧ SameTimers s (offerDraw userId s) := by
  unfold offerDraw
  simp only
  split_ifs
  · exact ⟨rfl, rfl, rfl, rfl⟩
  · split <;> exact ⟨rfl, rfl, rfl, rfl⟩

theorem offerDraw_inv (userId : UserId) (s : Sys) (h : Inv s) :
    Inv (offerDraw userId s) ∧ Keeps s.game (offerDraw userId s).game := by
  obtain ⟨hG, hT⟩ := offerDraw_game userId s
  refine ⟨⟨hG ▸ h.game, ?_⟩, hG ▸ Keeps.refl _⟩
  rw [hT.1, hT.2.1]
  exact h.pending_registered

/-- Setting the status of an active, well-formed game to `draw`, `stalemate` or
`abandoned` keeps it well formed. -/
theorem GameInv.end_undecided {g g1 : Game} (h : GameInv g) (hst : g.status = Status.active)
    (h1 : g1.creator = g.creator) (h2 : g1.whitePlayer = g.whitePlayer)
    (h3 : g1.blackPlayer = g.blackPlayer) (h4 : g1.timeControl = g.timeControl)
    (h6 : g1.whiteTime = g.whiteTime) (h7 : g1.blackTime = g.blackTime)
    (h8 : g1.winner = g.winner)
    (h5 : g1.status = Status.draw ∨ g1.status = Status.abandoned) :
    GameInv g1 ∧ Keeps g g1 := by
  obtain ⟨black, a, b, hbl, ha, hb, ha1, hb1, hwin, hne⟩ := h.active_facts hst
  refine GameInv.step_active h hst h1 h2 h3 h4 a b a b ha hb (h6.trans ha) (h7.trans hb)
    ⟨le_refl a, le_refl b, by omega, by omega⟩ ?_ ?_ ?_ ?_
  · rcases h5 with h5 | h5 <;> rw [h5] <;> decide
  · intro hact
    rcases h5 with h5 | h5 <;> rw [h5] at hact <;> cases hact
  · rw [h8, hwin]
    rcases h5 with h5 | h5 <;> rw [h5] <;> simp
  · rw [h8, hwin]
    simp

theorem acceptDraw_inv (userId : UserId) (s : Sys) (h : Inv s) :
    Inv (acceptDraw userId s) ∧ Keeps s.game (acceptDraw userId s).game := by
  by_cases hst : s.game.status = Status.active
  swap
  · have : acceptDraw userId s = s.emit (.error "Game is not active") := by
      simp [acceptDraw, hst]
    rw [this]
    exact ⟨⟨h.game, h.pending_registered⟩, Keeps.refl _⟩
  · obtain ⟨black, a, b, hbl, ha, hb, ha1, hb1, hwin, hne⟩ := h.game.active_facts hst
    have hnp := notAPlayer_ok s.game userId black hbl
    by_cases hp : s.game.whitePlayer ≠ userId ∧ black ≠ userId
    · have : acceptDraw userId s = s.emit (.error "You are not a player in this game") := by
        simp only [acceptDraw, hst, hnp]
        simp [hp]
      rw [this]
      exact ⟨⟨h.game, h.pending_registered⟩, Keeps.refl _⟩
    · have hres : (acceptDraw userId s).game = { s.game with status := Status.draw } ∧
          SameTimers s (acceptDraw userId s) := by
        simp only [acceptDraw, hst, hnp]
        simp only [hp, decide_False]
        exact ⟨rfl, rfl, rfl, rfl⟩
      have := @GameInv.end_undecided s.game (acceptDraw userId s).game h.game hst
        (by rw [hres.1]) (by rw [hres.1]) (by rw [hres.1]) (by rw [hres.1]) (by rw [hres.1])
        (by rw [hres.1]) (by rw [hres.1]) (by rw [hres.1]; exact Or.inl rfl)
      refine ⟨⟨this.1, ?_⟩, this.2⟩
      rw [hres.2.1, hres.2.2.1]
      exact h.pending_registered

/-! ## Theorems: the invariant under the timers, liveness signals and the sweep -/

theorem clear_registered (s : Sys) (h : Inv s) (handle : Nat)
    (hr : s.disconnectionTimers = some handle) :
    clearTimeout handle s.pendingTimeouts = [] := by
  unfold clearTimeout
  rw [List.filter_eq_nil_iff]
  intro t ht
  have := h.pending_registered t ht
  rw [hr] at this
  simp only [Option.some.injEq] at this
  simp [this]

theorem pending_nil_of_unregistered (s : Sys) (h : Inv s) (hr : s.disconnectionTimers = none) :
    s.pendingTimeouts = [] := by
  cases hp : s.pendingTimeouts with
  | nil => rfl
  | cons t rest =>
    have := h.pending_registered t (by rw [hp]; exact List.mem_cons_self _ _)
    rw [hr] at this
    cases this

theorem startTimer_inv (now : Int) (s : Sys) (h : Inv s) :
    Inv (startTimer now s) ∧ Keeps s.game (startTimer now s).game := by
  unfold startTimer
  simp only
  split_ifs <;> exact ⟨⟨h.game, h.pending_registered⟩, Keeps.refl _⟩

theorem updatePlayerActivity_inv (userId : UserId) (now : Int) (s : Sys) (h : Inv s) :
    Inv (updatePlayerActivity userId now s) ∧
      Keeps s.game (updatePlayerActivity userId now s).game :=
  ⟨⟨h.game.congr rfl rfl rfl rfl rfl rfl rfl rfl, h.pending_registered⟩,
    Keeps.of_eq rfl rfl rfl rfl rfl rfl rfl⟩

theorem handleReconnect_inv (s : Sys) (h : Inv s) :
    Inv (handleReconnect s) ∧ (handleReconnect s).game = s.game := by
  unfold handleReconnect
  split
  · exact ⟨h, rfl⟩
  · rename_i handle hr
    refine ⟨⟨h.game, ?_⟩, rfl⟩
    intro t ht
    have hnil := clear_registered s h handle hr
    simp only [hnil, List.not_mem_nil] at ht

theorem rejoinGame_inv (userId : UserId) (now : Int) (s : Sys) (h : Inv s) :
    Inv (rejoinGame userId now s) ∧ Keeps s.game (rejoinGame userId now s).game := by
  obtain ⟨hI, hG⟩ := handleReconnect_inv s h
  unfold rejoinGame
  simp only
  have h1 : Inv ((handleReconnect s).emit (.sync_game_state (handleReconnect s).game.fen
      (handleReconnect s).game.whiteTime (handleReconnect s).game.blackTime
      (handleReconnect s).game.status (handleReconnect s).game.turn)) :=
    ⟨hI.game, hI.pending_registered⟩
  obtain ⟨h2, h3⟩ := updatePlayerActivity_inv userId now _ h1
  refine ⟨h2, ?_⟩
  have : Keeps s.game ((handleReconnect s).emit (.sync_game_state (handleReconnect s).game.fen
      (handleReconnect s).game.whiteTime (handleReconnect s).game.blackTime
      (handleReconnect s).game.status (handleReconnect s).game.turn)).game := by
    rw [emit_game, hG]
    exact Keeps.refl _
  exact this.trans h3

theorem handleDisconnect_inv (now : Int) (s : Sys) (h : Inv s) :
    Inv (handleDisconnect now s) ∧ (handleDisconnect now s).game = s.game := by
  unfold handleDisconnect
  split_ifs with hst
  · exact ⟨h, rfl⟩
  · refine ⟨⟨h.game, ?_⟩, rfl⟩
    intro t ht
    simp only [List.mem_append, List.mem_singleton] at ht
    rcases ht with ht | ht
    · exfalso
      cases hr : s.disconnectionTimers with
      | none =>
        rw [hr] at ht
        simp only [pending_nil_of_unregistered s h hr, List.not_mem_nil] at ht
      | some old =>
        rw [hr] at ht
        simp only [clear_registered s h old hr, List.not_mem_nil] at ht
    · rw [ht]

theorem disconnectCallback_game (s : Sys) (h : GameInv s.game) :
    GameInv (disconnectCallback s).game ∧ Keeps s.game (disconnectCallback s).game := by
  unfold disconnectCallback
  split_ifs with hst
  · exact ⟨h, Keeps.refl _⟩
  · have hst1 : s.game.status = Status.active := by simpa using hst
    exact GameInv.end_undecided h hst1 rfl rfl rfl rfl rfl rfl rfl (Or.inr rfl)

theorem fireTimeout_inv (handle : Nat) (now : Int) (s : Sys) (h : Inv s) :
    Inv (fireTimeout handle now s) ∧ Keeps s.game (fireTimeout handle now s).game := by
  unfold fireTimeout
  split
  · exact ⟨h, Keeps.refl _⟩
  · rename_i t hfind
    split_ifs with hdue
    · exact ⟨h, Keeps.refl _⟩
    · have hmem : t ∈ s.pendingTimeouts := List.mem_of_find?_eq_some hfind
      have hth : t.handle = handle := by
        have := List.find?_some hfind
        simpa using this
      have hreg : s.disconnectionTimers = some handle := by
        rw [← hth]
        exact h.pending_registered t hmem
      have hnil := clear_registered s h handle hreg
      rw [hnil]
      obtain ⟨hG, hK⟩ := disconnectCallback_game
        { s with pendingTimeouts := ([] : List Timeout) } h.game
      refine ⟨⟨hG, ?_⟩, hK⟩
      intro t1 ht1
      have : (disconnectCallback { s with pendingTimeouts := ([] : List Timeout) }).pendingTimeouts
          = [] := by
        unfold disconnectCallback
        split_ifs <;> rfl
      rw [this] at ht1
      cases ht1

theorem cleanupGame_inv (now : Int) (activity : UserId → Option Int) (g : Game)
    (h : GameInv g) :
    GameInv (cleanupGame now activity g) ∧ Keeps g (cleanupGame now activity g) := by
  unfold cleanupGame
  simp only
  split_ifs with hc hrecent
  · exact ⟨h.congr rfl rfl rfl rfl rfl rfl rfl rfl, Keeps.of_eq rfl rfl rfl rfl rfl rfl rfl⟩
  · exact GameInv.end_undecided h hc.1 rfl rfl rfl rfl rfl rfl rfl (Or.inr rfl)
  · exact ⟨h, Keeps.refl _⟩

/-- Every event keeps the invariant, the players, the time control and the
direction of the clocks. -/
theorem step_inv {Pos : Type} (O : Oracle Pos) (pow10 : Rat → Rat) (s : Sys) (op : Op)
    (h : Inv s) : Inv (step O pow10 s op) ∧ Keeps s.game (step O pow10 s op).game := by
  cases op with
  | join userId now =>
    refine ⟨joinGame_inv userId now s h, ?_⟩
    show Keeps s.game (joinGame userId now s).game
    rcases joinGame_cases userId now s with ⟨msg, hj⟩ | ⟨hst, -, -, -, hj⟩
    · rw [hj]; exact Keeps.refl _
    · rw [hj]
      exact ⟨rfl, rfl, rfl, fun hne => absurd hst hne⟩
  | move req now txns => exact makeMove_inv O pow10 req now txns s h
  | startTimer now => exact startTimer_inv now s h
  | tick now => exact tick_inv pow10 now s h
  | resign userId => exact resignGame_inv pow10 userId s h
  | offerDraw userId => exact offerDraw_inv userId s h
  | acceptDraw userId => exact acceptDraw_inv userId s h
  | heartbeat userId now => exact updatePlayerActivity_inv userId now s h
  | rejoin userId now => exact rejoinGame_inv userId now s h
  | disconnect now =>
    obtain ⟨hI, hG⟩ := handleDisconnect_inv now s h
    exact ⟨hI, by show Keeps s.game (handleDisconnect now s).game; rw [hG]; exact Keeps.refl _⟩
  | fireTimeout handle now => exact fireTimeout_inv handle now s h
  | sweep now =>
    obtain ⟨hG, hK⟩ := cleanupGame_inv now s.playerActivityMap s.game h.game
    exact ⟨⟨hG, h.pending_registered⟩, hK⟩

theorem run_inv {Pos : Type} (O : Oracle Pos) (pow10 : Rat → Rat) (ops : List Op) :
    ∀ s : Sys, Inv s → Inv (run O pow10 s ops) ∧ Keeps s.game (run O pow10 s ops).game := by
  induction ops with
  | nil => intro s h; exact ⟨h, Keeps.refl _⟩
  | cons op rest ih =>
    intro s h
    obtain ⟨h1, k1⟩ := step_inv O pow10 s op h
    obtain ⟨h2, k2⟩ := ih (step O pow10 s op) h1
    exact ⟨h2, k1.trans k2⟩

theorem start_inv (users : Users) (userId : UserId) (timeControl : Rat) (now : Int)
    (game : Game) (nextHandle : Nat) (h : createGame users userId timeControl now = some game) :
    Inv (Sys.start users game nextHandle) :=
  ⟨createGame_inv users userId timeControl now game h, fun t ht => by cases ht⟩

/-- Every reachable state satisfies the invariant. -/
theorem reachable_inv {Pos : Type} (O : Oracle Pos) (pow10 : Rat → Rat) (s : Sys)
    (h : Reachable O pow10 s) : Inv s := by
  induction h with
  | start users userId timeControl now game nextHandle h =>
    exact start_inv users userId timeControl now game nextHandle h
  | step s op _ ih => exact (step_inv O pow10 s op ih).1

theorem reachable_run {Pos : Type} (O : Oracle Pos) (pow10 : Rat → Rat) (ops : List Op) :
    ∀ s : Sys, Reachable O pow10 s → Reachable O pow10 (run O pow10 s ops) := by
  induction ops with
  | nil => intro s h; exact h
  | cons op rest ih => intro s h; exact ih _ (Reachable.step s op h)

/-! ## Theorems: joining -/

theorem validTimeControl_positive_integer {timeControl : Rat}
    (h : validTimeControl timeControl = true) : ∃ n : Int, 0 < n ∧ timeControl = n :=
  ⟨timeControl.num, by have := validTimeControl_num h; omega, (validTimeControl_eq h).symm⟩

/-- C2. For every stored game (its creator plays white, as in every document
`createGame` makes) and every join request: if the status is not `waiting`, or
the joiner is the creator, or the time control is not a positive integer, then
`joinGame` emits an error and changes nothing else; in particular `blackPlayer`,
the status and both clocks of the stored game are as before. -/
theorem joinGame_rejects (userId : UserId) (now : Int) (s : Sys)
    (hc : s.game.creator = s.game.whitePlayer)
    (h : s.game.status ≠ Status.waiting ∨ userId = s.game.creator ∨
      ¬ ∃ n : Int, 0 < n ∧ s.game.timeControl = n) :
    (∃ msg, joinGame userId now s = s.emit (.error msg)) ∧
      (joinGame userId now s).game = s.game := by
  have key : ∃ msg, joinGame userId now s = s.emit (.error msg) := by
    rcases joinGame_cases userId now s with hrej | ⟨hst, hw, -, htc, -⟩
    · exact hrej
    · exfalso
      rcases h with h | h | h
      · exact h hst
      · exact hw (by rw [h, hc])
      · exact h (validTimeControl_positive_integer htc)
  obtain ⟨msg, hj⟩ := key
  exact ⟨⟨msg, hj⟩, by rw [hj]; rfl⟩

/-- C2 at a concrete request: `alice` tries to join the game she created. -/
theorem joinGame_rejects_witness :
    (toyStart 2).game.creator = (toyStart 2).game.whitePlayer ∧
      "alice" = (toyStart 2).game.creator ∧
      (∃ msg, joinGame "alice" 1000 (toyStart 2) = (toyStart 2).emit (.error msg)) ∧
      (joinGame "alice" 1000 (toyStart 2)).game = (toyStart 2).game :=
  ⟨rfl, rfl, joinGame_rejects "alice" 1000 (toyStart 2) rfl (Or.inr (Or.inl rfl))⟩

/-- C3. In every state reachable from `createGame`, `blackPlayer` is absent or
differs from `whitePlayer`; once it is set, no sequence of events changes it,
and every join is answered with an error that changes nothing else. -/
theorem blackPlayer_set_once {Pos : Type} (O : Oracle Pos) (pow10 : Rat → Rat) (s : Sys)
    (hr : Reachable O pow10 s) :
    s.game.blackPlayer ≠ some s.game.whitePlayer ∧
      ∀ black, s.game.blackPlayer = some black →
        (∀ ops : List Op, (run O pow10 s ops).game.blackPlayer = some black) ∧
        (∀ (ops : List Op) (userId : UserId) (now : Int),
          ∃ msg, joinGame userId now (run O pow10 s ops) =
            (run O pow10 s ops).emit (.error msg)) := by
  have hinv := reachable_inv O pow10 s hr
  refine ⟨hinv.game.black_ne_white, fun black hbl => ?_⟩
  have hj : s.game.status ≠ Status.waiting := by
    intro hw
    have := (hinv.game.waiting hw).1
    rw [hbl] at this
    cases this
  have hrun : ∀ ops : List Op, (run O pow10 s ops).game.status ≠ Status.waiting ∧
      (run O pow10 s ops).game.blackPlayer = some black := by
    intro ops
    obtain ⟨-, -, -, -, hk⟩ := run_inv O pow10 ops s hinv
    obtain ⟨h1, h2, -⟩ := hk hj
    exact ⟨h1, h2.trans hbl⟩
  refine ⟨fun ops => (hrun ops).2, fun ops userId now => ?_⟩
  rcases joinGame_cases userId now (run O pow10 s ops) with hrej | ⟨hst, -⟩
  · exact hrej
  · exact absurd hst (hrun ops).1

/-- C3 at a concrete state: the game of `alice` after `bob` joined. -/
theorem blackPlayer_set_once_witness :
    Reachable toyOracle toyPow10 (step toyOracle toyPow10 (toyStart 2) (.join "bob" 1000)) ∧
      (step toyOracle toyPow10 (toyStart 2) (.join "bob" 1000)).game.blackPlayer ≠
        some (step toyOracle toyPow10 (toyStart 2) (.join "bob" 1000)).game.whitePlayer ∧
      ∀ black, (step toyOracle toyPow10 (toyStart 2) (.join "bob" 1000)).game.blackPlayer
          = some black →
        (∀ ops : List Op,
          (run toyOracle toyPow10 (step toyOracle toyPow10 (toyStart 2) (.join "bob" 1000))
            ops).game.blackPlayer = some black) ∧
        (∀ (ops : List Op) (userId : UserId) (now : Int),
          ∃ msg, joinGame userId now
              (run toyOracle toyPow10 (step toyOracle toyPow10 (toyStart 2) (.join "bob" 1000))
                ops) =
            (run toyOracle toyPow10 (step toyOracle toyPow10 (toyStart 2) (.join "bob" 1000))
              ops).emit (.error msg)) :=
  ⟨Reachable.step _ _ (Reachable.start toyUsers "alice" 2 0 (toyGame 2) 0 (by decide)),
    blackPlayer_set_once toyOracle toyPow10 _
      (Reachable.step _ _ (Reachable.start toyUsers "alice" 2 0 (toyGame 2) 0 (by decide)))⟩

/-- C5. In every state reachable from `createGame` the winner is set exactly
when the status is `checkmate`, `resigned` or `timeout`; a winner is the white
or the black player of the game; with any other status there is no winner. -/
theorem winner_iff_decisive {Pos : Type} (O : Oracle Pos) (pow10 : Rat → Rat) (s : Sys)
    (hr : Reachable O pow10 s) :
    ((∃ u, s.game.winner = some u) ↔
      (s.game.status = Status.checkmate ∨ s.game.status = Status.resigned ∨
        s.game.status = Status.timeout)) ∧
    (∀ u, s.game.winner = some u → u = s.game.whitePlayer ∨ s.game.blackPlayer = some u) ∧
    ((s.game.status = Status.waiting ∨ s.game.status = Status.active ∨
        s.game.status = Status.stalemate ∨ s.game.status = Status.draw ∨
        s.game.status = Status.abandoned) → s.game.winner = none) := by
  have hinv := reachable_inv O pow10 s hr
  refine ⟨hinv.game.winner_iff, hinv.game.winner_mem, fun hst => ?_⟩
  cases hw : s.game.winner with
  | none => rfl
  | some u =>
    exfalso
    have := hinv.game.winner_iff.mp ⟨u, hw⟩
    rcases hst with e | e | e | e | e <;> rw [e] at this <;> simp at this

theorem toyStart_reachable (timeControl : Rat)
    (h : createGame toyUsers "alice" timeControl 0 = some (toyGame timeControl)) :
    Reachable toyOracle toyPow10 (toyStart timeControl) :=
  Reachable.start toyUsers "alice" timeControl 0 (toyGame timeControl) 0 h

/-- C5 at a concrete state: `alice` has mated `bob`. -/
theorem winner_iff_decisive_witness :
    Reachable toyOracle toyPow10 toyMated ∧ toyMated.game.status = Status.checkmate ∧
      toyMated.game.winner = some "alice" ∧
      ((∃ u, toyMated.game.winner = some u) ↔
        (toyMated.game.status = Status.checkmate ∨ toyMated.game.status = Status.resigned ∨
          toyMated.game.status = Status.timeout)) ∧
      (∀ u, toyMated.game.winner = some u →
        u = toyMated.game.whitePlayer ∨ toyMated.game.blackPlayer = some u) ∧
      ((toyMated.game.status = Status.waiting ∨ toyMated.game.status = Status.active ∨
          toyMated.game.status = Status.stalemate ∨ toyMated.game.status = Status.draw ∨
          toyMated.game.status = Status.abandoned) → toyMated.game.winner = none) :=
  ⟨reachable_run toyOracle toyPow10 _ _ (toyStart_reachable 2 (by decide)), by decide, by decide,
    winner_iff_decisive toyOracle toyPow10 toyMated
      (reachable_run toyOracle toyPow10 _ _ (toyStart_reachable 2 (by decide)))⟩

/-! ## Theorems: terminal states -/

theorem SameOutcome.rfl_outcome (g : Game) : SameOutcome g g := ⟨rfl, rfl, rfl, rfl, rfl, rfl, rfl, rfl⟩

theorem SameOutcome.then_outcome {g g1 g2 : Game} (h1 : SameOutcome g g1) (h2 : SameOutcome g1 g2) :
    SameOutcome g g2 := by
  obtain ⟨a1, a2, a3, a4, a5, a6, a7, a8⟩ := h1
  obtain ⟨b1, b2, b3, b4, b5, b6, b7, b8⟩ := h2
  exact ⟨b1.trans a1, b2.trans a2, b3.trans a3, b4.trans a4, b5.trans a5, b6.trans a6,
    b7.trans a7, b8.trans a8⟩

/-- On a game that is neither `waiting` nor `active`, no event changes the
outcome. -/
theorem step_terminal {Pos : Type} (O : Oracle Pos) (pow10 : Rat → Rat) (s : Sys) (op : Op)
    (h : s.game.status.terminal) : SameOutcome s.game (step O pow10 s op).game := by
  obtain ⟨hw, ha⟩ := h
  have same : ∀ s1 : Sys, s1.game = s.game → SameOutcome s.game s1.game := by
    intro s1 e
    rw [e]
    exact SameOutcome.rfl_outcome _
  cases op with
  | join userId now =>
    rcases joinGame_cases userId now s with ⟨msg, hj⟩ | ⟨hst, -⟩
    · exact same _ (by show (joinGame userId now s).game = s.game; rw [hj]; rfl)
    · exact absurd hst hw
  | move req now txns =>
    rcases (makeMoveLoop_game O pow10 req now 3 txns none s).2 with hG | ⟨hst, -⟩
    · exact same _ hG
    · exact absurd hst ha
  | startTimer now =>
    apply same
    show (startTimer now s).game = s.game
    unfold startTimer
    simp only
    split_ifs
    rfl
  | tick now =>
    apply same
    show (tick pow10 now s).game = s.game
    unfold tick
    split
    · rfl
    · simp [ha]
  | resign userId =>
    apply same
    show (resignGame pow10 userId s).game = s.game
    simp [resignGame, ha]
  | offerDraw userId => exact same _ (offerDraw_game userId s).1
  | acceptDraw userId =>
    apply same
    show (acceptDraw userId s).game = s.game
    simp [acceptDraw, ha]
  | heartbeat userId now => exact ⟨rfl, rfl, rfl, rfl, rfl, rfl, rfl, rfl⟩
  | rejoin userId now =>
    show SameOutcome s.game (rejoinGame userId now s).game
    have : (handleReconnect s).game = s.game := by
      unfold handleReconnect
      split <;> rfl
    unfold rejoinGame updatePlayerActivity
    simp only [emit_game, this]
    exact ⟨rfl, rfl, rfl, rfl, rfl, rfl, rfl, rfl⟩
  | disconnect now =>
    apply same
    show (handleDisconnect now s).game = s.game
    simp [handleDisconnect, ha]
  | fireTimeout handle now =>
    apply same
    show (fireTimeout handle now s).game = s.game
    unfold fireTimeout
    split
    · rfl
    · split_ifs
      · rfl
      · simp [disconnectCallback, ha]
  | sweep now =>
    apply same
    show (cleanupGame now s.playerActivityMap s.game) = s.game
    simp [cleanupGame, ha]

/-- C4. Terminal states are absorbing: on a game whose status is `checkmate`,
`stalemate`, `draw`, `resigned`, `timeout` or `abandoned`, every sequence of
events (joins, moves, resignations, draw offers and acceptances, clock ticks,
disconnection timers firing, sweeps, and also heartbeats, rejoins and
disconnections) leaves the status, the winner, the position, the side to move,
the moves and both clocks as they were; the game never is `waiting` or `active`
again. -/
theorem terminal_absorbing {Pos : Type} (O : Oracle Pos) (pow10 : Rat → Rat) (s : Sys)
    (ops : List Op)
    (h : s.game.status = Status.checkmate ∨ s.game.status = Status.stalemate ∨
      s.game.status = Status.draw ∨ s.game.status = Status.resigned ∨
      s.game.status = Status.timeout ∨ s.game.status = Status.abandoned) :
    (run O pow10 s ops).game.status = s.game.status ∧
      (run O pow10 s ops).game.winner = s.game.winner ∧
      (run O pow10 s ops).game.fen = s.game.fen ∧
      (run O pow10 s ops).game.turn = s.game.turn ∧
      (run O pow10 s ops).game.moves = s.game.moves ∧
      (run O pow10 s ops).game.whiteTime = s.game.whiteTime ∧
      (run O pow10 s ops).game.blackTime = s.game.blackTime ∧
      (run O pow10 s ops).game.status ≠ Status.waiting ∧
      (run O pow10 s ops).game.status ≠ Status.active := by
  have hterm : s.game.status.terminal := by
    rcases h with e | e | e | e | e | e <;> rw [e] <;> decide
  have key : ∀ (ops : List Op) (s : Sys), s.game.status.terminal →
      SameOutcome s.game (run O pow10 s ops).game := by
    intro ops
    induction ops with
    | nil => intro s _; exact SameOutcome.rfl_outcome _
    | cons op rest ih =>
      intro s hs
      have h1 := step_terminal O pow10 s op hs
      have hs1 : (step O pow10 s op).game.status.terminal := by rw [h1.1]; exact hs
      exact h1.then_outcome (ih _ hs1)
  obtain ⟨k1, k2, k3, k4, k5, k6, k7, -⟩ := key ops s hterm
  exact ⟨k1, k2, k3, k4, k5, k6, k7, by rw [k1]; exact hterm.1, by rw [k1]; exact hterm.2⟩

/-- C4 at a concrete state: after the mate, `bob` tries a move, resigns, a
clock tick and a sweep run. -/
theorem terminal_absorbing_witness :
    toyMated.game.status = Status.checkmate ∧
      (run toyOracle toyPow10 toyMated
        [.move ⟨"bob", .str "e7e5"⟩ 3000 [], .resign "bob", .tick 4000,
          .sweep 9000000]).game.status = toyMated.game.status ∧
      (run toyOracle toyPow10 toyMated
        [.move ⟨"bob", .str "e7e5"⟩ 3000 [], .resign "bob", .tick 4000,
          .sweep 9000000]).game.winner = toyMated.game.winner :=
  ⟨by decide,
    (terminal_absorbing toyOracle toyPow10 toyMated
      [.move ⟨"bob", .str "e7e5"⟩ 3000 [], .resign "bob", .tick 4000, .sweep 9000000]
      (Or.inl (by decide))).1,
    (terminal_absorbing toyOracle toyPow10 toyMated
      [.move ⟨"bob", .str "e7e5"⟩ 3000 [], .resign "bob", .tick 4000, .sweep 9000000]
      (Or.inl (by decide))).2.1⟩

/-! ## Theorems: the clocks -/

/-- C6. After a successful join both clocks hold `60 × timeControl`, and from
then on, along every sequence of events and for every further event, both
stored clocks are present, the event raises neither of them, and every stored
value is non-negative (in particular while the status is `active`). -/
theorem clocks_never_increase {Pos : Type} (O : Oracle Pos) (pow10 : Rat → Rat) (s : Sys)
    (hr : Reachable O pow10 s) (userId : UserId) (now : Int)
    (hw : s.game.status = Status.waiting)
    (hjoin : (joinGame userId now s).game.status = Status.active) :
    (∃ t : Int, (joinGame userId now s).game.whiteTime = some t ∧
      (joinGame userId now s).game.blackTime = some t ∧
      (t : Rat) = 60 * s.game.timeControl) ∧
    ∀ (ops : List Op) (op : Op),
      ∃ a b a1 b1 : Int,
        (run O pow10 (joinGame userId now s) ops).game.whiteTime = some a ∧
        (run O pow10 (joinGame userId now s) ops).game.blackTime = some b ∧
        (step O pow10 (run O pow10 (joinGame userId now s) ops) op).game.whiteTime = some a1 ∧
        (step O pow10 (run O pow10 (joinGame userId now s) ops) op).game.blackTime = some b1 ∧
        a1 ≤ a ∧ b1 ≤ b ∧ 0 ≤ a ∧ 0 ≤ b ∧ 0 ≤ a1 ∧ 0 ≤ b1 := by
  have hinv := reachable_inv O pow10 s hr
  have hinv1 := joinGame_inv userId now s hinv
  have hj1 : (joinGame userId now s).game.status ≠ Status.waiting := by rw [hjoin]; decide
  refine ⟨?_, fun ops op => ?_⟩
  · rcases joinGame_cases userId now s with ⟨msg, hj⟩ | ⟨-, -, -, htc, hj⟩
    · rw [hj, emit_game, hw] at hjoin
      cases hjoin
    · rw [hj]
      refine ⟨s.game.timeControl.num * 60, rfl, rfl, ?_⟩
      have := validTimeControl_eq htc
      push_cast
      rw [this]
      ring
  · obtain ⟨hI2, hK2⟩ := run_inv O pow10 ops (joinGame userId now s) hinv1
    obtain ⟨hj2, -, -⟩ := hK2.2.2.2 hj1
    obtain ⟨-, a, b, ha, hb, ha0, hb0⟩ := hI2.game.joined hj2
    obtain ⟨hI3, hK3⟩ := step_inv O pow10 (run O pow10 (joinGame userId now s) ops) op hI2
    obtain ⟨hj3, -, hle⟩ := hK3.2.2.2 hj2
    obtain ⟨a1, b1, ha1, hb1, hle1, hle2⟩ := hle a b ha hb
    obtain ⟨-, a2, b2, ha2, hb2, ha20, hb20⟩ := hI3.game.joined hj3
    rw [ha1] at ha2
    rw [hb1] at hb2
    simp only [Option.some.injEq] at ha2 hb2
    subst ha2 hb2
    exact ⟨a, b, a1, b1, ha, hb, ha1, hb1, hle1, hle2, ha0, hb0, ha20, hb20⟩

/-- C6 at a concrete state: `bob` joins the two-minute game of `alice`. -/
theorem clocks_never_increase_witness :
    Reachable toyOracle toyPow10 (toyStart 2) ∧
    (toyStart 2).game.status = Status.waiting ∧
    (joinGame "bob" 1000 (toyStart 2)).game.status = Status.active ∧
    (∃ t : Int, (joinGame "bob" 1000 (toyStart 2)).game.whiteTime = some t ∧
      (joinGame "bob" 1000 (toyStart 2)).game.blackTime = some t ∧
      (t : Rat) = 60 * (toyStart 2).game.timeControl) ∧
    ∀ (ops : List Op) (op : Op),
      ∃ a b a1 b1 : Int,
        (run toyOracle toyPow10 (joinGame "bob" 1000 (toyStart 2)) ops).game.whiteTime = some a ∧
        (run toyOracle toyPow10 (joinGame "bob" 1000 (toyStart 2)) ops).game.blackTime = some b ∧
        (step toyOracle toyPow10 (run toyOracle toyPow10 (joinGame "bob" 1000 (toyStart 2)) ops)
          op).game.whiteTime = some a1 ∧
        (step toyOracle toyPow10 (run toyOracle toyPow10 (joinGame "bob" 1000 (toyStart 2)) ops)
          op).game.blackTime = some b1 ∧
        a1 ≤ a ∧ b1 ≤ b ∧ 0 ≤ a ∧ 0 ≤ b ∧ 0 ≤ a1 ∧ 0 ≤ b1 :=
  ⟨toyStart_reachable 2 (by decide), by decide, by decide,
    clocks_never_increase toyOracle toyPow10 (toyStart 2) (toyStart_reachable 2 (by decide))
      "bob" 1000 (by decide) (by decide)⟩

/-- C7 fails as stated: in the two-minute toy game `alice` (white, to move) has
one second left; the tick at 126001, just after the two-minute grace window of
the driver, takes her clock to zero, and since her last activity (the join at
1000) is more than 60 seconds old the game is abandoned with no winner instead
of ending by timeout. -/
theorem tick_timeout_counterexample :
    Reachable toyOracle toyPow10 toyLastSecond ∧
      toyLastSecond.game.status = Status.active ∧
      toyLastSecond.game.turn = Color.w ∧
      toyLastSecond.game.whiteTime = some 1 ∧
      (tick toyPow10 126001 toyLastSecond).game.whiteTime = some 0 ∧
      (tick toyPow10 126001 toyLastSecond).game.status = Status.abandoned ∧
      (tick toyPow10 126001 toyLastSecond).game.winner = none :=
  ⟨reachable_run toyOracle toyPow10 _ _ (toyStart_reachable 2 (by decide)),
    by decide!, by decide!, by decide!, by decide!, by decide!, by decide!⟩

/-- C7, amended. For every clock tick on an active game, in a state reachable
from `createGame`, that takes the clock of the side to move from one to zero
and on which the inactivity check does not abandon the game: the game ends with
status `timeout` and the winner is the other participant, black when white's
clock reaches zero and white when black's does. -/
theorem tick_timeout {Pos : Type} (O : Oracle Pos) (pow10 : Rat → Rat) (s : Sys)
    (hr : Reachable O pow10 s) (driver : Driver) (now : Int)
    (hd : s.timerIntervals = some driver) (hst : s.game.status = Status.active)
    (hone : moverTime s.game = some 1) (hno : ¬ abandonsForInactivity driver now s) :
    moverTime (tick pow10 now s).game = some 0 ∧
      (tick pow10 now s).game.status = Status.timeout ∧
      ∃ black, s.game.blackPlayer = some black ∧
        (s.game.turn = Color.w → (tick pow10 now s).game.winner = some black) ∧
        (s.game.turn = Color.b → (tick pow10 now s).game.winner = some s.game.whitePlayer) := by
  have hinv := reachable_inv O pow10 s hr
  obtain ⟨black, a, b, hbl, ha, hb, ha1, hb1, -, -⟩ := hinv.game.active_facts hst
  have hu : ∃ u, (if s.game.turn = Color.w then some s.game.whitePlayer
      else s.game.blackPlayer) = some u := by
    split_ifs
    · exact ⟨_, rfl⟩
    · exact ⟨black, hbl⟩
  obtain ⟨u, hu⟩ := hu
  rcases tick_cases pow10 now s driver hd hst 1 hone u hu with ⟨hab, -⟩ | ⟨-, s1, -, ht⟩
  · exact absurd hab hno
  · have hg := (congrArg Sys.game ht).trans (tickTimeout_game pow10 (decrementClock s.game) s1)
    cases hturn : s.game.turn with
    | w =>
      have hwt : s.game.whiteTime = some 1 := by simpa [moverTime, hturn] using hone
      have hdw : (decrementClock s.game).whiteTime = some 0 := by
        simp [decrementClock, hturn, hwt]
      have hup : timeUp (decrementClock s.game).whiteTime = true := by
        rw [hdw]; simp [timeUp]
      rw [if_pos hup] at hg
      rw [hg]
      refine ⟨?_, rfl, black, hbl, ?_, ?_⟩
      · simp [moverTime, hturn, hdw]
      · intro _
        simp [hbl]
      · intro e
        cases e
    | b =>
      have hbt : s.game.blackTime = some 1 := by simpa [moverTime, hturn] using hone
      have hdw : (decrementClock s.game).whiteTime = some a := by
        simp [decrementClock, hturn, ha]
      have hdb : (decrementClock s.game).blackTime = some 0 := by
        simp [decrementClock, hturn, hbt]
      have hupw : ¬ timeUp (decrementClock s.game).whiteTime = true := by
        rw [hdw]; simp [timeUp]; omega
      have hupb : timeUp (decrementClock s.game).blackTime = true := by
        rw [hdb]; simp [timeUp]
      rw [if_neg hupw, if_pos hupb] at hg
      rw [hg]
      refine ⟨?_, rfl, black, hbl, ?_, ?_⟩
      · simp [moverTime, hturn, hdb]
      · intro e
        cases e
      · intro _
        simp

/-- C7, amended, at a concrete tick: in the toy game the tick at 126000 is still
inside the grace window of the driver, so the last second of `alice` ends the
game by timeout and `bob` wins. -/
theorem tick_timeout_witness :
    Reachable toyOracle toyPow10 toyLastSecond ∧
      toyLastSecond.timerIntervals = some ⟨6000, activityCheckThreshold 2⟩ ∧
      toyLastSecond.game.status = Status.active ∧
      moverTime toyLastSecond.game = some 1 ∧
      ¬ abandonsForInactivity ⟨6000, activityCheckThreshold 2⟩ 126000 toyLastSecond ∧
      moverTime (tick toyPow10 126000 toyLastSecond).game = some 0 ∧
      (tick toyPow10 126000 toyLastSecond).game.status = Status.timeout ∧
      ∃ black, toyLastSecond.game.blackPlayer = some black ∧
        (toyLastSecond.game.turn = Color.w →
          (tick toyPow10 126000 toyLastSecond).game.winner = some black) ∧
        (toyLastSecond.game.turn = Color.b →
          (tick toyPow10 126000 toyLastSecond).game.winner =
            some toyLastSecond.game.whitePlayer) :=
  have hno : ¬ abandonsForInactivity ⟨6000, activityCheckThreshold 2⟩ 126000 toyLastSecond :=
    fun h => absurd h.1 (by decide)
  ⟨reachable_run toyOracle toyPow10 _ _ (toyStart_reachable 2 (by decide)),
    by decide!, by decide!, by decide!, hno,
    tick_timeout toyOracle toyPow10 toyLastSecond
      (reachable_run toyOracle toyPow10 _ _ (toyStart_reachable 2 (by decide)))
      ⟨6000, activityCheckThreshold 2⟩ 126000 (by decide!) (by decide!) (by decide!) hno⟩

/-! ## Theorems: ratings -/

/-- C8. With `Math.pow(10, 0) = 1`: for every rating `r`,
`calculateEloChange(r, r, 1) = 16` and `calculateEloChange(r, r, 0) = -16`; in
particular between two players rated 1500 the winner gains 16 and the loser
loses 16. -/
theorem calculateEloChange_equal_ratings (pow10 : Rat → Rat) (h0 : pow10 0 = 1) (r : Int) :
    calculateEloChange pow10 r r 1 = 16 ∧ calculateEloChange pow10 r r 0 = -16 := by
  unfold calculateEloChange mathRound
  simp only [sub_self, zero_div, h0]
  constructor
  · rw [Int.floor_eq_iff]
    norm_num
  · rw [Int.floor_eq_iff]
    norm_num

/-- C8 at 1500 against 1500. -/
theorem calculateEloChange_equal_ratings_witness :
    toyPow10 0 = 1 ∧ calculateEloChange toyPow10 1500 1500 1 = 16 ∧
      calculateEloChange toyPow10 1500 1500 0 = -16 :=
  ⟨by decide, calculateEloChange_equal_ratings toyPow10 (by decide) 1500⟩

theorem calculateEloChange_eq_specDelta (pow10 : Rat → Rat) (rating opponentRating : Int)
    (result : Rat) :
    calculateEloChange pow10 rating opponentRating result =
      specDelta pow10 rating opponentRating result := by
  unfold calculateEloChange specDelta specExpected mathRound
  rw [round_eq]

/-- C9. For a game whose winner is `W` and whose other participant is `L`, with
ratings `w` and `l` before the call, `updateRatings` sets the rating of `W` to
`w + round(32 × (1 − 1/(1 + 10^((l − w)/400))))`, the rating of `L` to
`l + round(32 × (0 − 1/(1 + 10^((w − l)/400))))` and changes no other rating;
for a game without a winner it changes no rating. -/
theorem updateRatings_spec (pow10 : Rat → Rat) (game : Game) (users : Users)
    (W L : UserId) (w l : Int)
    (hpart : (game.whitePlayer = W ∧ game.blackPlayer = some L) ∨
      (game.blackPlayer = some W ∧ game.whitePlayer = L))
    (hne : W ≠ L) (hw : users W = some w) (hl : users L = some l) :
    (game.winner = some W →
      updateRatings pow10 game users W = some (w + specDelta pow10 w l 1) ∧
      updateRatings pow10 game users L = some (l + specDelta pow10 l w 0) ∧
      ∀ u, u ≠ W → u ≠ L → updateRatings pow10 game users u = users u) ∧
    (game.winner = none → updateRatings pow10 game users = users) := by
  refine ⟨fun hwin => ?_, fun hwin => by simp [updateRatings, hwin]⟩
  have hloser : (if W = game.whitePlayer then game.blackPlayer else some game.whitePlayer)
      = some L := by
    rcases hpart with ⟨h1, h2⟩ | ⟨h1, h2⟩
    · simp [h1, h2]
    · have : W ≠ game.whitePlayer := by rw [h2]; exact hne
      rw [if_neg this, h2]
  have hupd : updateRatings pow10 game users =
      (users.setRating W (w + calculateEloChange pow10 w l 1)).setRating L
        (l + calculateEloChange pow10 l w 0) := by
    unfold updateRatings
    simp only [hwin, hloser, hw]
    have hb : ((some L).bind fun a => users a) = some l := hl
    rw [hb]
  rw [hupd, calculateEloChange_eq_specDelta, calculateEloChange_eq_specDelta]
  refine ⟨?_, ?_, fun u hu1 hu2 => ?_⟩
  · simp [Users.setRating, hne]
  · simp [Users.setRating]
  · simp [Users.setRating, hu1, hu2]

/-- C9 at a concrete game: `alice` has mated `bob`, both rated 1500. -/
theorem updateRatings_spec_witness :
    (toyMated.game.winner = some "alice" →
      updateRatings toyPow10 toyMated.game toyUsers "alice" =
        some (1500 + specDelta toyPow10 1500 1500 1) ∧
      updateRatings toyPow10 toyMated.game toyUsers "bob" =
        some (1500 + specDelta toyPow10 1500 1500 0) ∧
      ∀ u, u ≠ "alice" → u ≠ "bob" →
        updateRatings toyPow10 toyMated.game toyUsers u = toyUsers u) ∧
    (toyMated.game.winner = none →
      updateRatings toyPow10 toyMated.game toyUsers = toyUsers) :=
  updateRatings_spec toyPow10 toyMated.game toyUsers "alice" "bob" 1500 1500
    (Or.inl ⟨by decide, by decide⟩) (by decide) (by decide) (by decide)

/-! ## Theorems: the disconnection supervisor -/

theorem fireTimeout_of_not_runs (handle : Nat) (now : Int) (s : Sys)
    (h : ¬ callbackRuns handle now s) : fireTimeout handle now s = s := by
  unfold fireTimeout
  split
  · rfl
  · rename_i t hfind
    split_ifs with hdue
    · rfl
    · exact absurd ⟨t, hfind, by omega⟩ h

theorem fireTimeout_of_runs (handle : Nat) (now : Int) (s : Sys)
    (h : callbackRuns handle now s) :
    fireTimeout handle now s =
      disconnectCallback { s with pendingTimeouts := clearTimeout handle s.pendingTimeouts } := by
  obtain ⟨t, hfind, hdue⟩ := h
  unfold fireTimeout
  rw [hfind]
  simp only
  rw [if_neg (by omega)]

theorem mem_clearTimeout {handle : Nat} {pending : List Timeout} {t : Timeout}
    (h : t ∈ clearTimeout handle pending) : t ∈ pending ∧ t.handle ≠ handle := by
  unfold clearTimeout at h
  rw [List.mem_filter] at h
  exact ⟨h.1, by simpa using h.2⟩

theorem sameTimers_pending {s s1 : Sys} (h : SameTimers s s1) (op : Op) :
    s.nextHandle ≤ s1.nextHandle ∧
      ∀ t ∈ s1.pendingTimeouts, t ∈ s.pendingTimeouts ∨
        ∃ now, op = .disconnect now ∧ t = ⟨s.nextHandle, now + disconnectGrace⟩ := by
  refine ⟨by rw [h.2.2], fun t ht => Or.inl ?_⟩
  rw [h.1] at ht
  exact ht

/-- Every event keeps the handle counter from going down, and the only callback
it can add to the queue is the one `handleDisconnect` schedules, under the next
handle and due five minutes later. -/
theorem step_pending {Pos : Type} (O : Oracle Pos) (pow10 : Rat → Rat) (s : Sys) (op : Op) :
    s.nextHandle ≤ (step O pow10 s op).nextHandle ∧
      ∀ t ∈ (step O pow10 s op).pendingTimeouts, t ∈ s.pendingTimeouts ∨
        ∃ now, op = .disconnect now ∧ t = ⟨s.nextHandle, now + disconnectGrace⟩ := by
  cases op with
  | join userId now =>
    apply sameTimers_pending
    show SameTimers s (joinGame userId now s)
    rcases joinGame_cases userId now s with ⟨msg, hj⟩ | ⟨-, -, -, -, hj⟩ <;> rw [hj] <;>
      exact ⟨rfl, rfl, rfl⟩
  | move req now txns =>
    exact sameTimers_pending (makeMoveLoop_game O pow10 req now 3 txns none s).1 _
  | startTimer now =>
    apply sameTimers_pending
    show SameTimers s (startTimer now s)
    unfold startTimer
    simp only
    split_ifs <;> exact ⟨rfl, rfl, rfl⟩
  | tick now => exact sameTimers_pending (tick_timers pow10 now s) _
  | resign userId =>
    apply sameTimers_pending
    show SameTimers s (resignGame pow10 userId s)
    unfold resignGame
    simp only
    repeat' split
    all_goals exact ⟨rfl, rfl, rfl⟩
  | offerDraw userId => exact sameTimers_pending (offerDraw_game userId s).2 _
  | acceptDraw userId =>
    apply sameTimers_pending
    show SameTimers s (acceptDraw userId s)
    unfold acceptDraw
    simp only
    split_ifs
    · exact ⟨rfl, rfl, rfl⟩
    · split <;> exact ⟨rfl, rfl, rfl⟩
  | heartbeat userId now => exact sameTimers_pending ⟨rfl, rfl, rfl⟩ _
  | rejoin userId now =>
    show s.nextHandle ≤ (rejoinGame userId now s).nextHandle ∧
      ∀ t ∈ (rejoinGame userId now s).pendingTimeouts, _
    unfold rejoinGame updatePlayerActivity handleReconnect
    split
    · exact ⟨le_refl _, fun t ht => Or.inl ht⟩
    · exact ⟨le_refl _, fun t ht => Or.inl (mem_clearTimeout ht).1⟩
  | disconnect now =>
    show s.nextHandle ≤ (handleDisconnect now s).nextHandle ∧
      ∀ t ∈ (handleDisconnect now s).pendingTimeouts, _
    unfold handleDisconnect
    split_ifs
    · exact ⟨le_refl _, fun t ht => Or.inl ht⟩
    · refine ⟨Nat.le_succ _, fun t ht => ?_⟩
      simp only [List.mem_append, List.mem_singleton] at ht
      rcases ht with ht | ht
      · left
        split at ht
        · exact (mem_clearTimeout ht).1
        · exact ht
      · exact Or.inr ⟨now, rfl, ht⟩
  | fireTimeout handle now =>
    show s.nextHandle ≤ (fireTimeout handle now s).nextHandle ∧
      ∀ t ∈ (fireTimeout handle now s).pendingTimeouts, _
    unfold fireTimeout
    split
    · exact ⟨le_refl _, fun t ht => Or.inl ht⟩
    · split_ifs
      · exact ⟨le_refl _, fun t ht => Or.inl ht⟩
      · unfold disconnectCallback
        split_ifs
        · exact ⟨le_refl _, fun t ht => Or.inl (mem_clearTimeout ht).1⟩
        · exact ⟨le_refl _, fun t ht => Or.inl (mem_clearTimeout ht).1⟩
  | sweep now => exact sameTimers_pending ⟨rfl, rfl, rfl⟩ _

theorem callbackRuns_mem {handle : Nat} {now : Int} {s : Sys} (h : callbackRuns handle now s) :
    ∃ t ∈ s.pendingTimeouts, t.handle = handle ∧ t.due ≤ now := by
  obtain ⟨t, hfind, hdue⟩ := h
  refine ⟨t, List.mem_of_find?_eq_some hfind, ?_, hdue⟩
  have := List.find?_some hfind
  simpa using this

/-- A handle below the counter that is not in the queue never enters it. -/
theorem run_never_pending {Pos : Type} (O : Oracle Pos) (pow10 : Rat → Rat) (handle : Nat)
    (ops : List Op) :
    ∀ s : Sys, handle < s.nextHandle → (∀ t ∈ s.pendingTimeouts, t.handle ≠ handle) →
      ∀ t ∈ (run O pow10 s ops).pendingTimeouts, t.handle ≠ handle := by
  induction ops with
  | nil => intro s _ h; exact h
  | cons op rest ih =>
    intro s hlt h
    obtain ⟨hle, hp⟩ := step_pending O pow10 s op
    refine ih (step O pow10 s op) (by omega) (fun t ht => ?_)
    rcases hp t ht with hold | ⟨now, -, hnew⟩
    · exact h t hold
    · rw [hnew]
      show s.nextHandle ≠ handle
      omega

/-- While a handle below the counter is in the queue, its due time stays the
one it was scheduled with. -/
theorem run_due {Pos : Type} (O : Oracle Pos) (pow10 : Rat → Rat) (handle : Nat) (due : Int)
    (ops : List Op) :
    ∀ s : Sys, handle < s.nextHandle →
      (∀ t ∈ s.pendingTimeouts, t.handle = handle → t.due = due) →
      ∀ t ∈ (run O pow10 s ops).pendingTimeouts, t.handle = handle → t.due = due := by
  induction ops with
  | nil => intro s _ h; exact h
  | cons op rest ih =>
    intro s hlt h
    obtain ⟨hle, hp⟩ := step_pending O pow10 s op
    refine ih (step O pow10 s op) (by omega) (fun t ht hth => ?_)
    rcases hp t ht with hold | ⟨now, -, hnew⟩
    · exact h t hold hth
    · exfalso
      rw [hnew] at hth
      have : s.nextHandle = handle := hth
      omega

/-- Without a transport loss an empty queue stays empty. -/
theorem run_pending_nil {Pos : Type} (O : Oracle Pos) (pow10 : Rat → Rat) (ops : List Op) :
    ∀ s : Sys, s.pendingTimeouts = [] → (∀ op ∈ ops, op.isDisconnect = false) →
      (run O pow10 s ops).pendingTimeouts = [] := by
  induction ops with
  | nil => intro s h _; exact h
  | cons op rest ih =>
    intro s h hops
    refine ih (step O pow10 s op) ?_ (fun o ho => hops o (List.mem_cons_of_mem _ ho))
    obtain ⟨-, hp⟩ := step_pending O pow10 s op
    rw [List.eq_nil_iff_forall_not_mem]
    intro t ht
    rcases hp t ht with hold | ⟨now, hop, -⟩
    · rw [h] at hold
      cases hold
    · have := hops op (List.mem_cons_self _ _)
      rw [hop] at this
      cases this

theorem fireTimeout_nil (handle : Nat) (now : Int) (s : Sys) (h : s.pendingTimeouts = []) :
    fireTimeout handle now s = s := by
  apply fireTimeout_of_not_runs
  rintro ⟨t, hfind, -⟩
  rw [h] at hfind
  cases hfind

/-- With an empty queue, attempts to run disconnection callbacks do nothing. -/
theorem run_fire_only {Pos : Type} (O : Oracle Pos) (pow10 : Rat → Rat) (ops : List Op) :
    ∀ s : Sys, s.pendingTimeouts = [] → (∀ op ∈ ops, op.isFireTimeout = true) →
      run O pow10 s ops = s := by
  induction ops with
  | nil => intro s _ _; rfl
  | cons op rest ih =>
    intro s h hops
    have hop := hops op (List.mem_cons_self _ _)
    cases op with
    | fireTimeout handle now =>
      have hs : step O pow10 s (.fireTimeout handle now) = s := fireTimeout_nil handle now s h
      show run O pow10 (step O pow10 s (.fireTimeout handle now)) rest = s
      rw [hs]
      exact ih s h (fun o ho => hops o (List.mem_cons_of_mem _ ho))
    | _ => cases hop

/-- C10. For every active game in a reachable state: let `handleDisconnect`
schedule the abandonment callback at time `T` (state `s1`), let any events
handled before `T + 5 minutes` follow (state `s2`), and let `handleReconnect`
be called then (state `s3`).  The callback is scheduled under the handle
`s.nextHandle` and due at `T + 5 minutes`; it does not run before the
reconnection; after the reconnection the registry has no entry for the game and
no callback is pending; the callback never runs afterwards, whatever events
follow; as long as no new transport loss is handled every attempt to run a
disconnection callback does nothing, so the supervisor does not abandon the
game; and when nothing but such attempts happens the stored game stays the one
of `s2`, still `active` if it was. -/
theorem reconnect_cancels_abandonment {Pos : Type} (O : Oracle Pos) (pow10 : Rat → Rat)
    (s s1 s2 s3 : Sys) (T : Int) (between : List Op)
    (hr : Reachable O pow10 s) (hact : s.game.status = Status.active)
    (hs1 : s1 = handleDisconnect T s) (hs2 : s2 = run O pow10 s1 between)
    (hbefore : ∀ op ∈ between, ∀ t, op.time = some t → t < T + disconnectGrace)
    (hs3 : s3 = handleReconnect s2) :
    s1.pendingTimeouts = [⟨s.nextHandle, T + disconnectGrace⟩] ∧
    s1.disconnectionTimers = some s.nextHandle ∧
    (∀ pre rest now, between = pre ++ Op.fireTimeout s.nextHandle now :: rest →
      ¬ callbackRuns s.nextHandle now (run O pow10 s1 pre)) ∧
    s3.disconnectionTimers = none ∧ s3.pendingTimeouts = [] ∧
    (∀ (after : List Op) (now : Int), ¬ callbackRuns s.nextHandle now (run O pow10 s3 after)) ∧
    (∀ after : List Op, (∀ op ∈ after, op.isDisconnect = false) →
      ∀ handle now, fireTimeout handle now (run O pow10 s3 after) = run O pow10 s3 after) ∧
    (∀ after : List Op, (∀ op ∈ after, op.isFireTimeout = true) →
      (run O pow10 s3 after).game = s2.game ∧
      (s2.game.status = Status.active → (run O pow10 s3 after).game.status = Status.active)) := by
  have hinv := reachable_inv O pow10 s hr
  have hpend1 : s1.pendingTimeouts = [⟨s.nextHandle, T + disconnectGrace⟩] ∧
      s1.disconnectionTimers = some s.nextHandle ∧ s1.nextHandle = s.nextHandle + 1 := by
    rw [hs1]
    unfold handleDisconnect
    rw [if_neg (by simp [hact])]
    refine ⟨?_, rfl, rfl⟩
    cases hreg : s.disconnectionTimers with
    | none => simp [pending_nil_of_unregistered s hinv hreg]
    | some old => simp [clear_registered s hinv old hreg]
  obtain ⟨hp1, hreg1, hnext1⟩ := hpend1
  have hinv1 : Inv s1 := by rw [hs1]; exact (handleDisconnect_inv T s hinv).1
  have hinv2 : Inv s2 := by rw [hs2]; exact (run_inv O pow10 between s1 hinv1).1
  have hlt2 : s.nextHandle < s2.nextHandle := by
    have : ∀ (ops : List Op) (x : Sys), x.nextHandle ≤ (run O pow10 x ops).nextHandle := by
      intro ops
      induction ops with
      | nil => intro x; exact le_refl _
      | cons op rest ih =>
        intro x
        exact le_trans (step_pending O pow10 x op).1 (ih _)
    have := this between s1
    rw [hs2]
    omega
  have hp3 : s3.pendingTimeouts = [] ∧ s3.disconnectionTimers = none ∧
      s3.nextHandle = s2.nextHandle ∧ s3.game = s2.game := by
    rw [hs3]
    unfold handleReconnect
    cases hreg : s2.disconnectionTimers with
    | none => exact ⟨pending_nil_of_unregistered s2 hinv2 hreg, hreg, rfl, rfl⟩
    | some handle => exact ⟨clear_registered s2 hinv2 handle hreg, rfl, rfl, rfl⟩
  obtain ⟨hp3, hreg3, hnext3, hgame3⟩ := hp3
  refine ⟨hp1, hreg1, ?_, hreg3, hp3, ?_, ?_, ?_⟩
  · intro pre rest now hsplit hruns
    obtain ⟨t, ht, hth, hdue⟩ := callbackRuns_mem hruns
    have hd := run_due O pow10 s.nextHandle (T + disconnectGrace) pre s1 (by omega)
      (fun t ht _ => by
        rw [hp1, List.mem_singleton] at ht
        rw [ht]) t ht hth
    have := hbefore (Op.fireTimeout s.nextHandle now) (by rw [hsplit]; simp) now rfl
    omega
  · intro after now hruns
    obtain ⟨t, ht, hth, -⟩ := callbackRuns_mem hruns
    exact run_never_pending O pow10 s.nextHandle after s3 (by omega)
      (fun t ht => by rw [hp3] at ht; cases ht) t ht hth
  · intro after hafter handle now
    exact fireTimeout_nil handle now _ (run_pending_nil O pow10 after s3 hp3 hafter)
  · intro after hafter
    have := run_fire_only O pow10 after s3 hp3 hafter
    rw [this, hgame3]
    exact ⟨rfl, fun h => h⟩

/-- C10 at a concrete run: the connection of the toy game drops at time 10000,
`bob` sends a heartbeat at 11000 and reconnects; no callback is pending then,
and the one scheduled at 10000 never runs. -/
theorem reconnect_cancels_abandonment_witness :
    Reachable toyOracle toyPow10 toyJoined ∧ toyJoined.game.status = Status.active ∧
    (handleReconnect (run toyOracle toyPow10 (handleDisconnect 10000 toyJoined)
      [.heartbeat "bob" 11000])).disconnectionTimers = none ∧
    (handleReconnect (run toyOracle toyPow10 (handleDisconnect 10000 toyJoined)
      [.heartbeat "bob" 11000])).pendingTimeouts = [] ∧
    (∀ (after : List Op) (now : Int), ¬ callbackRuns toyJoined.nextHandle now
      (run toyOracle toyPow10
        (handleReconnect (run toyOracle toyPow10 (handleDisconnect 10000 toyJoined)
          [.heartbeat "bob" 11000])) after)) :=
  have hreach : Reachable toyOracle toyPow10 toyJoined :=
    Reachable.step _ _ (toyStart_reachable 2 (by decide))
  have hbefore : ∀ op ∈ [Op.heartbeat "bob" 11000], ∀ t, op.time = some t →
      t < 10000 + disconnectGrace := by
    intro op hop t ht
    rw [List.mem_singleton] at hop
    subst hop
    simp only [Op.time, Option.some.injEq] at ht
    subst ht
    decide
  have h := reconnect_cancels_abandonment toyOracle toyPow10 toyJoined
    (handleDisconnect 10000 toyJoined)
    (run toyOracle toyPow10 (handleDisconnect 10000 toyJoined) [.heartbeat "bob" 11000])
    (handleReconnect (run toyOracle toyPow10 (handleDisconnect 10000 toyJoined)
      [.heartbeat "bob" 11000]))
    10000 [.heartbeat "bob" 11000] hreach (by decide) rfl rfl hbefore rfl
  ⟨hreach, by decide, h.2.2.2.1, h.2.2.2.2.1, h.2.2.2.2.2.1⟩

/-! ## Theorems: the sweep job -/

theorem recentActivity_iff (now : Int) (hnow : 10 * 60 * 1000 ≤ now) (activity : Option Int) :
    recentActivity now activity = true ↔ ∃ t, activity = some t ∧ now - t < 10 * 60 * 1000 := by
  cases activity with
  | none => simp [recentActivity]
  | some t =>
    simp only [recentActivity, Bool.and_eq_true, decide_eq_true_eq, Option.some.injEq,
      exists_eq_left']
    constructor
    · exact fun h => h.2
    · intro h
      refine ⟨?_, h⟩
      intro h0
      rw [h0] at h
      omega

/-- C11. One run of the sweep job at time `now` (later than ten minutes after the
epoch), for every stored game: if the game is active and its `updatedAt` is older
than `now − 10 minutes`, then (a) when a participant has an Activity Tracker
entry younger than ten minutes only `updatedAt` changes, to `now`, and (b)
otherwise only the status changes, to `abandoned`, so that the winner, the
position, the moves and the clocks are as before; every other game is left as
it was. -/
theorem cleanupGame_spec (now : Int) (activity : UserId → Option Int) (game : Game)
    (hnow : 10 * 60 * 1000 ≤ now) :
    (game.status = Status.active ∧ game.updatedAt < now - 10 * 60 * 1000 →
      ((∃ p, freshParticipant now activity game p) →
        cleanupGame now activity game = { game with updatedAt := now }) ∧
      ((¬ ∃ p, freshParticipant now activity game p) →
        cleanupGame now activity game = { game with status := Status.abandoned })) ∧
    (¬ (game.status = Status.active ∧ game.updatedAt < now - 10 * 60 * 1000) →
      cleanupGame now activity game = game) := by
  have hfresh : (recentActivity now (activity game.whitePlayer) ||
      recentActivity now (game.blackPlayer.bind activity)) = true ↔
      ∃ p, freshParticipant now activity game p := by
    rw [Bool.or_eq_true, recentActivity_iff now hnow, recentActivity_iff now hnow]
    constructor
    · rintro (⟨t, ht, hlt⟩ | ⟨t, ht, hlt⟩)
      · exact ⟨game.whitePlayer, Or.inl rfl, t, ht, hlt⟩
      · cases hb : game.blackPlayer with
        | none => rw [hb] at ht; cases ht
        | some black =>
          rw [hb] at ht
          exact ⟨black, Or.inr hb, t, ht, hlt⟩
    · rintro ⟨p, hp | hp, t, ht, hlt⟩
      · left; exact ⟨t, by rw [← hp]; exact ht, hlt⟩
      · right; exact ⟨t, by rw [hp]; exact ht, hlt⟩
  refine ⟨fun hc => ⟨fun hf => ?_, fun hf => ?_⟩, fun hc => ?_⟩
  · unfold cleanupGame
    simp only
    rw [if_pos hc, if_pos (hfresh.mpr hf)]
  · unfold cleanupGame
    simp only
    rw [if_pos hc, if_neg (fun h => hf (hfresh.mp h))]
  · unfold cleanupGame
    simp only
    rw [if_neg hc]

/-- C11 at a concrete game: the toy game, joined at time 1000 and silent since,
swept at time 700000. -/
theorem cleanupGame_spec_witness :
    (10 * 60 * 1000 : Int) ≤ 700000 ∧
    (toyJoined.game.status = Status.active ∧ toyJoined.game.updatedAt < 700000 - 10 * 60 * 1000) ∧
    (¬ ∃ p, freshParticipant 700000 toyJoined.playerActivityMap toyJoined.game p) ∧
    cleanupGame 700000 toyJoined.playerActivityMap toyJoined.game =
      { toyJoined.game with status := Status.abandoned } :=
  have hc : toyJoined.game.status = Status.active ∧
      toyJoined.game.updatedAt < 700000 - 10 * 60 * 1000 := by decide
  have hf : ¬ ∃ p, freshParticipant 700000 toyJoined.playerActivityMap toyJoined.game p := by
    rintro ⟨p, hp | hp, t, ht, hlt⟩
    · have hp1 : p = "alice" := hp
      subst hp1
      have : t = 1000 := by
        have h1 : toyJoined.playerActivityMap "alice" = some 1000 := by decide
        rw [h1] at ht
        exact (Option.some.inj ht).symm
      omega
    · have hp1 : p = "bob" := by
        have h1 : toyJoined.game.blackPlayer = some "bob" := by decide
        rw [h1] at hp
        exact (Option.some.inj hp).symm
      subst hp1
      have : t = 1000 := by
        have h1 : toyJoined.playerActivityMap "bob" = some 1000 := by decide
        rw [h1] at ht
        exact (Option.some.inj ht).symm
      omega
  ⟨by decide, hc, hf,
    ((cleanupGame_spec 700000 toyJoined.playerActivityMap toyJoined.game (by decide)).1 hc).2 hf⟩

/-- C12. The sweep job is idempotent on abandoned games: whatever the store and
the tracker hold, every sequence of runs of the sweep job leaves the whole state
of an abandoned game as it was, so the game is unchanged, no rating is updated
and nothing is emitted. -/
theorem sweep_abandoned_unchanged (nows : List Int) (s : Sys)
    (h : s.game.status = Status.abandoned) :
    nows.foldl (fun s1 now => cleanupAbandonedGames now s1) s = s ∧
      (nows.foldl (fun s1 now => cleanupAbandonedGames now s1) s).game = s.game ∧
      (nows.foldl (fun s1 now => cleanupAbandonedGames now s1) s).users = s.users ∧
      (nows.foldl (fun s1 now => cleanupAbandonedGames now s1) s).emitted = s.emitted := by
  have one : ∀ now, cleanupAbandonedGames now s = s := by
    intro now
    unfold cleanupAbandonedGames cleanupGame
    simp [h]
  have all : nows.foldl (fun s1 now => cleanupAbandonedGames now s1) s = s := by
    induction nows with
    | nil => rfl
    | cons now rest ih =>
      rw [List.foldl_cons, one now]
      exact ih
  rw [all]
  exact ⟨rfl, rfl, rfl, rfl⟩

/-- C12 at a concrete game: the toy game is abandoned by the sweep at 700000 and
swept again at 1000000 and 1300000. -/
theorem sweep_abandoned_unchanged_witness :
    (cleanupAbandonedGames 700000 toyJoined).game.status = Status.abandoned ∧
    [1000000, 1300000].foldl (fun s1 now => cleanupAbandonedGames now s1)
      (cleanupAbandonedGames 700000 toyJoined) = cleanupAbandonedGames 700000 toyJoined :=
  ⟨by decide,
    (sweep_abandoned_unchanged [1000000, 1300000] (cleanupAbandonedGames 700000 toyJoined)
      (by decide)).1⟩

/-! ## Theorems: resignation and draws -/

/-- What `resignGame` does on an active game with a black player. -/
theorem resignGame_cases (pow10 : Rat → Rat) (userId : UserId) (s : Sys) (black : UserId)
    (hst : s.game.status = Status.active) (hbl : s.game.blackPlayer = some black) :
    (s.game.whitePlayer ≠ userId ∧ black ≠ userId ∧
      resignGame pow10 userId s = s.emit (.error "You are not a player in this game")) ∨
    ((s.game.whitePlayer = userId ∨ black = userId) ∧
      resignGame pow10 userId s =
        { s with
          game :=
            { s.game with
              status := Status.resigned,
              winner := if s.game.whitePlayer = userId then s.game.blackPlayer
                        else some s.game.whitePlayer },
          timerIntervals := none,
          users := updateRatings pow10
            { s.game with
              status := Status.resigned,
              winner := if s.game.whitePlayer = userId then s.game.blackPlayer
                        else some s.game.whitePlayer } s.users }.emit
          (.game_over Status.resigned
            (if s.game.whitePlayer = userId then s.game.blackPlayer
             else some s.game.whitePlayer))) := by
  have hnp := notAPlayer_ok s.game userId black hbl
  by_cases hp : s.game.whitePlayer ≠ userId ∧ black ≠ userId
  · left
    refine ⟨hp.1, hp.2, ?_⟩
    simp only [resignGame, hst, hnp]
    simp [hp]
  · right
    refine ⟨by tauto, ?_⟩
    simp only [resignGame, hst, hnp]
    simp only [hp, decide_False]
    rfl

/-- C15. For every active game with two distinct participants: when a
participant resigns, the status becomes `resigned` and the winner is the other
participant, black if white resigns and white if black resigns, while the
position, the side to move, the moves and both clocks stay as they were; when
the requester is neither participant, an error is emitted and nothing else
changes. -/
theorem resignGame_spec (pow10 : Rat → Rat) (userId : UserId) (s : Sys) (black : UserId)
    (hst : s.game.status = Status.active) (hbl : s.game.blackPlayer = some black)
    (hne : black ≠ s.game.whitePlayer) :
    (userId = s.game.whitePlayer →
      (resignGame pow10 userId s).game =
        { s.game with status := Status.resigned, winner := some black }) ∧
    (userId = black →
      (resignGame pow10 userId s).game =
        { s.game with status := Status.resigned, winner := some s.game.whitePlayer }) ∧
    (userId ≠ s.game.whitePlayer → userId ≠ black →
      (∃ msg, resignGame pow10 userId s = s.emit (.error msg)) ∧
      (resignGame pow10 userId s).game = s.game) := by
  rcases resignGame_cases pow10 userId s black hst hbl with ⟨h1, h2, hr⟩ | ⟨hp, hr⟩
  · refine ⟨fun e => absurd e.symm h1, fun e => absurd e.symm h2, fun _ _ => ?_⟩
    rw [hr]
    exact ⟨⟨_, rfl⟩, rfl⟩
  · refine ⟨fun e => ?_, fun e => ?_, fun e1 e2 => ?_⟩
    · rw [hr, emit_game]
      simp only [e, ↓reduceIte, hbl]
    · have hw : ¬ s.game.whitePlayer = userId := by
        rw [e]
        exact fun h => hne h.symm
      rw [hr, emit_game]
      simp only [hw, ↓reduceIte]
    · rcases hp with hp | hp
      · exact absurd hp.symm e1
      · exact absurd hp.symm e2

/-- C15 at a concrete game: `bob`, who plays black in the toy game, resigns. -/
theorem resignGame_spec_witness :
    toyJoined.game.status = Status.active ∧ toyJoined.game.blackPlayer = some "bob" ∧
    "bob" ≠ toyJoined.game.whitePlayer ∧
    (resignGame toyPow10 "bob" toyJoined).game =
      { toyJoined.game with status := Status.resigned,
                            winner := some toyJoined.game.whitePlayer } :=
  ⟨by decide, by decide, by decide,
    (resignGame_spec toyPow10 "bob" toyJoined "bob" (by decide) (by decide) (by decide)).2.1 rfl⟩

/-- What `acceptDraw` does on an active game with a black player. -/
theorem acceptDraw_cases (userId : UserId) (s : Sys) (black : UserId)
    (hst : s.game.status = Status.active) (hbl : s.game.blackPlayer = some black) :
    (s.game.whitePlayer ≠ userId ∧ black ≠ userId ∧
      acceptDraw userId s = s.emit (.error "You are not a player in this game")) ∨
    ((s.game.whitePlayer = userId ∨ black = userId) ∧
      acceptDraw userId s =
        { s with game := { s.game with status := Status.draw },
                 timerIntervals := none }.emit (.game_over Status.draw none)) := by
  have hnp := notAPlayer_ok s.game userId black hbl
  by_cases hp : s.game.whitePlayer ≠ userId ∧ black ≠ userId
  · left
    refine ⟨hp.1, hp.2, ?_⟩
    simp only [acceptDraw, hst, hnp]
    simp [hp]
  · right
    refine ⟨by tauto, ?_⟩
    simp only [acceptDraw, hst, hnp]
    simp only [hp, decide_False, ne_eq, not_true_eq_false, ↓reduceIte]

/-- What `offerDraw` does on an active game with a black player. -/
theorem offerDraw_cases (userId : UserId) (s : Sys) (black : UserId)
    (hst : s.game.status = Status.active) (hbl : s.game.blackPlayer = some black) :
    (s.game.whitePlayer ≠ userId ∧ black ≠ userId ∧
      offerDraw userId s = s.emit (.error "You are not a player in this game")) ∨
    ((s.game.whitePlayer = userId ∨ black = userId) ∧
      offerDraw userId s = s.emit (.draw_offered userId)) := by
  have hnp := notAPlayer_ok s.game userId black hbl
  by_cases hp : s.game.whitePlayer ≠ userId ∧ black ≠ userId
  · left
    refine ⟨hp.1, hp.2, ?_⟩
    simp only [offerDraw, hst, hnp]
    simp [hp]
  · right
    refine ⟨by tauto, ?_⟩
    simp only [offerDraw, hst, hnp]
    simp only [hp, decide_False, ne_eq, not_true_eq_false, ↓reduceIte]

/-- C17 fails as stated: in the toy game nobody has offered a draw (no
`draw_offered` was ever emitted), and yet `acceptDraw` by `alice` ends the game
as a draw. -/
theorem acceptDraw_mutual_counterexample :
    toyJoined.game.status = Status.active ∧
      toyJoined.emitted.filter Emit.isDrawOffer = [] ∧
      (acceptDraw "alice" toyJoined).game.status = Status.draw :=
  ⟨by decide, by decide, by decide⟩

/-- C17, amended. The server keeps no record of draw offers: `offerDraw` by a
participant of an active game broadcasts `draw_offered` and changes nothing
else, and `acceptDraw` by a participant of an active game sets the status to
`draw`, removes the clock driver and broadcasts `game_over`, whatever was
offered before; a requester who is not a participant gets an error and the game
stays active. -/
theorem acceptDraw_spec (userId : UserId) (s : Sys) (black : UserId)
    (hst : s.game.status = Status.active) (hbl : s.game.blackPlayer = some black) :
    ((userId = s.game.whitePlayer ∨ userId = black) →
      offerDraw userId s = s.emit (.draw_offered userId) ∧
      acceptDraw userId s =
        { s with game := { s.game with status := Status.draw },
                 timerIntervals := none }.emit (.game_over Status.draw none)) ∧
    (userId ≠ s.game.whitePlayer → userId ≠ black →
      (∃ msg, acceptDraw userId s = s.emit (.error msg)) ∧
      (acceptDraw userId s).game.status = Status.active) := by
  refine ⟨fun hp => ⟨?_, ?_⟩, fun e1 e2 => ?_⟩
  · rcases offerDraw_cases userId s black hst hbl with ⟨h1, h2, -⟩ | ⟨-, hr⟩
    · rcases hp with hp | hp
      · exact absurd hp.symm h1
      · exact absurd hp.symm h2
    · exact hr
  · rcases acceptDraw_cases userId s black hst hbl with ⟨h1, h2, -⟩ | ⟨-, hr⟩
    · rcases hp with hp | hp
      · exact absurd hp.symm h1
      · exact absurd hp.symm h2
    · exact hr
  · rcases acceptDraw_cases userId s black hst hbl with ⟨-, -, hr⟩ | ⟨hp, -⟩
    · rw [hr]
      exact ⟨⟨_, rfl⟩, hst⟩
    · rcases hp with hp | hp
      · exact absurd hp.symm e1
      · exact absurd hp.symm e2

/-- C17, amended, at a concrete game: `alice` accepts a draw in the toy game. -/
theorem acceptDraw_spec_witness :
    toyJoined.game.status = Status.active ∧ toyJoined.game.blackPlayer = some "bob" ∧
    offerDraw "alice" toyJoined = toyJoined.emit (.draw_offered "alice") ∧
    acceptDraw "alice" toyJoined =
      { toyJoined with game := { toyJoined.game with status := Status.draw },
                       timerIntervals := none }.emit (.game_over Status.draw none) :=
  ⟨by decide, by decide,
    (acceptDraw_spec "alice" toyJoined "bob" (by decide) (by decide)).1 (Or.inl (by decide))⟩

/-! ## Theorems: rejections of joins, resignations and draws -/

/-- C18 fails as stated: `bob` resigns the toy game after it ended by checkmate;
the rejection he receives is the `error` event with the text
`Game is not active`, which carries no position. -/
theorem rejection_position_counterexample :
    toyMated.game.status = Status.checkmate ∧
      resignGame toyPow10 "bob" toyMated = toyMated.emit (.error "Game is not active") ∧
      (Emit.error "Game is not active").position = none ∧
      (Emit.error "Game is not active").position ≠ some toyMated.game.fen :=
  ⟨by decide, by simp [resignGame, show toyMated.game.status = Status.checkmate by decide],
    rfl, by simp [Emit.position]⟩

/-- C18, amended. A join attempted against a game that is not `waiting`, and a
resignation, draw offer or draw acceptance attempted against a game that is not
`active`, is answered with an explicit rejection, an `error` event with a
message, and changes nothing else; this event carries no position. -/
theorem mismatched_state_rejected (pow10 : Rat → Rat) (userId : UserId) (now : Int) (s : Sys) :
    (s.game.status ≠ Status.waiting →
      ∃ msg, joinGame userId now s = s.emit (.error msg)) ∧
    (s.game.status ≠ Status.active →
      (∃ msg, resignGame pow10 userId s = s.emit (.error msg)) ∧
      (∃ msg, offerDraw userId s = s.emit (.error msg)) ∧
      (∃ msg, acceptDraw userId s = s.emit (.error msg))) ∧
    ∀ msg, (Emit.error msg).position = none := by
  refine ⟨fun h => ?_, fun h => ⟨?_, ?_, ?_⟩, fun _ => rfl⟩
  · rcases joinGame_cases userId now s with hrej | ⟨hst, -⟩
    · exact hrej
    · exact absurd hst h
  · exact ⟨"Game is not active", by simp [resignGame, h]⟩
  · exact ⟨"Game is not active", by simp [offerDraw, h]⟩
  · exact ⟨"Game is not active", by simp [acceptDraw, h]⟩

/-- C18, amended, at a concrete game: after the mate `bob` tries to accept a
draw. -/
theorem mismatched_state_rejected_witness :
    toyMated.game.status ≠ Status.active ∧
      ∃ msg, acceptDraw "bob" toyMated = toyMated.emit (.error msg) :=
  ⟨by decide, ((mismatched_state_rejected toyPow10 "bob" 3000 toyMated).2.1 (by decide)).2.2⟩

/-! ## Theorems: the retries of `makeMove` -/

/-- A pass that ends with a retry has changed neither the stored game nor what
was emitted. -/
theorem makeMovePass_retry {Pos : Type} (O : Oracle Pos) (pow10 : Rat → Rat)
    (req : MoveRequest) (now : Int) (t : Txn) (game0 : Option Game) (s s1 : Sys)
    (game1 : Option Game) (h : makeMovePass O pow10 req now t game0 s = .retry s1 game1) :
    s1.game = s.game ∧ s1.emitted = s.emitted := by
  by_cases hread : ∃ f, t = .readFails f
  · obtain ⟨f, hf⟩ := hread
    subst hf
    cases f with
    | writeConflict =>
      simp only [makeMovePass, makeMoveCatch, Pass.retry.injEq] at h
      rw [← h.1]
      exact ⟨rfl, rfl⟩
    | other msg => simp [makeMovePass, makeMoveCatch] at h
  · have ht : ∀ f, t ≠ .readFails f := fun f hf => hread ⟨f, hf⟩
    rcases makeMovePass_cases O pow10 req now t game0 s ht with ⟨reason, hk⟩ | hacc
    · rw [hk] at h
      cases h
    · obtain ⟨-, c, fen, turn, r, -, -, hk⟩ := hacc
      rw [hk] at h
      obtain ⟨-, hG, hE, -⟩ := endGameEffects_frame pow10 (decide (r.status ≠ Status.active))
        (applyMove s.game req.move.denotes fen turn r now) s
      cases t with
      | readFails f => exact absurd rfl (ht f)
      | ok =>
        simp only at h
        cases h
      | commitFails f =>
        cases f with
        | writeConflict =>
          simp only [makeMoveCatch, Pass.retry.injEq] at h
          rw [← h.1]
          exact ⟨hG, hE⟩
        | other msg => simp [makeMoveCatch] at h

theorem makeMovePasses_length {Pos : Type} (O : Oracle Pos) (pow10 : Rat → Rat)
    (req : MoveRequest) (now : Int) (retries : Nat) :
    ∀ (txns : List Txn) (game0 : Option Game) (s : Sys),
      (makeMovePasses O pow10 req now retries txns game0 s).length ≤ retries := by
  induction retries with
  | zero => intro txns game0 s; simp [makeMovePasses]
  | succ n ih =>
    intro txns game0 s
    rw [makeMovePasses]
    split
    · simp
    · rename_i s1 game1 _
      have := ih txns.tail game1 s1
      simp only [List.length_cons]
      omega

/-- When every pass ends with a retry, all the passes are used and the loop ends
with the rejection for used-up retries, appended to what was emitted, on the
unchanged game. -/
theorem makeMoveLoop_all_retry {Pos : Type} (O : Oracle Pos) (pow10 : Rat → Rat)
    (req : MoveRequest) (now : Int) (retries : Nat) :
    ∀ (txns : List Txn) (game0 : Option Game) (s : Sys),
      (∀ p ∈ makeMovePasses O pow10 req now retries txns game0 s, p.isRetry = true) →
      (makeMovePasses O pow10 req now retries txns game0 s).length = retries ∧
      (makeMoveLoop O pow10 req now retries txns game0 s).game = s.game ∧
      ∃ fen, (makeMoveLoop O pow10 req now retries txns game0 s).emitted =
        s.emitted ++ [.move_rejected conflictExhausted fen] := by
  induction retries with
  | zero =>
    intro txns game0 s _
    exact ⟨rfl, rfl, _, rfl⟩
  | succ n ih =>
    intro txns game0 s hall
    rw [makeMovePasses] at hall ⊢
    rw [makeMoveLoop]
    cases hp : makeMovePass O pow10 req now (txns.headD .ok) game0 s with
    | done s1 =>
      rw [hp] at hall
      have := hall (.done s1) (by simp)
      cases this
    | retry s1 game1 =>
      rw [hp] at hall
      simp only
      obtain ⟨hG, hE⟩ := makeMovePass_retry O pow10 req now _ game0 s s1 game1 hp
      obtain ⟨h1, h2, fen, h3⟩ := ih txns.tail game1 s1
        (fun p hpm => hall p (List.mem_cons_of_mem _ hpm))
      refine ⟨by simp [h1], h2.trans hG, fen, ?_⟩
      rw [h3, hE]

/-- When the last pass ends with a `return`, the loop ends in the state of that
pass. -/
theorem makeMoveLoop_last_done {Pos : Type} (O : Oracle Pos) (pow10 : Rat → Rat)
    (req : MoveRequest) (now : Int) (retries : Nat) :
    ∀ (txns : List Txn) (game0 : Option Game) (s s1 : Sys),
      (makeMovePasses O pow10 req now retries txns game0 s).getLast? = some (.done s1) →
      makeMoveLoop O pow10 req now retries txns game0 s = s1 := by
  induction retries with
  | zero =>
    intro txns game0 s s1 h
    simp [makeMovePasses] at h
  | succ n ih =>
    intro txns game0 s s1 h
    rw [makeMovePasses] at h
    rw [makeMoveLoop]
    cases hp : makeMovePass O pow10 req now (txns.headD .ok) game0 s with
    | done s2 =>
      rw [hp] at h
      simp only [List.getLast?_singleton, Option.some.injEq, Pass.done.injEq] at h
      simp only [h]
    | retry s2 game2 =>
      rw [hp] at h
      simp only at h ⊢
      cases hrest : makeMovePasses O pow10 req now n txns.tail game2 s2 with
      | nil =>
        rw [hrest] at h
        simp at h
      | cons p ps =>
        apply ih
        rw [hrest] at h ⊢
        rw [List.getLast?_cons_cons] at h
        exact h

/-- The loop never looks at the store's behaviour beyond the passes it has. -/
theorem makeMoveLoop_take {Pos : Type} (O : Oracle Pos) (pow10 : Rat → Rat)
    (req : MoveRequest) (now : Int) (retries : Nat) :
    ∀ (txns : List Txn) (game0 : Option Game) (s : Sys),
      makeMoveLoop O pow10 req now retries txns game0 s =
        makeMoveLoop O pow10 req now retries (txns.take retries) game0 s := by
  induction retries with
  | zero => intro txns game0 s; rfl
  | succ n ih =>
    intro txns game0 s
    rw [makeMoveLoop, makeMoveLoop]
    have hhead : (txns.take (n + 1)).headD Txn.ok = txns.headD Txn.ok := by
      cases txns <;> rfl
    have htail : (txns.take (n + 1)).tail = txns.tail.take n := by
      cases txns <;> simp
    rw [hhead, htail]
    split
    · rfl
    · rename_i s1 game1 _
      rw [ih txns.tail game1 s1, ih (txns.tail.take n) game1 s1, List.take_take, min_self]

/-- C14. Whatever the store does, `makeMove` makes at most three attempts and
never looks at the store's behaviour beyond the third; it ends in the state of
its last attempt when that attempt returns; and when every attempt fails with a
write conflict, three attempts are made, the stored game is as before and
exactly one event is emitted, the `move_rejected` that reports the conflict. -/
theorem makeMove_retry_bound {Pos : Type} (O : Oracle Pos) (pow10 : Rat → Rat)
    (req : MoveRequest) (now : Int) (txns : List Txn) (s : Sys) :
    (makeMovePasses O pow10 req now 3 txns none s).length ≤ 3 ∧
    makeMove O pow10 req now txns s = makeMove O pow10 req now (txns.take 3) s ∧
    (∀ s1, (makeMovePasses O pow10 req now 3 txns none s).getLast? = some (.done s1) →
      makeMove O pow10 req now txns s = s1) ∧
    ((∀ p ∈ makeMovePasses O pow10 req now 3 txns none s, p.isRetry = true) →
      (makeMovePasses O pow10 req now 3 txns none s).length = 3 ∧
      (makeMove O pow10 req now txns s).game = s.game ∧
      ∃ fen, (makeMove O pow10 req now txns s).emitted =
        s.emitted ++ [.move_rejected conflictExhausted fen]) :=
  ⟨makeMovePasses_length O pow10 req now 3 txns none s,
    makeMoveLoop_take O pow10 req now 3 txns none s,
    fun s1 h => makeMoveLoop_last_done O pow10 req now 3 txns none s s1 h,
    fun h => makeMoveLoop_all_retry O pow10 req now 3 txns none s h⟩

/-- C14 at a concrete request: `alice` opens the toy game while the store reports
a write conflict on each of the three attempts. -/
theorem makeMove_retry_bound_witness :
    (∀ p ∈ makeMovePasses toyOracle toyPow10 ⟨"alice", .str "e2e4"⟩ 2000 3
        [.commitFails .writeConflict, .readFails .writeConflict, .commitFails .writeConflict,
          .ok] none toyJoined, p.isRetry = true) ∧
    (makeMovePasses toyOracle toyPow10 ⟨"alice", .str "e2e4"⟩ 2000 3
        [.commitFails .writeConflict, .readFails .writeConflict, .commitFails .writeConflict,
          .ok] none toyJoined).length = 3 ∧
    (makeMove toyOracle toyPow10 ⟨"alice", .str "e2e4"⟩ 2000
        [.commitFails .writeConflict, .readFails .writeConflict, .commitFails .writeConflict,
          .ok] toyJoined).game = toyJoined.game ∧
    ∃ fen, (makeMove toyOracle toyPow10 ⟨"alice", .str "e2e4"⟩ 2000
        [.commitFails .writeConflict, .readFails .writeConflict, .commitFails .writeConflict,
          .ok] toyJoined).emitted =
      toyJoined.emitted ++ [.move_rejected conflictExhausted fen] :=
  have hall : ∀ p ∈ makeMovePasses toyOracle toyPow10 ⟨"alice", .str "e2e4"⟩ 2000 3
      [.commitFails .writeConflict, .readFails .writeConflict, .commitFails .writeConflict,
        .ok] none toyJoined, p.isRetry = true :=
    List.all_eq_true.mp (by decide)
  ⟨hall, (makeMove_retry_bound toyOracle toyPow10 ⟨"alice", .str "e2e4"⟩ 2000
    [.commitFails .writeConflict, .readFails .writeConflict, .commitFails .writeConflict, .ok]
    toyJoined).2.2.2 hall⟩

/-! ## Theorems: `makeMove` when the store fails -/

/-- C19 on the code: `alice` opens the toy game with `e2e4`.  When `save` fails
with an error that is not a write conflict, and when it fails with a write
conflict three times, the stored position is still the initial one, but the
`move_rejected` emitted carries the position after the move, which was never
committed. -/
theorem makeMove_rejection_carries_uncommitted :
    (makeMove toyOracle toyPow10 ⟨"alice", .str "e2e4"⟩ 2000
        [.commitFails (.other "connection lost")] toyJoined).game.fen = getInitialFen ∧
    (makeMove toyOracle toyPow10 ⟨"alice", .str "e2e4"⟩ 2000
        [.commitFails (.other "connection lost")] toyJoined).emitted.getLast? =
      some (.move_rejected "Server error: connection lost" (some (getInitialFen ++ "+"))) ∧
    (makeMove toyOracle toyPow10 ⟨"alice", .str "e2e4"⟩ 2000
        [.commitFails .writeConflict, .commitFails .writeConflict, .commitFails .writeConflict]
        toyJoined).game.fen = getInitialFen ∧
    (makeMove toyOracle toyPow10 ⟨"alice", .str "e2e4"⟩ 2000
        [.commitFails .writeConflict, .commitFails .writeConflict, .commitFails .writeConflict]
        toyJoined).emitted.getLast? =
      some (.move_rejected conflictExhausted (some (getInitialFen ++ "+"))) ∧
    getInitialFen ++ "+" ≠ getInitialFen :=
  ⟨by decide, by decide, by decide, by decide, by decide⟩

/-- C20 fails as stated: in the toy game with its driver running, `alice` plays
a mating move.  When `save` fails with a store error the stored game is still
active, and yet the driver is gone and the ratings have moved from 1500 to 1516
and 1484; when `save` hits a write conflict twice and then succeeds, the rating
update has been applied three times (1522 and 1478). -/
theorem makeMove_side_effects_counterexample :
    toyRunning.timerIntervals ≠ none ∧
    toyRunning.users "alice" = some 1500 ∧
    (makeMove toyOracle toyPow10 ⟨"alice", .str "e2e4q"⟩ 7000 [] toyRunning).game.status
      = Status.checkmate ∧
    (makeMove toyOracle toyPow10 ⟨"alice", .str "e2e4q"⟩ 7000
        [.commitFails (.other "connection lost")] toyRunning).game = toyRunning.game ∧
    (makeMove toyOracle toyPow10 ⟨"alice", .str "e2e4q"⟩ 7000
        [.commitFails (.other "connection lost")] toyRunning).timerIntervals = none ∧
    (makeMove toyOracle toyPow10 ⟨"alice", .str "e2e4q"⟩ 7000
        [.commitFails (.other "connection lost")] toyRunning).users "alice" = some 1516 ∧
    (makeMove toyOracle toyPow10 ⟨"alice", .str "e2e4q"⟩ 7000
        [.commitFails (.other "connection lost")] toyRunning).users "bob" = some 1484 ∧
    (makeMove toyOracle toyPow10 ⟨"alice", .str "e2e4q"⟩ 7000 [] toyRunning).users "alice"
      = some 1516 ∧
    (makeMove toyOracle toyPow10 ⟨"alice", .str "e2e4q"⟩ 7000
        [.commitFails .writeConflict, .commitFails .writeConflict, .ok] toyRunning).users "alice"
      = some 1522 ∧
    (makeMove toyOracle toyPow10 ⟨"alice", .str "e2e4q"⟩ 7000
        [.commitFails .writeConflict, .commitFails .writeConflict, .ok] toyRunning).users "bob"
      = some 1478 :=
  ⟨by decide!, by decide, by decide, by decide!, by decide, by decide!, by decide!, by decide!,
    by decide!, by decide!⟩

/-- The decision of a pass does not depend on the store: either every pass whose
read is served rejects the move with the same reason, or every such pass accepts
it with the same position, side to move and result, and goes on to `save`. -/
theorem makeMovePass_decided {Pos : Type} (O : Oracle Pos) (pow10 : Rat → Rat)
    (req : MoveRequest) (now : Int) (s : Sys) :
    (∃ reason, ∀ (t : Txn) (game0 : Option Game), (∀ f, t ≠ .readFails f) →
      makeMovePass O pow10 req now t game0 s =
        .done (s.emit (.move_rejected reason (some s.game.fen)))) ∨
    (s.game.status = Status.active ∧
      ∃ c fen turn r,
        playerColorOf s.game req.userId = .ok (some c) ∧
        validateMove O s.game.fen req.move.denotes c = .valid fen turn r ∧
        ∀ (t : Txn) (game0 : Option Game), (∀ f, t ≠ .readFails f) →
          makeMovePass O pow10 req now t game0 s =
            (match t with
             | .commitFails f =>
               makeMoveCatch f (some (applyMove s.game req.move.denotes fen turn r now))
                 (endGameEffects pow10 (decide (r.status ≠ Status.active))
                   (applyMove s.game req.move.denotes fen turn r now) s)
             | _ =>
               .done
                 (if decide (r.status ≠ Status.active) = true then
                   ({ endGameEffects pow10 (decide (r.status ≠ Status.active))
                        (applyMove s.game req.move.denotes fen turn r now) s with
                      game := applyMove s.game req.move.denotes fen turn r now }.emit
                     (.move_made fen r turn)).emit
                     (.game_over r.status (applyMove s.game req.move.denotes fen turn r now).winner)
                  else
                    { endGameEffects pow10 (decide (r.status ≠ Status.active))
                        (applyMove s.game req.move.denotes fen turn r now) s with
                      game := applyMove s.game req.move.denotes fen turn r now }.emit
                     (.move_made fen r turn)))) := by
  by_cases hst : s.game.status = Status.active
  swap
  · left
    refine ⟨"Game is not active", fun t game0 ht => ?_⟩
    cases t with
    | readFails f => exact absurd rfl (ht f)
    | ok => simp [makeMovePass, hst]
    | commitFails f => simp [makeMovePass, hst]
  · cases hpc : playerColorOf s.game req.userId with
    | error msg =>
      left
      refine ⟨"Server error: " ++ msg, fun t game0 ht => ?_⟩
      cases t with
      | readFails f => exact absurd rfl (ht f)
      | ok => simp [makeMovePass, hst, hpc, makeMoveCatch]
      | commitFails f => simp [makeMovePass, hst, hpc, makeMoveCatch]
    | ok oc =>
      cases oc with
      | none =>
        left
        refine ⟨"You are not a player in this game", fun t game0 ht => ?_⟩
        cases t with
        | readFails f => exact absurd rfl (ht f)
        | ok => simp [makeMovePass, hst, hpc]
        | commitFails f => simp [makeMovePass, hst, hpc]
      | some c =>
        cases hparse : (match req.move with
            | .str m => parseMoveString O m s.game.fen
            | .obj m => Parsed.valid m) with
        | invalid error =>
          left
          refine ⟨error, fun t game0 ht => ?_⟩
          cases t with
          | readFails f => exact absurd rfl (ht f)
          | ok => simp [makeMovePass, hst, hpc, hparse]
          | commitFails f => simp [makeMovePass, hst, hpc, hparse]
        | valid move =>
          have hmove : move = req.move.denotes :=
            parsed_valid_denotes O req.move s.game.fen move hparse
          cases hval : validateMove O s.game.fen move c with
          | invalid fen1 turn1 error =>
            left
            refine ⟨error, fun t game0 ht => ?_⟩
            cases t with
            | readFails f => exact absurd rfl (ht f)
            | ok => simp [makeMovePass, hst, hpc, hparse, hval]
            | commitFails f => simp [makeMovePass, hst, hpc, hparse, hval]
          | valid fen turn r =>
            right
            refine ⟨hst, c, fen, turn, r, rfl, hmove ▸ hval, fun t game0 ht => ?_⟩
            subst hmove
            cases t with
            | readFails f => exact absurd rfl (ht f)
            | ok =>
              simp only [makeMovePass, hst, hpc, hparse, hval]
              simp
            | commitFails f => simp [makeMovePass, hst, hpc, hparse, hval]

theorem endGameEffects_driver (pow10 : Rat → Rat) (gameEnded : Bool) (game1 : Game) (s : Sys) :
    (endGameEffects pow10 gameEnded game1 s).timerIntervals =
      if gameEnded then none else s.timerIntervals := by
  unfold endGameEffects
  cases gameEnded <;> cases game1.winner.isSome <;> rfl

theorem applyMove_status (game : Game) (move : Move) (fen : String) (turn : Color)
    (r : MoveResult) (now : Int) :
    (applyMove game move fen turn r now).status =
      if r.status ≠ Status.active then r.status else game.status := by
  unfold applyMove
  simp only
  split_ifs <;> rfl

/-- What the retry loop leaves behind: a driver that was removed stays removed;
and either nothing was committed, the stored game is as before and exactly one
`move_rejected` was emitted, or the move was committed and `move_made` was
broadcast, followed by `game_over` when the move ended the game. -/
theorem makeMoveLoop_effects {Pos : Type} (O : Oracle Pos) (pow10 : Rat → Rat)
    (req : MoveRequest) (now : Int) (retries : Nat) :
    ∀ (txns : List Txn) (game0 : Option Game) (s : Sys),
      (s.timerIntervals = none →
        (makeMoveLoop O pow10 req now retries txns game0 s).timerIntervals = none) ∧
      (((makeMoveLoop O pow10 req now retries txns game0 s).game = s.game ∧
          ∃ reason fen, (makeMoveLoop O pow10 req now retries txns game0 s).emitted =
            s.emitted ++ [.move_rejected reason fen]) ∨
        ∃ c fen turn r,
          playerColorOf s.game req.userId = .ok (some c) ∧
          validateMove O s.game.fen req.move.denotes c = .valid fen turn r ∧
          (makeMoveLoop O pow10 req now retries txns game0 s).game =
            applyMove s.game req.move.denotes fen turn r now ∧
          (makeMoveLoop O pow10 req now retries txns game0 s).emitted =
            s.emitted ++ (.move_made fen r turn ::
              if r.status ≠ Status.active then
                [.game_over r.status (applyMove s.game req.move.denotes fen turn r now).winner]
              else [])) := by
  induction retries with
  | zero =>
    intro txns game0 s
    exact ⟨fun h => h, Or.inl ⟨rfl, _, _, rfl⟩⟩
  | succ n ih =>
    intro txns game0 s
    rw [makeMoveLoop]
    generalize txns.headD Txn.ok = t
    cases t with
    | readFails f =>
      cases f with
      | writeConflict =>
        simp only [makeMovePass, makeMoveCatch]
        exact ih txns.tail game0 s
      | other msg =>
        simp only [makeMovePass, makeMoveCatch]
        exact ⟨fun h => h, Or.inl ⟨rfl, _, _, rfl⟩⟩
    | ok =>
      rcases makeMovePass_decided O pow10 req now s with ⟨reason, hk⟩ | ⟨-, c, fen, turn, r, hpc, hval, hk⟩
      · rw [hk .ok game0 (by intro f; simp)]
        exact ⟨fun h => h, Or.inl ⟨rfl, _, _, rfl⟩⟩
      · rw [hk .ok game0 (by intro f; simp)]
        have hD := endGameEffects_driver pow10 (decide (r.status ≠ Status.active))
          (applyMove s.game req.move.denotes fen turn r now) s
        obtain ⟨-, -, hE, -⟩ := endGameEffects_frame pow10 (decide (r.status ≠ Status.active))
          (applyMove s.game req.move.denotes fen turn r now) s
        have hnone : s.timerIntervals = none →
            (endGameEffects pow10 (decide (r.status ≠ Status.active))
              (applyMove s.game req.move.denotes fen turn r now) s).timerIntervals = none := by
          intro h
          rw [hD, h]
          simp
        by_cases hr : r.status ≠ Status.active
        · have hb : decide (r.status ≠ Status.active) = true := decide_eq_true hr
          rw [hb] at hE hnone
          simp only [hb, if_pos hr, ↓reduceIte]
          refine ⟨fun h => hnone h, Or.inr ⟨c, fen, turn, r, hpc, hval, rfl, ?_⟩⟩
          simp only [Sys.emit, hE, List.append_assoc, List.singleton_append, if_pos hr]
        · have hb : decide (r.status ≠ Status.active) = false := decide_eq_false hr
          rw [hb] at hE hnone
          simp only [hb, if_neg hr, Bool.false_eq_true, ↓reduceIte]
          refine ⟨fun h => hnone h, Or.inr ⟨c, fen, turn, r, hpc, hval, rfl, ?_⟩⟩
          simp only [Sys.emit, hE, if_neg hr]
    | commitFails f =>
      rcases makeMovePass_decided O pow10 req now s with ⟨reason, hk⟩ | ⟨-, c, fen, turn, r, hpc, hval, hk⟩
      · rw [hk (.commitFails f) game0 (by intro f; simp)]
        exact ⟨fun h => h, Or.inl ⟨rfl, _, _, rfl⟩⟩
      · rw [hk (.commitFails f) game0 (by intro f; simp)]
        have hD := endGameEffects_driver pow10 (decide (r.status ≠ Status.active))
          (applyMove s.game req.move.denotes fen turn r now) s
        obtain ⟨-, hG, hE, -⟩ := endGameEffects_frame pow10 (decide (r.status ≠ Status.active))
          (applyMove s.game req.move.denotes fen turn r now) s
        have hnone : s.timerIntervals = none →
            (endGameEffects pow10 (decide (r.status ≠ Status.active))
              (applyMove s.game req.move.denotes fen turn r now) s).timerIntervals = none := by
          intro h
          rw [hD, h]
          simp
        cases f with
        | writeConflict =>
          simp only [makeMoveCatch]
          obtain ⟨ih1, ih2⟩ := ih txns.tail
            (some (applyMove s.game req.move.denotes fen turn r now))
            (endGameEffects pow10 (decide (r.status ≠ Status.active))
              (applyMove s.game req.move.denotes fen turn r now) s)
          rw [hG, hE] at ih2
          exact ⟨fun h => ih1 (hnone h), ih2⟩
        | other msg =>
          simp only [makeMoveCatch]
          refine ⟨fun h => hnone h, Or.inl ⟨hG, "Server error: " ++ msg,
            some (applyMove s.game req.move.denotes fen turn r now).fen, ?_⟩⟩
          simp only [Sys.emit, hE, Option.map_some']

/-- C20 (amended): for a move that ends the game (the game is active and the
move, handled with a well-behaved store, leaves it not active), the clock driver
is removed before the commit is attempted: whenever the commit of the first
attempt fails, by a write conflict or by a store error, the driver is gone after
`makeMove`.  Broadcasts do follow the commit: either no attempt committed, and
then the stored game is unchanged and the only event emitted is one
`move_rejected` (this is the case after a store error), or a later attempt
committed, and then the stored game and the events are those of the
well-behaved store. -/
theorem makeMove_driver_removed_before_commit {Pos : Type} (O : Oracle Pos) (pow10 : Rat → Rat)
    (req : MoveRequest) (now : Int) (f : Fault) (rest : List Txn) (s : Sys)
    (hst : s.game.status = Status.active)
    (hends : (makeMove O pow10 req now [] s).game.status ≠ Status.active) :
    (makeMove O pow10 req now (.commitFails f :: rest) s).timerIntervals = none ∧
    (((makeMove O pow10 req now (.commitFails f :: rest) s).game = s.game ∧
        ∃ reason fen, (makeMove O pow10 req now (.commitFails f :: rest) s).emitted =
          s.emitted ++ [.move_rejected reason fen]) ∨
      ((makeMove O pow10 req now (.commitFails f :: rest) s).game =
          (makeMove O pow10 req now [] s).game ∧
        (makeMove O pow10 req now (.commitFails f :: rest) s).emitted =
          (makeMove O pow10 req now [] s).emitted)) ∧
    (∀ msg, f = .other msg →
      (makeMove O pow10 req now (.commitFails f :: rest) s).game = s.game) := by
  have hgood := (makeMoveLoop_effects O pow10 req now 3 [] none s).2
  rcases hgood with ⟨hg0, -⟩ | ⟨c, fen, turn, r, hpc, hval, hgame, hemit⟩
  · exfalso
    apply hends
    show (makeMoveLoop O pow10 req now 3 [] none s).game.status = Status.active
    rw [hg0]
    exact hst
  · change (makeMove O pow10 req now [] s).game = _ at hgame
    change (makeMove O pow10 req now [] s).emitted = _ at hemit
    have hr : r.status ≠ Status.active := by
      intro hr
      apply hends
      rw [hgame, applyMove_status, if_neg (not_not.mpr hr)]
      exact hst
    have hb : decide (r.status ≠ Status.active) = true := decide_eq_true hr
    have hD := endGameEffects_driver pow10 true
      (applyMove s.game req.move.denotes fen turn r now) s
    obtain ⟨-, hG, hE, -⟩ := endGameEffects_frame pow10 true
      (applyMove s.game req.move.denotes fen turn r now) s
    simp only [↓reduceIte] at hD
    have hres : makeMove O pow10 req now (.commitFails f :: rest) s =
        match makeMoveCatch f (some (applyMove s.game req.move.denotes fen turn r now))
            (endGameEffects pow10 true (applyMove s.game req.move.denotes fen turn r now) s) with
        | .done s1 => s1
        | .retry s1 game1 => makeMoveLoop O pow10 req now 2 rest game1 s1 := by
      rcases makeMovePass_decided O pow10 req now s with ⟨reason, hk⟩ | ⟨-, c1, fen1, turn1, r1, hpc1, hval1, hk⟩
      · exfalso
        apply hends
        have h1 : makeMove O pow10 req now [] s =
            s.emit (.move_rejected reason (some s.game.fen)) := by
          rw [makeMove, makeMoveLoop]
          simp only [List.headD_nil]
          rw [hk .ok none (by intro f; simp)]
        rw [h1]
        exact hst
      · rw [hpc] at hpc1
        cases hpc1
        rw [hval] at hval1
        cases hval1
        rw [makeMove, makeMoveLoop]
        simp only [List.headD_cons, List.tail_cons]
        rw [hk (.commitFails f) none (by intro f; simp), hb]
    rw [hres]
    cases f with
    | other msg =>
      simp only [makeMoveCatch]
      refine ⟨hD, Or.inl ⟨hG, "Server error: " ++ msg,
        some (applyMove s.game req.move.denotes fen turn r now).fen, ?_⟩, fun _ _ => hG⟩
      simp only [Sys.emit, hE, Option.map_some']
    | writeConflict =>
      simp only [makeMoveCatch]
      obtain ⟨l1, l2⟩ := makeMoveLoop_effects O pow10 req now 2 rest
        (some (applyMove s.game req.move.denotes fen turn r now))
        (endGameEffects pow10 true (applyMove s.game req.move.denotes fen turn r now) s)
      rw [hG, hE] at l2
      refine ⟨l1 hD, ?_, fun msg h => by cases h⟩
      rcases l2 with l2 | ⟨c1, fen1, turn1, r1, hpc1, hval1, hg, he⟩
      · exact Or.inl l2
      · rw [hpc] at hpc1
        cases hpc1
        rw [hval] at hval1
        cases hval1
        exact Or.inr ⟨hg.trans hgame.symm, he.trans hemit.symm⟩

/-- The amended C20 at a concrete input: in the toy game with its driver running,
`alice` plays the mating move and the commit fails with a store error. -/
theorem makeMove_driver_removed_before_commit_witness :
    toyRunning.game.status = Status.active ∧
    (makeMove toyOracle toyPow10 ⟨"alice", .str "e2e4q"⟩ 7000 [] toyRunning).game.status
      ≠ Status.active ∧
    (makeMove toyOracle toyPow10 ⟨"alice", .str "e2e4q"⟩ 7000
        (.commitFails (.other "connection lost") :: []) toyRunning).timerIntervals = none :=
  ⟨by decide, by decide,
    (makeMove_driver_removed_before_commit toyOracle toyPow10 ⟨"alice", .str "e2e4q"⟩ 7000
      (.other "connection lost") [] toyRunning (by decide) (by decide)).1⟩

/-! ## Theorems: the inactivity check of the interval callback -/

/-- The retry loop of `makeMove` leaves the clock driver as it was or removes it. -/
theorem makeMoveLoop_driver {Pos : Type} (O : Oracle Pos) (pow10 : Rat → Rat)
    (req : MoveRequest) (now : Int) (retries : Nat) :
    ∀ (txns : List Txn) (game0 : Option Game) (s : Sys),
      (makeMoveLoop O pow10 req now retries txns game0 s).timerIntervals = s.timerIntervals ∨
      (makeMoveLoop O pow10 req now retries txns game0 s).timerIntervals = none := by
  induction retries with
  | zero =>
    intro txns game0 s
    exact Or.inl rfl
  | succ n ih =>
    intro txns game0 s
    rw [makeMoveLoop]
    generalize txns.headD Txn.ok = t
    have hread : ∀ f, (match makeMoveCatch f game0 s with
        | .done s1 => s1
        | .retry s1 game1 => makeMoveLoop O pow10 req now n txns.tail game1 s1).timerIntervals
          = s.timerIntervals ∨
        (match makeMoveCatch f game0 s with
        | .done s1 => s1
        | .retry s1 game1 => makeMoveLoop O pow10 req now n txns.tail game1 s1).timerIntervals
          = none := by
      intro f
      cases f with
      | writeConflict =>
        simp only [makeMoveCatch]
        exact ih txns.tail game0 s
      | other msg =>
        simp only [makeMoveCatch]
        exact Or.inl rfl
    rcases makeMovePass_decided O pow10 req now s with ⟨reason, hk⟩ | ⟨-, c, fen, turn, r, hpc, hval, hk⟩
    · cases t with
      | readFails f =>
        simp only [makeMovePass]
        exact hread f
      | ok =>
        rw [hk .ok game0 (by intro f; simp)]
        exact Or.inl rfl
      | commitFails f =>
        rw [hk (.commitFails f) game0 (by intro f; simp)]
        exact Or.inl rfl
    · have hD := endGameEffects_driver pow10 (decide (r.status ≠ Status.active))
        (applyMove s.game req.move.denotes fen turn r now) s
      have hD2 : (endGameEffects pow10 (decide (r.status ≠ Status.active))
            (applyMove s.game req.move.denotes fen turn r now) s).timerIntervals = s.timerIntervals ∨
          (endGameEffects pow10 (decide (r.status ≠ Status.active))
            (applyMove s.game req.move.denotes fen turn r now) s).timerIntervals = none := by
        rw [hD]
        split_ifs
        · exact Or.inr rfl
        · exact Or.inl rfl
      cases t with
      | readFails f =>
        simp only [makeMovePass]
        exact hread f
      | ok =>
        rw [hk .ok game0 (by intro f; simp)]
        simp only
        split_ifs <;> exact hD2
      | commitFails f =>
        rw [hk (.commitFails f) game0 (by intro f; simp)]
        cases f with
        | writeConflict =>
          simp only [makeMoveCatch]
          rcases ih txns.tail (some (applyMove s.game req.move.denotes fen turn r now))
            (endGameEffects pow10 (decide (r.status ≠ Status.active))
              (applyMove s.game req.move.denotes fen turn r now) s) with h | h
          · rw [h]
            exact hD2
          · exact Or.inr h
        | other msg =>
          simp only [makeMoveCatch]
          exact hD2

/-- Every handler leaves the clock driver as it was, removes it, or installs one
whose threshold is computed from the time control of the stored game. -/
theorem step_driver {Pos : Type} (O : Oracle Pos) (pow10 : Rat → Rat) (s : Sys) (op : Op) :
    (step O pow10 s op).timerIntervals = s.timerIntervals ∨
    (step O pow10 s op).timerIntervals = none ∨
    ∃ start, (step O pow10 s op).timerIntervals =
      some ⟨start, activityCheckThreshold s.game.timeControl⟩ := by
  cases op with
  | join userId now =>
    rcases joinGame_cases userId now s with ⟨msg, hj⟩ | ⟨-, -, -, -, hj⟩
    · exact Or.inl (by show (joinGame userId now s).timerIntervals = _; rw [hj]; rfl)
    · exact Or.inl (by show (joinGame userId now s).timerIntervals = _; rw [hj])
  | move req now txns =>
    rcases makeMoveLoop_driver O pow10 req now 3 txns none s with h | h
    · exact Or.inl h
    · exact Or.inr (Or.inl h)
  | startTimer now =>
    by_cases hst : s.game.status ≠ Status.active
    · refine Or.inr (Or.inl ?_)
      show (startTimer now s).timerIntervals = none
      rw [startTimer]
      simp only
      rw [if_pos hst]
    · refine Or.inr (Or.inr ⟨now, ?_⟩)
      show (startTimer now s).timerIntervals = _
      rw [startTimer]
      simp only
      rw [if_neg hst]
  | tick now =>
    have hT : ∀ saves game (s1 : Sys), s1.timerIntervals = s.timerIntervals →
        ((tickTimeout pow10 saves game s1).timerIntervals = s.timerIntervals ∨
          (tickTimeout pow10 saves game s1).timerIntervals = none ∨
          ∃ start, (tickTimeout pow10 saves game s1).timerIntervals =
            some ⟨start, activityCheckThreshold s.game.timeControl⟩) := by
      intro saves game s1 h1
      unfold tickTimeout
      simp only
      split_ifs <;> first | exact Or.inr (Or.inl rfl) | exact Or.inl h1
    show (tick pow10 now s).timerIntervals = _ ∨ (tick pow10 now s).timerIntervals = _ ∨
      ∃ start, (tick pow10 now s).timerIntervals = _
    unfold tick
    split
    · exact Or.inl rfl
    · simp only
      repeat' split
      all_goals
        first
        | exact Or.inr (Or.inl rfl)
        | exact Or.inl rfl
        | exact hT _ _ _ rfl
  | resign userId =>
    show (resignGame pow10 userId s).timerIntervals = _ ∨ (resignGame pow10 userId s).timerIntervals = _ ∨ _
    unfold resignGame
    simp only
    repeat' split
    all_goals first | exact Or.inl rfl | exact Or.inr (Or.inl rfl)
  | offerDraw userId =>
    show (offerDraw userId s).timerIntervals = _ ∨ (offerDraw userId s).timerIntervals = _ ∨ _
    unfold offerDraw
    simp only
    repeat' split
    all_goals exact Or.inl rfl
  | acceptDraw userId =>
    show (acceptDraw userId s).timerIntervals = _ ∨ (acceptDraw userId s).timerIntervals = _ ∨ _
    unfold acceptDraw
    simp only
    repeat' split
    all_goals first | exact Or.inl rfl | exact Or.inr (Or.inl rfl)
  | heartbeat userId now => exact Or.inl rfl
  | rejoin userId now =>
    show (rejoinGame userId now s).timerIntervals = _ ∨ (rejoinGame userId now s).timerIntervals = _ ∨ _
    unfold rejoinGame handleReconnect
    simp only
    split <;> exact Or.inl rfl
  | disconnect now =>
    show (handleDisconnect now s).timerIntervals = _ ∨ (handleDisconnect now s).timerIntervals = _ ∨ _
    unfold handleDisconnect
    simp only
    split_ifs <;> exact Or.inl rfl
  | fireTimeout handle now =>
    show (fireTimeout handle now s).timerIntervals = _ ∨ (fireTimeout handle now s).timerIntervals = _ ∨ _
    unfold fireTimeout disconnectCallback
    simp only
    repeat' split
    all_goals first | exact Or.inl rfl | exact Or.inr (Or.inl rfl)
  | sweep now => exact Or.inl rfl

/-- In every state the server can reach, the closure of the installed interval
holds the threshold computed from the time control of the stored game. -/
theorem reachable_driver {Pos : Type} (O : Oracle Pos) (pow10 : Rat → Rat) (s : Sys)
    (h : Reachable O pow10 s) (driver : Driver) (hd : s.timerIntervals = some driver) :
    driver.activityCheckThreshold = activityCheckThreshold s.game.timeControl := by
  induction h generalizing driver with
  | start users userId timeControl now game nextHandle h =>
    simp [Sys.start] at hd
  | step s op hs ih =>
    have hK := (step_inv O pow10 s op (reachable_inv O pow10 s hs)).2
    rw [hK.2.2.1]
    rcases step_driver O pow10 s op with h | h | ⟨start, h⟩
    · exact ih driver (h ▸ hd)
    · rw [h] at hd
      cases hd
    · rw [h] at hd
      cases hd
      rfl

/-- The threshold of `startTimer` in the words of the specification:
`max(60 000 ms, 15% of timeControl × 60 000 ms)`. -/
theorem activityCheckThreshold_eq (timeControl : Rat) :
    activityCheckThreshold timeControl = max 60000 (15 / 100 * (timeControl * 60000)) := by
  unfold activityCheckThreshold
  congr 1
  · norm_num
  · ring

/-- C16: in a state the server can reach, with the clock driver installed, the
game active and the time stamps of the Activity Tracker positive (they are
values of `Date.now()`), the tick at time `now` sets the status to `abandoned`
if and only if more than 2 minutes have passed since the driver started and
the side to move has a tracker entry older than
`max(60 000 ms, 15% of timeControl × 60 000 ms)`, the rationals standing for the
floating-point numbers of the code; when it does, the game has no winner, no
rating has changed and the driver is removed.  For a time control of 1 minute
the threshold is 60 000 ms. -/
theorem tick_abandons_iff {Pos : Type} (O : Oracle Pos) (pow10 : Rat → Rat) (s : Sys)
    (hr : Reachable O pow10 s) (driver : Driver) (now : Int)
    (hd : s.timerIntervals = some driver) (hst : s.game.status = Status.active)
    (hpos : ∀ u t, s.playerActivityMap u = some t → 0 < t) :
    ((tick pow10 now s).game.status = Status.abandoned ↔
      now - driver.gameStartTime > 2 * 60 * 1000 ∧
        ∃ u t, (if s.game.turn = Color.w then some s.game.whitePlayer else s.game.blackPlayer)
            = some u ∧
          s.playerActivityMap u = some t ∧
          (((now - t : Int) : Rat)) > max 60000 (15 / 100 * (s.game.timeControl * 60000))) ∧
    ((tick pow10 now s).game.status = Status.abandoned →
      (tick pow10 now s).game.winner = none ∧ (tick pow10 now s).users = s.users ∧
        (tick pow10 now s).timerIntervals = none) ∧
    activityCheckThreshold 1 = 60000 := by
  have hinv := reachable_inv O pow10 s hr
  have hthr := (reachable_driver O pow10 s hr driver hd).trans
    (activityCheckThreshold_eq s.game.timeControl)
  obtain ⟨black, a, b, hbl, ha, hb, ha1, hb1, hwin, -⟩ := hinv.game.active_facts hst
  have hu : ∃ u, (if s.game.turn = Color.w then some s.game.whitePlayer
      else s.game.blackPlayer) = some u := by
    split_ifs
    · exact ⟨_, rfl⟩
    · exact ⟨black, hbl⟩
  obtain ⟨u, hu⟩ := hu
  have hm : ∃ m, moverTime s.game = some m := by
    unfold moverTime
    split_ifs
    · exact ⟨a, ha⟩
    · exact ⟨b, hb⟩
  obtain ⟨m, hm⟩ := hm
  have hcond : abandonsForInactivity driver now s ↔
      (now - driver.gameStartTime > 2 * 60 * 1000 ∧
        ∃ u t, (if s.game.turn = Color.w then some s.game.whitePlayer else s.game.blackPlayer)
            = some u ∧
          s.playerActivityMap u = some t ∧
          (((now - t : Int) : Rat)) > max 60000 (15 / 100 * (s.game.timeControl * 60000))) := by
    unfold abandonsForInactivity initialActivityGracePeriod
    rw [hthr]
    constructor
    · rintro ⟨h1, v, hv, h2, h3⟩
      cases hv1 : s.playerActivityMap v with
      | none => rw [hv1] at h2; simp at h2
      | some t =>
        rw [hv1] at h3
        exact ⟨h1, v, t, hv, hv1, h3⟩
    · rintro ⟨h1, v, t, hv, hv1, h3⟩
      refine ⟨h1, v, hv, ?_, ?_⟩
      · rw [hv1]
        exact hpos v t hv1
      · rw [hv1]
        exact h3
  refine ⟨?_, ?_, ?_⟩
  · rw [← hcond]
    rcases tick_cases pow10 now s driver hd hst m hm u hu with ⟨hab, ht⟩ | ⟨hab, s1, -, ht⟩
    · rw [ht]
      exact ⟨fun _ => hab, fun _ => rfl⟩
    · have hg := (congrArg Sys.game ht).trans (tickTimeout_game pow10 (decrementClock s.game) s1)
      refine ⟨fun h => ?_, fun h => absurd h hab⟩
      exfalso
      rw [hg] at h
      split_ifs at h
      all_goals first | cases h | (rw [decrementClock_status, hst] at h; cases h)
  · intro h
    rcases tick_cases pow10 now s driver hd hst m hm u hu with ⟨hab, ht⟩ | ⟨hab, s1, -, ht⟩
    · rw [ht]
      refine ⟨?_, rfl, rfl⟩
      show (decrementClock s.game).winner = none
      rw [decrementClock_winner, hwin]
    · have hg := (congrArg Sys.game ht).trans (tickTimeout_game pow10 (decrementClock s.game) s1)
      exfalso
      rw [hg] at h
      split_ifs at h
      all_goals first | cases h | (rw [decrementClock_status, hst] at h; cases h)
  · rw [activityCheckThreshold_eq]
    norm_num

/-- C16 at a concrete tick: in the two-minute toy game `bob` joined at 1000 and
the driver started at 6000; nobody was heard of since, so the tick at 200000
abandons the game. -/
theorem tick_abandons_iff_witness :
    Reachable toyOracle toyPow10 toyRunning ∧
    toyRunning.timerIntervals = some ⟨6000, activityCheckThreshold 2⟩ ∧
    toyRunning.game.status = Status.active ∧
    (∀ u t, toyRunning.playerActivityMap u = some t → 0 < t) ∧
    (tick toyPow10 200000 toyRunning).game.status = Status.abandoned := by
  have hreach : Reachable toyOracle toyPow10 toyRunning :=
    Reachable.step _ (.startTimer 6000)
      (Reachable.step _ (.join "bob" 1000) (toyStart_reachable 2 (by decide)))
  have hpos : ∀ u t, toyRunning.playerActivityMap u = some t → 0 < t := by
    intro u t h
    have h1 : toyRunning.playerActivityMap =
        setActivity (setActivity (fun _ => none) "alice" 1000) "bob" 1000 := rfl
    rw [h1] at h
    unfold setActivity at h
    split_ifs at h <;> simp at h <;> omega
  refine ⟨hreach, by decide!, by decide, hpos, ?_⟩
  refine (tick_abandons_iff toyOracle toyPow10 toyRunning hreach ⟨6000, activityCheckThreshold 2⟩
    200000 (by decide!) (by decide) hpos).1.mpr ⟨by decide, "alice", 1000, by decide, by decide!, ?_⟩
  show ((200000 - 1000 : Int) : Rat) > max 60000 (15 / 100 * ((2 : Rat) * 60000))
  norm_num

/-! ## Theorems: the rate limiter -/

/-- The two outcomes of `rateLimitEvent` with a limiter installed: the event is
dropped and the limiter keeps its counter, or it is dispatched and the counter
goes up by one; in both cases after the window was reset if it had expired. -/
theorem rateLimitEvent_cases (eventName : String) (l : Limiter) (now : Int) :
    ∃ l1 : Limiter, l1.windowMs = l.windowMs ∧ l1.max = l.max ∧
      ((now - l.windowStart > l.windowMs ∧ l1.windowStart = now ∧ l1.count = 0) ∨
        (¬ now - l.windowStart > l.windowMs ∧ l1 = l)) ∧
      ((l1.max ≤ l1.count ∧
          rateLimitEvent eventName (some l) now =
            (some l1, .dropped ("Too many " ++ eventName ++ " requests. Please wait."))) ∨
        (l1.count < l1.max ∧
          rateLimitEvent eventName (some l) now =
            (some { l1 with count := l1.count + 1 }, .dispatched))) := by
  by_cases hexp : now - l.windowStart > l.windowMs
  · refine ⟨{ l with windowStart := now, count := 0 }, rfl, rfl, Or.inl ⟨hexp, rfl, rfl⟩, ?_⟩
    by_cases hfull : l.max ≤ 0
    · left
      refine ⟨hfull, ?_⟩
      simp only [rateLimitEvent, hexp, ↓reduceIte, ge_iff_le, hfull]
    · right
      refine ⟨Nat.lt_of_not_le hfull, ?_⟩
      simp only [rateLimitEvent, hexp, ↓reduceIte, ge_iff_le, hfull]
  · refine ⟨l, rfl, rfl, Or.inr ⟨hexp, rfl⟩, ?_⟩
    by_cases hfull : l.max ≤ l.count
    · left
      refine ⟨hfull, ?_⟩
      simp only [rateLimitEvent, hexp, ↓reduceIte, ge_iff_le, hfull]
    · right
      refine ⟨Nat.lt_of_not_le hfull, ?_⟩
      simp only [rateLimitEvent, hexp, ↓reduceIte, ge_iff_le, hfull]

theorem dispatchedWithin_cons (a span : Int) (e : Int × Admission)
    (events : List (Int × Admission)) :
    dispatchedWithin a span (e :: events) =
      (if dispatchedIn a span e = true then 1 else 0) + dispatchedWithin a span events := by
  unfold dispatchedWithin
  rw [List.filter_cons]
  split_ifs
  · rw [List.length_cons, Nat.add_comm]
  · rw [Nat.zero_add]

theorem dispatchedIn_le_one (a span : Int) (e : Int × Admission) :
    (if dispatchedIn a span e = true then 1 else 0) ≤ 1 := by
  split_ifs <;> omega

theorem dispatchedIn_before (a span : Int) (e : Int × Admission) (h : e.1 < a) :
    dispatchedIn a span e = false := by
  unfold dispatchedIn
  have : ¬ a ≤ e.1 := by omega
  simp [this]

theorem dispatchedIn_after (a span : Int) (e : Int × Admission) (h : a + span < e.1) :
    dispatchedIn a span e = false := by
  unfold dispatchedIn
  have : ¬ e.1 ≤ a + span := by omega
  simp [this]

theorem dispatchedIn_dropped (a span : Int) (t : Int) (advisory : String) :
    dispatchedIn a span (t, .dropped advisory) = false := by
  simp [dispatchedIn]

/-- No event that arrives after the interval is counted in it. -/
theorem dispatchedWithin_after (eventName : String) (a span : Int) (times : List Int) :
    ∀ limiter : Option Limiter, (∀ t ∈ times, a + span < t) →
      dispatchedWithin a span (rateLimitEvents eventName limiter times) = 0 := by
  induction times with
  | nil => intro limiter _; rfl
  | cons t rest ih =>
    intro limiter h
    rw [rateLimitEvents, dispatchedWithin_cons,
      dispatchedIn_after a span _ (h t (List.mem_cons_self t rest)),
      ih _ (fun u hu => h u (List.mem_cons_of_mem t hu))]
    rfl

/-- When the window of the limiter starts inside or after the interval, at most
what is left of the window's allowance is dispatched in the interval: a reset
of this window comes after the interval. -/
theorem dispatchedWithin_current (eventName : String) (a span : Int) (limit : Nat)
    (times : List Int) :
    ∀ l : Limiter, times.Pairwise (· ≤ ·) → l.windowMs = span → l.max = limit →
      a ≤ l.windowStart →
      dispatchedWithin a span (rateLimitEvents eventName (some l) times) ≤ limit - l.count := by
  induction times with
  | nil => intro l _ _ _ _; exact Nat.zero_le _
  | cons t rest ih =>
    intro l hs hW hM ha
    rw [List.pairwise_cons] at hs
    obtain ⟨l1, hW1, hM1, hreset, hout⟩ := rateLimitEvent_cases eventName l t
    rcases hreset with ⟨hexp, -, -⟩ | ⟨hexp, rfl⟩
    · rw [dispatchedWithin_after eventName a span (t :: rest) (some l)]
      · exact Nat.zero_le _
      · intro u hu
        rcases List.mem_cons.mp hu with rfl | hu
        · omega
        · have := hs.1 u hu
          omega
    · rw [rateLimitEvents, dispatchedWithin_cons]
      rcases hout with ⟨hfull, he⟩ | ⟨hfree, he⟩
      · rw [he]
        simp only [dispatchedIn_dropped, Bool.false_eq_true, ↓reduceIte, Nat.zero_add]
        exact ih l1 hs.2 hW hM ha
      · rw [he]
        have h1 := ih { l1 with count := l1.count + 1 } hs.2 hW hM ha
        have h2 := dispatchedIn_le_one a span (t, Admission.dispatched)
        simp only at h1 ⊢
        omega

/-- When every event arrives in or after the interval, at most what is left of
the current window's allowance and one more allowance are dispatched in the
interval. -/
theorem dispatchedWithin_from (eventName : String) (a span : Int) (limit : Nat)
    (times : List Int) :
    ∀ l : Limiter, times.Pairwise (· ≤ ·) → l.windowMs = span → l.max = limit →
      (∀ t ∈ times, a ≤ t) →
      dispatchedWithin a span (rateLimitEvents eventName (some l) times) ≤
        (limit - l.count) + limit := by
  induction times with
  | nil => intro l _ _ _ _; exact Nat.zero_le _
  | cons t rest ih =>
    intro l hs hW hM hfrom
    rw [List.pairwise_cons] at hs
    have hrest : ∀ u ∈ rest, a ≤ u := fun u hu => hfrom u (List.mem_cons_of_mem t hu)
    have hat : a ≤ t := hfrom t (List.mem_cons_self t rest)
    obtain ⟨l1, hW1, hM1, hreset, hout⟩ := rateLimitEvent_cases eventName l t
    rw [rateLimitEvents, dispatchedWithin_cons]
    have h2 := dispatchedIn_le_one a span (t, Admission.dispatched)
    rcases hreset with ⟨hexp, hws, hc⟩ | ⟨hexp, rfl⟩
    · rcases hout with ⟨hfull, he⟩ | ⟨hfree, he⟩
      · rw [he]
        simp only [dispatchedIn_dropped, Bool.false_eq_true, ↓reduceIte, Nat.zero_add]
        have h1 := dispatchedWithin_current eventName a span limit rest l1 hs.2
          (hW1.trans hW) (hM1.trans hM) (by omega)
        omega
      · rw [he]
        have h1 := dispatchedWithin_current eventName a span limit rest
          { l1 with count := l1.count + 1 } hs.2 (hW1.trans hW) (hM1.trans hM)
          (by show a ≤ l1.windowStart; omega)
        simp only at h1 ⊢
        omega
    · rcases hout with ⟨hfull, he⟩ | ⟨hfree, he⟩
      · rw [he]
        simp only [dispatchedIn_dropped, Bool.false_eq_true, ↓reduceIte, Nat.zero_add]
        exact ih l1 hs.2 hW hM hrest
      · rw [he]
        have h1 := ih { l1 with count := l1.count + 1 } hs.2 hW hM hrest
        simp only at h1 ⊢
        omega

/-- For arrival times that never go back, at most twice the allowance is
dispatched in an interval as long as the window, wherever the interval lies. -/
theorem dispatchedWithin_le (eventName : String) (a span : Int) (limit : Nat)
    (times : List Int) :
    ∀ l : Limiter, times.Pairwise (· ≤ ·) → l.windowMs = span → l.max = limit →
      dispatchedWithin a span (rateLimitEvents eventName (some l) times) ≤ 2 * limit := by
  induction times with
  | nil => intro l _ _ _; exact Nat.zero_le _
  | cons t rest ih =>
    intro l hs hW hM
    by_cases hat : a ≤ t
    · have h1 := dispatchedWithin_from eventName a span limit (t :: rest) l hs hW hM
        (by
          intro u hu
          rcases List.mem_cons.mp hu with rfl | hu
          · exact hat
          · exact le_trans hat ((List.pairwise_cons.mp hs).1 u hu))
      omega
    · rw [rateLimitEvents, dispatchedWithin_cons, dispatchedIn_before a span _ (by simpa using hat)]
      simp only [Bool.false_eq_true, ↓reduceIte, Nat.zero_add]
      obtain ⟨l1, hW1, hM1, -, hout⟩ := rateLimitEvent_cases eventName l t
      rcases hout with ⟨-, he⟩ | ⟨-, he⟩
      · rw [he]
        exact ih l1 (List.pairwise_cons.mp hs).2 (hW1.trans hW) (hM1.trans hM)
      · rw [he]
        exact ih { l1 with count := l1.count + 1 } (List.pairwise_cons.mp hs).2
          (hW1.trans hW) (hM1.trans hM)

theorem installLimiter_make_move (connected : Int) :
    installLimiter "make_move" connected = some ⟨connected, 0, 1000, 3⟩ := by
  simp [installLimiter, socketRateLimits]

theorem installLimiter_send_message (connected : Int) :
    installLimiter "send_message" connected = some ⟨connected, 0, 5000, 5⟩ := by
  simp [installLimiter, socketRateLimits]

theorem installLimiter_join_game (connected : Int) :
    installLimiter "join_game" connected = some ⟨connected, 0, 30000, 5⟩ := by
  simp [installLimiter, socketRateLimits]

/-- C13 fails as stated: on a connection made at time 0, six `make_move` events
arrive at 900, 950, 1000, 1001, 1002 and 1003.  The first three use up the first
window; at 1001 the window has expired, the counter is reset and the next three
pass too: six events are dispatched in the second that starts at 900. -/
theorem rateLimit_rolling_counterexample :
    rateLimitEvents "make_move" (installLimiter "make_move" 0)
        [900, 950, 1000, 1001, 1002, 1003] =
      [(900, .dispatched), (950, .dispatched), (1000, .dispatched),
       (1001, .dispatched), (1002, .dispatched), (1003, .dispatched)] ∧
    dispatchedWithin 900 1000
      (rateLimitEvents "make_move" (installLimiter "make_move" 0)
        [900, 950, 1000, 1001, 1002, 1003]) = 6 :=
  ⟨by decide, by decide⟩

/-- C13 (amended): the limiter counts per fixed window, not per rolling
interval.  For every connection and every sequence of arrival times that never
goes back, the number of `make_move` events that `rateLimitEvent` dispatches
to the handler within any interval of 1 second is at most 6, the number of
`send_message` events within any 5 seconds is at most 10 and the number of
`join_game` events within any 30 seconds is at most 10; an event that finds
the counter of the current window at its limit is dropped: its handler is
not run, the limiter is left as it was and an `error` advisory is emitted. -/
theorem rateLimitEvent_rolling_bound (connected : Int) (times : List Int)
    (hsorted : times.Pairwise (· ≤ ·)) (a : Int) :
    dispatchedWithin a 1000
      (rateLimitEvents "make_move" (installLimiter "make_move" connected) times) ≤ 6 ∧
    dispatchedWithin a 5000
      (rateLimitEvents "send_message" (installLimiter "send_message" connected) times) ≤ 10 ∧
    dispatchedWithin a 30000
      (rateLimitEvents "join_game" (installLimiter "join_game" connected) times) ≤ 10 ∧
    ∀ (eventName : String) (l : Limiter) (now : Int),
      l.max ≤ l.count → now - l.windowStart ≤ l.windowMs →
        rateLimitEvent eventName (some l) now =
          (some l, .dropped ("Too many " ++ eventName ++ " requests. Please wait.")) := by
  refine ⟨?_, ?_, ?_, ?_⟩
  · rw [installLimiter_make_move]
    exact dispatchedWithin_le "make_move" a 1000 3 times _ hsorted rfl rfl
  · rw [installLimiter_send_message]
    exact dispatchedWithin_le "send_message" a 5000 5 times _ hsorted rfl rfl
  · rw [installLimiter_join_game]
    exact dispatchedWithin_le "join_game" a 30000 5 times _ hsorted rfl rfl
  · intro eventName l now hfull hin
    have hexp : ¬ now - l.windowStart > l.windowMs := by omega
    simp only [rateLimitEvent, hexp, ↓reduceIte, ge_iff_le, hfull]

/-- The amended C13 at a concrete input: four `make_move` events in one window;
the fourth is dropped. -/
theorem rateLimitEvent_rolling_bound_witness :
    List.Pairwise (· ≤ ·) ([100, 200, 300, 400] : List Int) ∧
    rateLimitEvents "make_move" (installLimiter "make_move" 0) [100, 200, 300, 400] =
      [(100, .dispatched), (200, .dispatched), (300, .dispatched),
       (400, .dropped "Too many make_move requests. Please wait.")] ∧
    dispatchedWithin 0 1000
      (rateLimitEvents "make_move" (installLimiter "make_move" 0) [100, 200, 300, 400]) ≤ 6 :=
  ⟨by decide, by decide,
    (rateLimitEvent_rolling_bound 0 [100, 200, 300, 400] (by decide) 0).1⟩

/-! ## Theorems: what a tick broadcasts and what it changes -/

theorem toyRunning_reachable : Reachable toyOracle toyPow10 toyRunning :=
  Reachable.step _ (.startTimer 6000)
    (Reachable.step _ (.join "bob" 1000) (toyStart_reachable 2 (by decide)))

/-- The events of the timeout check, when the store accepts the save: a
`timer_update` with the counters it stores, then `game_over` if the game ended. -/
theorem tickTimeout_emitted (pow10 : Rat → Rat) (game : Game) (s : Sys) :
    (tickTimeout pow10 true game s).emitted =
      s.emitted ++
        (.timer_update (tickTimeout pow10 true game s).game.whiteTime
            (tickTimeout pow10 true game s).game.blackTime ::
          if (tickTimeout pow10 true game s).game.status ≠ Status.active then
            [.game_over (tickTimeout pow10 true game s).game.status
              (tickTimeout pow10 true game s).game.winner]
          else []) := by
  unfold tickTimeout
  simp only [Bool.not_true, Bool.false_eq_true, ↓reduceIte]
  split_ifs <;> simp_all [Sys.emit]

/-- C21 fails as stated: in the toy game, active and with its driver running,
the tick at 200000 abandons the game for inactivity; all it emits is one
`game_over`, and no `timer_update`. -/
theorem tick_timer_update_counterexample :
    toyRunning.game.status = Status.active ∧
    toyRunning.timerIntervals ≠ none ∧
    (tick toyPow10 200000 toyRunning).emitted =
      toyRunning.emitted ++ [.game_over Status.abandoned none] :=
  ⟨by decide, by decide!, by decide!⟩

/-- C21, amended. A tick on an active game, in a state the server can reach and
with the driver installed, that does not abandon the game for inactivity emits
a `timer_update` carrying both counters as it stores them, after an
`inactivity_warning` if there is one and before the `game_over` of a timeout;
a tick that abandons the game for inactivity emits one `game_over` and no
`timer_update`. -/
theorem tick_emits_timer_update {Pos : Type} (O : Oracle Pos) (pow10 : Rat → Rat) (s : Sys)
    (hr : Reachable O pow10 s) (driver : Driver) (now : Int)
    (hd : s.timerIntervals = some driver) (hst : s.game.status = Status.active) :
    (¬ abandonsForInactivity driver now s →
      ∃ warning over,
        (tick pow10 now s).emitted =
          s.emitted ++ warning ++
            [.timer_update (tick pow10 now s).game.whiteTime (tick pow10 now s).game.blackTime]
            ++ over ∧
        (warning = [] ∨ ∃ u remaining, warning = [.inactivity_warning u remaining]) ∧
        (over = [] ∨ over = [.game_over Status.timeout (tick pow10 now s).game.winner])) ∧
    (abandonsForInactivity driver now s →
      (tick pow10 now s).emitted = s.emitted ++ [.game_over Status.abandoned none]) := by
  have hinv := reachable_inv O pow10 s hr
  obtain ⟨black, a, b, hbl, ha, hb, ha1, hb1, hwin, -⟩ := hinv.game.active_facts hst
  have hu : ∃ u, (if s.game.turn = Color.w then some s.game.whitePlayer
      else s.game.blackPlayer) = some u := by
    split_ifs
    · exact ⟨_, rfl⟩
    · exact ⟨black, hbl⟩
  obtain ⟨u, hu⟩ := hu
  have hm : ∃ m, moverTime s.game = some m := by
    unfold moverTime
    split_ifs
    · exact ⟨a, ha⟩
    · exact ⟨b, hb⟩
  obtain ⟨m, hm⟩ := hm
  rcases tick_cases pow10 now s driver hd hst m hm u hu with ⟨hab, ht⟩ | ⟨hab, s1, hs1, ht⟩
  · refine ⟨fun h => absurd hab h, fun _ => ?_⟩
    rw [ht]
    rfl
  · refine ⟨fun _ => ?_, fun h => absurd h hab⟩
    have hE := tickTimeout_emitted pow10 (decrementClock s.game) s1
    have hG := tickTimeout_game pow10 (decrementClock s.game) s1
    rw [← ht] at hE hG
    have hover : (if (tick pow10 now s).game.status ≠ Status.active then
          [Emit.game_over (tick pow10 now s).game.status (tick pow10 now s).game.winner]
        else []) = [] ∨
        (if (tick pow10 now s).game.status ≠ Status.active then
          [Emit.game_over (tick pow10 now s).game.status (tick pow10 now s).game.winner]
        else []) = [.game_over Status.timeout (tick pow10 now s).game.winner] := by
      have hstat : (tick pow10 now s).game.status = Status.active ∨
          (tick pow10 now s).game.status = Status.timeout := by
        rw [hG]
        split_ifs
        · exact Or.inr rfl
        · exact Or.inr rfl
        · left
          rw [decrementClock_status, hst]
      rcases hstat with h | h
      · left
        rw [h]
        simp
      · right
        rw [h]
        simp
    rcases hs1 with rfl | ⟨remaining, rfl⟩
    · refine ⟨[], _, ?_, Or.inl rfl, hover⟩
      rw [hE]
      simp
    · refine ⟨[.inactivity_warning u remaining], _, ?_, Or.inr ⟨u, remaining, rfl⟩, hover⟩
      rw [hE]
      simp [Sys.emit]

/-- C21, amended, at a concrete tick: the first tick of the toy game, at 7000. -/
theorem tick_emits_timer_update_witness :
    toyRunning.timerIntervals = some ⟨6000, activityCheckThreshold 2⟩ ∧
    toyRunning.game.status = Status.active ∧
    ¬ abandonsForInactivity ⟨6000, activityCheckThreshold 2⟩ 7000 toyRunning ∧
    ∃ warning over,
      (tick toyPow10 7000 toyRunning).emitted =
        toyRunning.emitted ++ warning ++
          [.timer_update (tick toyPow10 7000 toyRunning).game.whiteTime
            (tick toyPow10 7000 toyRunning).game.blackTime] ++ over ∧
      (warning = [] ∨ ∃ u remaining, warning = [.inactivity_warning u remaining]) ∧
      (over = [] ∨ over = [.game_over Status.timeout (tick toyPow10 7000 toyRunning).game.winner]) := by
  have hno : ¬ abandonsForInactivity ⟨6000, activityCheckThreshold 2⟩ 7000 toyRunning := by
    intro h
    have h1 := h.1
    simp [initialActivityGracePeriod] at h1
  exact ⟨by decide!, by decide, hno,
    (tick_emits_timer_update toyOracle toyPow10 toyRunning toyRunning_reachable
      ⟨6000, activityCheckThreshold 2⟩ 7000 (by decide!) (by decide)).1 hno⟩

/-! ## Theorems: liveness signals and the Activity Tracker -/

/-- Whatever the store does, `makeMove` leaves the Activity Tracker as it was. -/
theorem makeMoveLoop_activity {Pos : Type} (O : Oracle Pos) (pow10 : Rat → Rat)
    (req : MoveRequest) (now : Int) (retries : Nat) :
    ∀ (txns : List Txn) (game0 : Option Game) (s : Sys),
      (makeMoveLoop O pow10 req now retries txns game0 s).playerActivityMap =
        s.playerActivityMap := by
  induction retries with
  | zero =>
    intro txns game0 s
    rfl
  | succ n ih =>
    intro txns game0 s
    rw [makeMoveLoop]
    generalize txns.headD Txn.ok = t
    have hread : ∀ f, (match makeMoveCatch f game0 s with
        | .done s1 => s1
        | .retry s1 game1 =>
          makeMoveLoop O pow10 req now n txns.tail game1 s1).playerActivityMap
          = s.playerActivityMap := by
      intro f
      cases f with
      | writeConflict =>
        simp only [makeMoveCatch]
        exact ih txns.tail game0 s
      | other msg =>
        simp only [makeMoveCatch]
        rfl
    rcases makeMovePass_decided O pow10 req now s with ⟨reason, hk⟩ | ⟨-, c, fen, turn, r, hpc, hval, hk⟩
    · cases t with
      | readFails f =>
        simp only [makeMovePass]
        exact hread f
      | ok =>
        rw [hk .ok game0 (by intro f; simp)]
        rfl
      | commitFails f =>
        rw [hk (.commitFails f) game0 (by intro f; simp)]
        rfl
    · obtain ⟨-, -, -, hA⟩ := endGameEffects_frame pow10 (decide (r.status ≠ Status.active))
        (applyMove s.game req.move.denotes fen turn r now) s
      cases t with
      | readFails f =>
        simp only [makeMovePass]
        exact hread f
      | ok =>
        rw [hk .ok game0 (by intro f; simp)]
        simp only
        split_ifs <;> exact hA
      | commitFails f =>
        rw [hk (.commitFails f) game0 (by intro f; simp)]
        cases f with
        | writeConflict =>
          simp only [makeMoveCatch]
          rw [ih, hA]
        | other msg =>
          simp only [makeMoveCatch]
          exact hA

/-- C22 fails as stated: in the toy game the tracker entry of `alice` is 1000,
the time of the join; her move `e2e4` handled at 2000 is committed (the stored
position changes) and her entry is still 1000. -/
theorem move_refreshes_tracker_counterexample :
    toyJoined.playerActivityMap "alice" = some 1000 ∧
    (makeMove toyOracle toyPow10 ⟨"alice", .str "e2e4"⟩ 2000 [] toyJoined).game.fen
      = getInitialFen ++ "+" ∧
    (makeMove toyOracle toyPow10 ⟨"alice", .str "e2e4"⟩ 2000 [] toyJoined).game.moves
      = [⟨"e2", "e4", none⟩] ∧
    (makeMove toyOracle toyPow10 ⟨"alice", .str "e2e4"⟩ 2000 [] toyJoined).playerActivityMap
      "alice" = some 1000 :=
  ⟨by decide, by decide, by decide, by decide⟩

/-- C22, amended. A heartbeat and a rejoin by `p` handled at time `t` set the
tracker entry of `p` to `t` and leave the other entries as they were; a move,
committed or not, leaves the whole tracker as it was. -/
theorem liveness_refreshes_tracker {Pos : Type} (O : Oracle Pos) (pow10 : Rat → Rat)
    (p : UserId) (t : Int) (s : Sys) :
    (updatePlayerActivity p t s).playerActivityMap p = some t ∧
    (rejoinGame p t s).playerActivityMap p = some t ∧
    (∀ q, q ≠ p →
      (updatePlayerActivity p t s).playerActivityMap q = s.playerActivityMap q ∧
      (rejoinGame p t s).playerActivityMap q = s.playerActivityMap q) ∧
    ∀ (move : MoveInput) (txns : List Txn),
      (makeMove O pow10 ⟨p, move⟩ t txns s).playerActivityMap = s.playerActivityMap := by
  have hR : (rejoinGame p t s).playerActivityMap = setActivity s.playerActivityMap p t := by
    unfold rejoinGame handleReconnect updatePlayerActivity
    simp only
    split <;> rfl
  refine ⟨?_, ?_, fun q hq => ⟨?_, ?_⟩, fun move txns => ?_⟩
  · simp [updatePlayerActivity, setActivity]
  · rw [hR]
    simp [setActivity]
  · simp [updatePlayerActivity, setActivity, hq]
  · rw [hR]
    simp [setActivity, hq]
  · exact makeMoveLoop_activity O pow10 ⟨p, move⟩ t 3 txns none s

/-- C22, amended, at a concrete signal: `alice` sends a heartbeat at 2000; the
entry of `bob` stays 1000. -/
theorem liveness_refreshes_tracker_witness :
    "bob" ≠ "alice" ∧
    (updatePlayerActivity "alice" 2000 toyJoined).playerActivityMap "alice" = some 2000 ∧
    (updatePlayerActivity "alice" 2000 toyJoined).playerActivityMap "bob"
      = toyJoined.playerActivityMap "bob" :=
  ⟨by decide,
    (liveness_refreshes_tracker toyOracle toyPow10 "alice" 2000 toyJoined).1,
    ((liveness_refreshes_tracker toyOracle toyPow10 "alice" 2000 toyJoined).2.2.1 "bob"
      (by decide)).1⟩

/-- C24. In a state the server can reach, with the driver installed and the game
active, a tick after which the game is still active stores the game as it was
but for the counter of the side named by `turn`, which is one less: the other
counter, the position, the side to move, the moves, the status and the winner
are as before. -/
theorem tick_debits_mover {Pos : Type} (O : Oracle Pos) (pow10 : Rat → Rat) (s : Sys)
    (hr : Reachable O pow10 s) (driver : Driver) (now : Int)
    (hd : s.timerIntervals = some driver) (hst : s.game.status = Status.active)
    (hon : (tick pow10 now s).game.status = Status.active) :
    (∃ a b, s.game.whiteTime = some a ∧ s.game.blackTime = some b ∧
      (s.game.turn = Color.w →
        (tick pow10 now s).game = { s.game with whiteTime := some (a - 1) }) ∧
      (s.game.turn = Color.b →
        (tick pow10 now s).game = { s.game with blackTime := some (b - 1) })) ∧
    (tick pow10 now s).game.fen = s.game.fen ∧
    (tick pow10 now s).game.turn = s.game.turn ∧
    (tick pow10 now s).game.moves = s.game.moves ∧
    (tick pow10 now s).game.status = s.game.status ∧
    (tick pow10 now s).game.winner = s.game.winner := by
  have hinv := reachable_inv O pow10 s hr
  obtain ⟨black, a, b, hbl, ha, hb, ha1, hb1, hwin, -⟩ := hinv.game.active_facts hst
  have hu : ∃ u, (if s.game.turn = Color.w then some s.game.whitePlayer
      else s.game.blackPlayer) = some u := by
    split_ifs
    · exact ⟨_, rfl⟩
    · exact ⟨black, hbl⟩
  obtain ⟨u, hu⟩ := hu
  have hm : ∃ m, moverTime s.game = some m := by
    unfold moverTime
    split_ifs
    · exact ⟨a, ha⟩
    · exact ⟨b, hb⟩
  obtain ⟨m, hm⟩ := hm
  have hgame : (tick pow10 now s).game = decrementClock s.game := by
    rcases tick_cases pow10 now s driver hd hst m hm u hu with ⟨hab, ht⟩ | ⟨hab, s1, hs1, ht⟩
    · rw [ht] at hon
      cases hon
    · have hG := (congrArg Sys.game ht).trans
        (tickTimeout_game pow10 (decrementClock s.game) s1)
      rw [hG] at hon ⊢
      split_ifs at hon ⊢
      all_goals rfl
  rw [hgame]
  refine ⟨⟨a, b, ha, hb, fun hw => ?_, fun hbt => ?_⟩, ?_, ?_, ?_, ?_, ?_⟩
  · simp [decrementClock, hw, ha]
  · simp [decrementClock, hbt, hb]
  · unfold decrementClock; split_ifs <;> rfl
  · unfold decrementClock; split_ifs <;> rfl
  · unfold decrementClock; split_ifs <;> rfl
  · unfold decrementClock; split_ifs <;> rfl
  · unfold decrementClock; split_ifs <;> rfl

/-- C24 at a concrete tick: the first tick of the two-minute toy game takes the
counter of `alice` from 120 to 119. -/
theorem tick_debits_mover_witness :
    toyRunning.timerIntervals = some ⟨6000, activityCheckThreshold 2⟩ ∧
    toyRunning.game.status = Status.active ∧
    (tick toyPow10 7000 toyRunning).game.status = Status.active ∧
    toyRunning.game.turn = Color.w ∧
    toyRunning.game.whiteTime = some 120 ∧
    (tick toyPow10 7000 toyRunning).game.whiteTime = some 119 ∧
    (tick toyPow10 7000 toyRunning).game.fen = toyRunning.game.fen := by
  have h := tick_debits_mover toyOracle toyPow10 toyRunning toyRunning_reachable
    ⟨6000, activityCheckThreshold 2⟩ 7000 (by decide!) (by decide) (by decide!)
  exact ⟨by decide!, by decide, by decide!, by decide, by decide, by decide!, h.2.1⟩

/-! ## Theorems: the disconnection timer fires -/

/-- C25. When the runtime runs the callback scheduled by `handleDisconnect`, in a
state the server can reach: if the stored game is active, its status becomes
`abandoned` and nothing else in the document changes, it has no winner, no
rating changes and exactly one event is emitted, `game_over` with status
`abandoned` and no winner; if the stored game is not active, the game and the
ratings are as before and nothing is emitted. -/
theorem disconnect_timer_fires {Pos : Type} (O : Oracle Pos) (pow10 : Rat → Rat) (s : Sys)
    (hr : Reachable O pow10 s) (handle : Nat) (now : Int)
    (hrun : callbackRuns handle now s) :
    (s.game.status = Status.active →
      (fireTimeout handle now s).game = { s.game with status := Status.abandoned } ∧
      (fireTimeout handle now s).game.winner = none ∧
      (fireTimeout handle now s).users = s.users ∧
      (fireTimeout handle now s).emitted =
        s.emitted ++ [.game_over Status.abandoned none]) ∧
    (s.game.status ≠ Status.active →
      (fireTimeout handle now s).game = s.game ∧
      (fireTimeout handle now s).users = s.users ∧
      (fireTimeout handle now s).emitted = s.emitted) := by
  rw [fireTimeout_of_runs handle now s hrun]
  refine ⟨fun hst => ?_, fun hst => ?_⟩
  · obtain ⟨black, a, b, -, -, -, -, -, hwin, -⟩ :=
      (reachable_inv O pow10 s hr).game.active_facts hst
    have hst1 : ¬ ({ s with pendingTimeouts := clearTimeout handle s.pendingTimeouts } : Sys).game.status
        ≠ Status.active := not_not.mpr hst
    unfold disconnectCallback
    rw [if_neg hst1]
    exact ⟨rfl, hwin, rfl, rfl⟩
  · have hst1 : ({ s with pendingTimeouts := clearTimeout handle s.pendingTimeouts } : Sys).game.status
        ≠ Status.active := hst
    unfold disconnectCallback
    rw [if_pos hst1]
    exact ⟨rfl, rfl, rfl⟩

/-- C25 at a concrete run: the connection of the toy game is lost at 10000 and
nobody reconnects; the callback runs at 400000. -/
theorem disconnect_timer_fires_witness :
    callbackRuns 0 400000 (step toyOracle toyPow10 toyJoined (.disconnect 10000)) ∧
    (step toyOracle toyPow10 toyJoined (.disconnect 10000)).game.status = Status.active ∧
    (fireTimeout 0 400000 (step toyOracle toyPow10 toyJoined (.disconnect 10000))).game =
      { toyJoined.game with status := Status.abandoned } := by
  have hrun : callbackRuns 0 400000 (step toyOracle toyPow10 toyJoined (.disconnect 10000)) :=
    ⟨⟨0, 310000⟩, by decide, by decide⟩
  exact ⟨hrun, by decide,
    ((disconnect_timer_fires toyOracle toyPow10
      (step toyOracle toyPow10 toyJoined (.disconnect 10000))
      (Reachable.step _ _ (Reachable.step _ _ (toyStart_reachable 2 (by decide))))
      0 400000 hrun).1 (by decide)).1⟩

/-! ## Theorems: the outcome of an accepted move -/

theorem colorOf_participant (game : Game) (userId : UserId) (c : Color)
    (h : colorOf game userId = some c) :
    (c = Color.w → game.whitePlayer = userId) ∧ (c = Color.b → game.blackPlayer = some userId) := by
  unfold colorOf at h
  split_ifs at h with hw hb
  · simp only [Option.some.injEq] at h
    subst h
    exact ⟨fun _ => hw, fun e => nomatch e⟩
  · simp only [Option.some.injEq] at h
    subst h
    exact ⟨fun e => (nomatch e), fun _ => hb⟩

/-- The document of an accepted move, read off the answers of the rules engine
about the position `chess1` reached by the side `c`. -/
theorem applyMove_outcome {Pos : Type} (O : Oracle Pos) (game : Game) (move : Move)
    (fen : String) (turn c : Color) (chess1 : Pos) (now : Int)
    (hst : game.status = Status.active) :
    let g1 := applyMove game move fen turn
      { move := move, status := (outcomeOf O chess1 c).1, winner := (outcomeOf O chess1 c).2 } now
    g1.fen = fen ∧ g1.turn = turn ∧ g1.moves = game.moves ++ [move] ∧
    (O.isGameOver chess1 = true ∧ O.isCheckmate chess1 = true →
      g1.status = Status.checkmate ∧
        g1.winner = if c = Color.w then some game.whitePlayer else game.blackPlayer) ∧
    (O.isGameOver chess1 = true ∧ O.isCheckmate chess1 = false ∧ O.isStalemate chess1 = true →
      g1.status = Status.stalemate ∧ g1.winner = none) ∧
    (O.isGameOver chess1 = true ∧ O.isCheckmate chess1 = false ∧ O.isStalemate chess1 = false ∧
        (O.isDraw chess1 = true ∨ O.isThreefoldRepetition chess1 = true ∨
          O.isInsufficientMaterial chess1 = true) →
      g1.status = Status.draw ∧ g1.winner = none) ∧
    (O.isGameOver chess1 = false ∨
        (O.isCheckmate chess1 = false ∧ O.isStalemate chess1 = false ∧ O.isDraw chess1 = false ∧
          O.isThreefoldRepetition chess1 = false ∧ O.isInsufficientMaterial chess1 = false) →
      g1.status = Status.active ∧ g1.winner = game.winner) := by
  intro g1
  refine ⟨?_, ?_, ?_, ?_, ?_, ?_, ?_⟩
  · show (applyMove _ _ _ _ _ _).fen = fen
    unfold applyMove; simp only; split_ifs <;> rfl
  · show (applyMove _ _ _ _ _ _).turn = turn
    unfold applyMove; simp only; split_ifs <;> rfl
  · show (applyMove _ _ _ _ _ _).moves = _
    unfold applyMove; simp only; split_ifs <;> rfl
  · rintro ⟨h1, h2⟩
    have ho : outcomeOf O chess1 c = (Status.checkmate, some c) := by
      simp [outcomeOf, h1, h2]
    show (applyMove _ _ _ _ _ _).status = _ ∧ (applyMove _ _ _ _ _ _).winner = _
    rw [ho]
    simp [applyMove]
  · rintro ⟨h1, h2, h3⟩
    have ho : outcomeOf O chess1 c = (Status.stalemate, none) := by
      simp [outcomeOf, h1, h2, h3]
    show (applyMove _ _ _ _ _ _).status = _ ∧ (applyMove _ _ _ _ _ _).winner = _
    rw [ho]
    simp [applyMove]
  · rintro ⟨h1, h2, h3, h4⟩
    have ho : outcomeOf O chess1 c = (Status.draw, none) := by
      rcases h4 with h4 | h4 | h4
      · simp [outcomeOf, h1, h2, h3, h4]
      · simp [outcomeOf, h1, h2, h3, h4]
      · simp [outcomeOf, h1, h2, h3, h4]
    show (applyMove _ _ _ _ _ _).status = _ ∧ (applyMove _ _ _ _ _ _).winner = _
    rw [ho]
    simp [applyMove]
  · intro h
    have ho : outcomeOf O chess1 c = (Status.active, none) := by
      rcases h with h | ⟨h2, h3, h4, h5, h6⟩
      · simp [outcomeOf, h]
      · simp [outcomeOf, h2, h3, h4, h5, h6]
    show (applyMove _ _ _ _ _ _).status = _ ∧ (applyMove _ _ _ _ _ _).winner = _
    rw [ho]
    simp [applyMove, hst]

/-- C26. Whatever the store does, when `makeMove` accepts a move of `p`, that is
when it changes the stored game, the rules engine has accepted the move in the
stored position and produced a position `chess1`; the stored position and side
to move become those of `chess1`, the move is appended to `moves`, and: if the
engine reports the game over by checkmate, the status is `checkmate` and the
winner is `p`; if it reports the game over by stalemate, the status is
`stalemate` with no winner; if it reports it over by another draw, the status
is `draw` with no winner; if it does not report the game over, or reports none
of these, the status stays `active` and the winner is as before. -/
theorem makeMove_outcome {Pos : Type} (O : Oracle Pos) (pow10 : Rat → Rat)
    (req : MoveRequest) (now : Int) (txns : List Txn) (s : Sys)
    (hacc : (makeMove O pow10 req now txns s).game ≠ s.game) :
    ∃ chess chess1,
      O.load (fenOrDefault s.game.fen) = .ok chess ∧
      O.move chess req.move.denotes = .ok (some chess1) ∧
      (makeMove O pow10 req now txns s).game.fen = O.fen chess1 ∧
      (makeMove O pow10 req now txns s).game.turn = O.turn chess1 ∧
      (makeMove O pow10 req now txns s).game.moves = s.game.moves ++ [req.move.denotes] ∧
      (O.isGameOver chess1 = true ∧ O.isCheckmate chess1 = true →
        (makeMove O pow10 req now txns s).game.status = Status.checkmate ∧
          (makeMove O pow10 req now txns s).game.winner = some req.userId) ∧
      (O.isGameOver chess1 = true ∧ O.isCheckmate chess1 = false ∧ O.isStalemate chess1 = true →
        (makeMove O pow10 req now txns s).game.status = Status.stalemate ∧
          (makeMove O pow10 req now txns s).game.winner = none) ∧
      (O.isGameOver chess1 = true ∧ O.isCheckmate chess1 = false ∧
          O.isStalemate chess1 = false ∧
          (O.isDraw chess1 = true ∨ O.isThreefoldRepetition chess1 = true ∨
            O.isInsufficientMaterial chess1 = true) →
        (makeMove O pow10 req now txns s).game.status = Status.draw ∧
          (makeMove O pow10 req now txns s).game.winner = none) ∧
      (O.isGameOver chess1 = false ∨
          (O.isCheckmate chess1 = false ∧ O.isStalemate chess1 = false ∧
            O.isDraw chess1 = false ∧ O.isThreefoldRepetition chess1 = false ∧
            O.isInsufficientMaterial chess1 = false) →
        (makeMove O pow10 req now txns s).game.status = Status.active ∧
          (makeMove O pow10 req now txns s).game.winner = s.game.winner) := by
  rcases (makeMoveLoop_game O pow10 req now 3 txns none s).2 with
    hsame | ⟨hst, c, fen, turn, r, hpc, hval, hgame⟩
  · exact absurd hsame hacc
  · obtain ⟨chess, chess1, hload, hturn, hmove, hfen, hturn1, hr⟩ :=
      validateMove_valid O s.game.fen req.move.denotes c fen turn r hval
    have hcol := colorOf_participant s.game req.userId c
      (playerColorOf_eq_colorOf s.game req.userId c hpc)
    have hout := applyMove_outcome O s.game req.move.denotes fen turn c chess1 now hst
    simp only at hout
    rw [← hr] at hout
    have hG : (makeMove O pow10 req now txns s).game =
        applyMove s.game req.move.denotes fen turn r now := hgame
    rw [hG]
    obtain ⟨o1, o2, o3, o4, o5, o6, o7⟩ := hout
    refine ⟨chess, chess1, hload, hmove, o1.trans hfen, o2.trans hturn1, o3, ?_, o5, o6, o7⟩
    intro h
    refine ⟨(o4 h).1, ?_⟩
    rw [(o4 h).2]
    cases c with
    | w => simp [hcol.1 rfl]
    | b => simp [hcol.2 rfl]

/-- C26 at a concrete move: `alice` mates in the toy game. -/
theorem makeMove_outcome_witness :
    (makeMove toyOracle toyPow10 ⟨"alice", .str "e2e4q"⟩ 2000 [] toyJoined).game ≠ toyJoined.game ∧
    ∃ chess chess1,
      toyOracle.load (fenOrDefault toyJoined.game.fen) = .ok chess ∧
      toyOracle.move chess (MoveInput.str "e2e4q").denotes = .ok (some chess1) ∧
      (makeMove toyOracle toyPow10 ⟨"alice", .str "e2e4q"⟩ 2000 [] toyJoined).game.fen = toyOracle.fen chess1 ∧
      (makeMove toyOracle toyPow10 ⟨"alice", .str "e2e4q"⟩ 2000 [] toyJoined).game.turn = toyOracle.turn chess1 ∧
      (makeMove toyOracle toyPow10 ⟨"alice", .str "e2e4q"⟩ 2000 [] toyJoined).game.moves = toyJoined.game.moves ++ [(MoveInput.str "e2e4q").denotes] ∧
      (toyOracle.isGameOver chess1 = true ∧ toyOracle.isCheckmate chess1 = true →
        (makeMove toyOracle toyPow10 ⟨"alice", .str "e2e4q"⟩ 2000 [] toyJoined).game.status = Status.checkmate ∧
          (makeMove toyOracle toyPow10 ⟨"alice", .str "e2e4q"⟩ 2000 [] toyJoined).game.winner = some "alice") := by
  obtain ⟨chess, chess1, h1, h2, h3, h4, h5, h6, -⟩ :=
    makeMove_outcome toyOracle toyPow10 ⟨"alice", .str "e2e4q"⟩ 2000 [] toyJoined (by decide!)
  exact ⟨by decide!, chess, chess1, h1, h2, h3, h4, h5, h6⟩

/-! ## Theorems: the move string -/

/-- The string the client builds from a move is cut back into the same move. -/
theorem moveOfString_concat (from_ to_ : String) (promotion : Option String)
    (hf : from_.length = 2) (ht : to_.length = 2)
    (hp : promotion = none ∨ promotion = some "q" ∨ promotion = some "r" ∨
      promotion = some "b" ∨ promotion = some "n") :
    (from_ ++ to_ ++ promotion.getD "").toList.length ≥ 4 ∧
    moveOfString (from_ ++ to_ ++ promotion.getD "") = ⟨from_, to_, promotion⟩ := by
  obtain ⟨f⟩ := from_
  obtain ⟨t⟩ := to_
  simp only [String.length] at hf ht
  match f, hf with
  | [a, b], _ =>
    match t, ht with
    | [c, d], _ =>
      rcases hp with rfl | rfl | rfl | rfl | rfl <;>
        simp [moveOfString, String.toList, String.ext_iff]

/-- C27. For two-character strings `from_` and `to_` and a promotion that is
absent or one of `q`, `r`, `b`, `n`, `parseMoveString` on the string the client
sends, `from_ + to_ + promotion`, returns valid exactly when the rules engine
loads the position and accepts the move `{ from, to, promotion }` in it, and
the move returned is this move, without promotion when none was sent; and a
string of fewer than 4 characters, or whose fifth character is none of `q`,
`r`, `b`, `n` in either case, is rejected. -/
theorem parseMoveString_roundtrip {Pos : Type} (O : Oracle Pos) (from_ to_ : String)
    (promotion : Option String) (fen : String)
    (hf : from_.length = 2) (ht : to_.length = 2)
    (hp : promotion = none ∨ promotion = some "q" ∨ promotion = some "r" ∨
      promotion = some "b" ∨ promotion = some "n") :
    (∀ m, parseMoveString O (from_ ++ to_ ++ promotion.getD "") fen = .valid m ↔
      (m = ⟨from_, to_, promotion⟩ ∧
        ∃ chess chess1, O.load (fenOrDefault fen) = .ok chess ∧
          O.move chess ⟨from_, to_, promotion⟩ = .ok (some chess1))) ∧
    (∀ moveString : String, moveString.toList.length < 4 →
      ∃ error, parseMoveString O moveString fen = .invalid error) ∧
    (∀ (moveString : String) (c : Char), (moveString.toList.drop 4).head? = some c →
      c.toLower ∉ ['q', 'r', 'b', 'n'] →
      ∃ error, parseMoveString O moveString fen = .invalid error) := by
  obtain ⟨hlen, hmove⟩ := moveOfString_concat from_ to_ promotion hf ht hp
  refine ⟨fun m => ⟨fun h => ?_, fun h => ?_⟩, fun moveString hshort => ?_,
    fun moveString c hc hno => ?_⟩
  · obtain ⟨hm, chess, chess1, hload, hmv⟩ :=
      parseMoveString_valid O (from_ ++ to_ ++ promotion.getD "") fen m h
    rw [hmove] at hm
    subst hm
    exact ⟨rfl, chess, chess1, hload, hmv⟩
  · obtain ⟨rfl, chess, chess1, hload, hmv⟩ := h
    have hprom : (Option.any (fun p => !(["q", "r", "b", "n"].contains p)) promotion) = false := by
      rcases hp with rfl | rfl | rfl | rfl | rfl <;> decide
    unfold parseMoveString
    rw [if_neg (by omega)]
    simp only [hmove, hprom, Bool.false_eq_true, ↓reduceIte, hload, hmv]
  · exact ⟨_, by unfold parseMoveString; rw [if_pos hshort]⟩
  · have hlong : ¬ moveString.toList.length < 4 := by
      intro h
      rw [List.drop_eq_nil_of_le (by omega)] at hc
      simp at hc
    have hlen5 : moveString.toList.length > 4 := by
      by_contra h
      rw [List.drop_eq_nil_of_le (by omega)] at hc
      simp at hc
    have htake : (moveString.toList.drop 4).take 1 = [c] := by
      cases hd : moveString.toList.drop 4 with
      | nil => rw [hd] at hc; simp at hc
      | cons x rest =>
        rw [hd] at hc
        simp only [List.head?_cons, Option.some.injEq] at hc
        simp [hc]
    have hprom : (moveOfString moveString).promotion = some (String.mk [c.toLower]) := by
      unfold moveOfString
      simp only
      rw [if_pos hlen5, htake]
      rfl
    have hbad : (["q", "r", "b", "n"].contains (String.mk [c.toLower])) = false := by
      simp only [List.mem_cons, List.mem_singleton, List.not_mem_nil, or_false, not_or] at hno
      simp [String.ext_iff, hno]
    refine ⟨"Invalid promotion piece", ?_⟩
    unfold parseMoveString
    rw [if_neg hlong]
    simp only [hprom, Option.any_some, hbad, Bool.not_false, ↓reduceIte]

/-- C27 at a concrete move: the promotion `e7e8q`, which the toy engine accepts. -/
theorem parseMoveString_roundtrip_witness :
    ("e7" : String).length = 2 ∧ ("e8" : String).length = 2 ∧
    parseMoveString toyOracle ("e7" ++ "e8" ++ (some "q").getD "") getInitialFen =
      .valid ⟨"e7", "e8", some "q"⟩ :=
  ⟨by decide, by decide,
    ((parseMoveString_roundtrip toyOracle "e7" "e8" (some "q") getInitialFen (by decide)
      (by decide) (Or.inr (Or.inl rfl))).1 ⟨"e7", "e8", some "q"⟩).mpr
      ⟨rfl, getInitialFen.toList, getInitialFen.toList ++ ['#'], rfl, rfl⟩⟩

/-! ## Theorems: the windows of the rate limiter -/

theorem dispatchedCount_cons (e : Int × Admission) (events : List (Int × Admission)) :
    dispatchedCount (e :: events) =
      (if e.2 = Admission.dispatched then 1 else 0) + dispatchedCount events := by
  unfold dispatchedCount
  rw [List.filter_cons]
  by_cases h : e.2 = Admission.dispatched
  · simp [h, Nat.add_comm]
  · simp [h]

/-- While no event finds the window expired, at most what is left of the
window's allowance is dispatched. -/
theorem dispatchedCount_current (eventName : String) (times : List Int) :
    ∀ l : Limiter, (∀ t ∈ times, t - l.windowStart ≤ l.windowMs) →
      dispatchedCount (rateLimitEvents eventName (some l) times) ≤ l.max - l.count := by
  induction times with
  | nil => intro l _; exact Nat.zero_le _
  | cons t rest ih =>
    intro l h
    have ht := h t (List.mem_cons_self t rest)
    have hrest : ∀ u ∈ rest, u - l.windowStart ≤ l.windowMs :=
      fun u hu => h u (List.mem_cons_of_mem t hu)
    obtain ⟨l1, hW1, hM1, hreset, hout⟩ := rateLimitEvent_cases eventName l t
    rcases hreset with ⟨hexp, -, -⟩ | ⟨-, rfl⟩
    · omega
    · rw [rateLimitEvents, dispatchedCount_cons]
      rcases hout with ⟨hfull, he⟩ | ⟨hfree, he⟩
      · rw [he]
        simp only [reduceCtorEq, ↓reduceIte, Nat.zero_add]
        exact ih l1 hrest
      · rw [he]
        have h1 := ih { l1 with count := l1.count + 1 } hrest
        simp only [↓reduceIte] at h1 ⊢
        omega

/-- C29. For every limiter: from an event that resets the window up to the next
event that would reset it, at most `max` events are dispatched; more generally,
while no event finds the window expired, at most `max - count` are; for
arrival times that never go back, at most `2 * max` events are dispatched in
any interval of length `windowMs`; and a dropped event does not increase the
counter. -/
theorem rateLimitEvent_windows (eventName : String) (l : Limiter) :
    (∀ (t0 : Int) (rest : List Int), t0 - l.windowStart > l.windowMs →
      (∀ t ∈ rest, t - t0 ≤ l.windowMs) →
      dispatchedCount (rateLimitEvents eventName (some l) (t0 :: rest)) ≤ l.max) ∧
    (∀ times : List Int, (∀ t ∈ times, t - l.windowStart ≤ l.windowMs) →
      dispatchedCount (rateLimitEvents eventName (some l) times) ≤ l.max - l.count) ∧
    (∀ (times : List Int) (a : Int), times.Pairwise (· ≤ ·) →
      dispatchedWithin a l.windowMs (rateLimitEvents eventName (some l) times) ≤ 2 * l.max) ∧
    (∀ (now : Int) (l1 : Option Limiter) (advisory : String),
      rateLimitEvent eventName (some l) now = (l1, .dropped advisory) →
      ∃ l2, l1 = some l2 ∧ l2.count ≤ l.count) := by
  refine ⟨fun t0 rest hexp hrest => ?_, fun times h => dispatchedCount_current eventName times l h,
    fun times a hs => dispatchedWithin_le eventName a l.windowMs l.max times l hs rfl rfl,
    fun now l1 advisory h => ?_⟩
  · obtain ⟨l1, hW1, hM1, hreset, hout⟩ := rateLimitEvent_cases eventName l t0
    rcases hreset with ⟨-, hws, hc⟩ | ⟨hno, -⟩
    swap
    · exact absurd hexp hno
    rw [rateLimitEvents, dispatchedCount_cons]
    rcases hout with ⟨hfull, he⟩ | ⟨hfree, he⟩
    · rw [he]
      simp only [reduceCtorEq, ↓reduceIte, Nat.zero_add]
      have h1 := dispatchedCount_current eventName rest l1
        (by intro t ht; rw [hws, hW1]; exact hrest t ht)
      omega
    · rw [he]
      have h1 := dispatchedCount_current eventName rest { l1 with count := l1.count + 1 }
        (by intro t ht; show t - l1.windowStart ≤ l1.windowMs; rw [hws, hW1]; exact hrest t ht)
      simp only [↓reduceIte] at h1 ⊢
      omega
  · obtain ⟨l2, -, -, hreset, hout⟩ := rateLimitEvent_cases eventName l now
    rcases hout with ⟨-, he⟩ | ⟨-, he⟩
    · rw [he] at h
      simp only [Prod.mk.injEq] at h
      refine ⟨l2, h.1.symm, ?_⟩
      rcases hreset with ⟨-, -, hc⟩ | ⟨-, rfl⟩
      · omega
      · exact le_refl _
    · rw [he] at h
      simp at h

/-- C29 at a concrete limiter: the `make_move` limiter of a connection made at
time 0 has dispatched three events; five events arrive from 1500 on, the first
resets the window and the fifth is dropped. -/
theorem rateLimitEvent_windows_witness :
    (1500 : Int) - (⟨0, 3, 1000, 3⟩ : Limiter).windowStart > (⟨0, 3, 1000, 3⟩ : Limiter).windowMs ∧
    (∀ t ∈ ([1600, 1700, 1800, 2500] : List Int), t - 1500 ≤ (⟨0, 3, 1000, 3⟩ : Limiter).windowMs) ∧
    rateLimitEvents "make_move" (some ⟨0, 3, 1000, 3⟩) [1500, 1600, 1700, 1800, 2500] =
      [(1500, .dispatched), (1600, .dispatched), (1700, .dispatched),
       (1800, .dropped "Too many make_move requests. Please wait."),
       (2500, .dropped "Too many make_move requests. Please wait.")] ∧
    dispatchedCount
      (rateLimitEvents "make_move" (some ⟨0, 3, 1000, 3⟩) [1500, 1600, 1700, 1800, 2500]) ≤ 3 :=
  ⟨by decide, by decide, by decide,
    (rateLimitEvent_windows "make_move" ⟨0, 3, 1000, 3⟩).1 1500 [1600, 1700, 1800, 2500]
      (by decide) (by decide)⟩

/-! ## Theorems: the side to move -/

theorem tickTimeout_position (pow10 : Rat → Rat) (saves : Bool) (game : Game) (s : Sys) :
    ((tickTimeout pow10 saves game s).game.fen = game.fen ∧
      (tickTimeout pow10 saves game s).game.turn = game.turn) ∨
    (tickTimeout pow10 saves game s).game = s.game := by
  unfold tickTimeout
  simp only
  split_ifs <;> first | exact Or.inr rfl | exact Or.inl ⟨rfl, rfl⟩

theorem decrementClock_fen (game : Game) : (decrementClock game).fen = game.fen := by
  unfold decrementClock; split_ifs <;> rfl

/-- Every handler leaves the stored position and side to move as they were, or
stores the position and the side to move the rules engine returned for one
position. -/
theorem step_position {Pos : Type} (O : Oracle Pos) (pow10 : Rat → Rat) (s : Sys) (op : Op) :
    ((step O pow10 s op).game.fen = s.game.fen ∧ (step O pow10 s op).game.turn = s.game.turn) ∨
    ∃ chess1, (step O pow10 s op).game.fen = O.fen chess1 ∧
      (step O pow10 s op).game.turn = O.turn chess1 := by
  cases op with
  | join userId now =>
    left
    show (joinGame userId now s).game.fen = _ ∧ (joinGame userId now s).game.turn = _
    rcases joinGame_cases userId now s with ⟨msg, hj⟩ | ⟨-, -, -, -, hj⟩
    · rw [hj]; exact ⟨rfl, rfl⟩
    · rw [hj]; exact ⟨rfl, rfl⟩
  | move req now txns =>
    rcases (makeMoveLoop_game O pow10 req now 3 txns none s).2 with
      hsame | ⟨-, c, fen, turn, r, -, hval, hgame⟩
    · left
      show (makeMoveLoop O pow10 req now 3 txns none s).game.fen = _ ∧
        (makeMoveLoop O pow10 req now 3 txns none s).game.turn = _
      rw [hsame]
      exact ⟨rfl, rfl⟩
    · right
      obtain ⟨chess, chess1, -, -, -, hfen, hturn, -⟩ :=
        validateMove_valid O s.game.fen req.move.denotes c fen turn r hval
      refine ⟨chess1, ?_, ?_⟩
      · show (makeMoveLoop O pow10 req now 3 txns none s).game.fen = _
        rw [hgame, ← hfen]
        unfold applyMove; simp only; split_ifs <;> rfl
      · show (makeMoveLoop O pow10 req now 3 txns none s).game.turn = _
        rw [hgame, ← hturn]
        unfold applyMove; simp only; split_ifs <;> rfl
  | startTimer now =>
    left
    show (startTimer now s).game.fen = _ ∧ (startTimer now s).game.turn = _
    unfold startTimer
    simp only
    split_ifs <;> exact ⟨rfl, rfl⟩
  | tick now =>
    left
    show (tick pow10 now s).game.fen = _ ∧ (tick pow10 now s).game.turn = _
    have hT : ∀ saves (s1 : Sys), s1.game = s.game →
        (tickTimeout pow10 saves (decrementClock s.game) s1).game.fen = s.game.fen ∧
        (tickTimeout pow10 saves (decrementClock s.game) s1).game.turn = s.game.turn := by
      intro saves s1 h1
      rcases tickTimeout_position pow10 saves (decrementClock s.game) s1 with h | h
      · rw [h.1, h.2, decrementClock_fen, decrementClock_turn]
        exact ⟨rfl, rfl⟩
      · rw [h, h1]
        exact ⟨rfl, rfl⟩
    unfold tick
    split
    · exact ⟨rfl, rfl⟩
    · simp only
      repeat' split
      all_goals
        first
        | exact ⟨rfl, rfl⟩
        | exact hT _ _ rfl
        | exact ⟨decrementClock_fen _, decrementClock_turn _⟩
  | resign userId =>
    left
    show (resignGame pow10 userId s).game.fen = _ ∧ (resignGame pow10 userId s).game.turn = _
    unfold resignGame
    simp only
    repeat' split
    all_goals exact ⟨rfl, rfl⟩
  | offerDraw userId =>
    left
    show (offerDraw userId s).game.fen = _ ∧ (offerDraw userId s).game.turn = _
    rw [(offerDraw_game userId s).1]
    exact ⟨rfl, rfl⟩
  | acceptDraw userId =>
    left
    show (acceptDraw userId s).game.fen = _ ∧ (acceptDraw userId s).game.turn = _
    unfold acceptDraw
    simp only
    repeat' split
    all_goals exact ⟨rfl, rfl⟩
  | heartbeat userId now => exact Or.inl ⟨rfl, rfl⟩
  | rejoin userId now =>
    left
    show (rejoinGame userId now s).game.fen = _ ∧ (rejoinGame userId now s).game.turn = _
    unfold rejoinGame handleReconnect updatePlayerActivity
    simp only
    split <;> exact ⟨rfl, rfl⟩
  | disconnect now =>
    left
    show (handleDisconnect now s).game.fen = _ ∧ (handleDisconnect now s).game.turn = _
    unfold handleDisconnect
    simp only
    split_ifs <;> exact ⟨rfl, rfl⟩
  | fireTimeout handle now =>
    left
    show (fireTimeout handle now s).game.fen = _ ∧ (fireTimeout handle now s).game.turn = _
    unfold fireTimeout disconnectCallback
    simp only
    repeat' split
    all_goals exact ⟨rfl, rfl⟩
  | sweep now =>
    left
    show (cleanupGame now s.playerActivityMap s.game).fen = _ ∧
      (cleanupGame now s.playerActivityMap s.game).turn = _
    unfold cleanupGame
    simp only
    split_ifs <;> exact ⟨rfl, rfl⟩

/-- With a rules engine whose `turn()` agrees with the FEN strings it produces,
the stored `turn` is the side to move of the stored position in every state
the server can reach. -/
theorem reachable_turn {Pos : Type} (O : Oracle Pos) (pow10 : Rat → Rat)
    (hO : ∀ pos, fenSide (O.fen pos) = some (O.turn pos)) (s : Sys)
    (h : Reachable O pow10 s) : fenSide s.game.fen = some s.game.turn := by
  induction h with
  | start users userId timeControl now game nextHandle h =>
    unfold createGame at h
    split at h
    · cases h
    · split_ifs at h
      simp only [Option.some.injEq] at h
      subst h
      show fenSide getInitialFen = some Color.w
      decide
  | step s op _ ih =>
    rcases step_position O pow10 s op with ⟨hf, ht⟩ | ⟨chess1, hf, ht⟩
    · rw [hf, ht]
      exact ih
    · rw [hf, ht]
      exact hO chess1

theorem sideOracle_turnAgrees : turnAgrees sideOracle := by
  refine ⟨fun fen pos h => ?_, fun pos => ?_⟩
  · simp only [sideOracle] at h ⊢
    split at h
    · rename_i c hc
      simp only [Except.ok.injEq] at h
      rw [hc, h]
    · cases h
  · cases pos <;> decide

/-- C30. With a rules engine whose `turn()` agrees with the side-to-move field
of the FEN strings it loads and produces, in every state the server can reach
the stored `turn` is the side to move the stored position encodes; so a side
for which `validateMove` accepts a move in the stored position is the side
named by `turn`, the one whose counter the tick lowers. -/
theorem turn_matches_fen {Pos : Type} (O : Oracle Pos) (pow10 : Rat → Rat)
    (hO : turnAgrees O) (s : Sys) (hr : Reachable O pow10 s) :
    fenSide s.game.fen = some s.game.turn ∧
    ∀ (move : Move) (c : Color) (fen1 : String) (turn1 : Color) (r : MoveResult),
      validateMove O s.game.fen move c = .valid fen1 turn1 r →
        c = s.game.turn ∧
        (c = Color.w →
          decrementClock s.game =
            { s.game with whiteTime := s.game.whiteTime.map (· - 1) }) ∧
        (c = Color.b →
          decrementClock s.game =
            { s.game with blackTime := s.game.blackTime.map (· - 1) }) := by
  have hturn := reachable_turn O pow10 hO.2 s hr
  refine ⟨hturn, fun move c fen1 turn1 r hval => ?_⟩
  obtain ⟨chess, chess1, hload, hc, -⟩ := validateMove_valid O s.game.fen move c fen1 turn1 r hval
  have hne : s.game.fen ≠ "" := by
    intro h
    rw [h] at hturn
    have h0 : fenSide "" = none := by decide
    rw [h0] at hturn
    cases hturn
  have hside := hO.1 _ _ hload
  rw [fenOrDefault, if_neg hne, hturn, hc] at hside
  have hct : c = s.game.turn := (Option.some.inj hside).symm
  refine ⟨hct, fun hw => ?_, fun hb => ?_⟩
  · unfold decrementClock
    rw [if_pos (hct ▸ hw)]
  · unfold decrementClock
    rw [if_neg (by rw [← hct, hb]; decide)]

/-- C30 at a concrete state: with the engine that reads the side to move off the
FEN string, after `bob` joined and `alice` moved, black is to move. -/
theorem turn_matches_fen_witness :
    turnAgrees sideOracle ∧
    (run sideOracle toyPow10 (toyStart 2)
      [.join "bob" 1000, .move ⟨"alice", .str "e2e4"⟩ 2000 []]).game.turn = Color.b ∧
    fenSide (run sideOracle toyPow10 (toyStart 2)
      [.join "bob" 1000, .move ⟨"alice", .str "e2e4"⟩ 2000 []]).game.fen = some Color.b :=
  ⟨sideOracle_turnAgrees, by decide,
    (by decide : (run sideOracle toyPow10 (toyStart 2)
      [.join "bob" 1000, .move ⟨"alice", .str "e2e4"⟩ 2000 []]).game.turn = Color.b) ▸
    (turn_matches_fen sideOracle toyPow10 sideOracle_turnAgrees _
      (reachable_run sideOracle toyPow10 _ _
        (Reachable.start toyUsers "alice" 2 0 (toyGame 2) 0 (by decide)))).1⟩

/-! ## Theorems: several submissions against one game -/

theorem applyMove_moves (game : Game) (move : Move) (fen : String) (turn : Color)
    (r : MoveResult) (now : Int) :
    (applyMove game move fen turn r now).moves = game.moves ++ [move] := by
  unfold applyMove; simp only; split_ifs <;> rfl

theorem applyMove_ne (game : Game) (move : Move) (fen : String) (turn : Color)
    (r : MoveResult) (now : Int) : applyMove game move fen turn r now ≠ game := by
  intro h
  have := congrArg (fun g => g.moves.length) h
  simp [applyMove_moves] at this

/-- What `makeMove` leaves behind, whatever the store does: nothing was committed,
the stored game is as before and exactly one `move_rejected` was emitted; or
the game was active, the move of a participant was valid in the stored
position and was committed, and `move_made` was broadcast, followed by
`game_over` when the move ended the game. -/
theorem makeMoveLoop_committed {Pos : Type} (O : Oracle Pos) (pow10 : Rat → Rat)
    (req : MoveRequest) (now : Int) (retries : Nat) (txns : List Txn) (game0 : Option Game)
    (s : Sys) :
    ((makeMoveLoop O pow10 req now retries txns game0 s).game = s.game ∧
        ∃ reason fen, (makeMoveLoop O pow10 req now retries txns game0 s).emitted =
          s.emitted ++ [.move_rejected reason fen]) ∨
      (s.game.status = Status.active ∧ ∃ c fen turn r,
        playerColorOf s.game req.userId = .ok (some c) ∧
        validateMove O s.game.fen req.move.denotes c = .valid fen turn r ∧
        (makeMoveLoop O pow10 req now retries txns game0 s).game =
          applyMove s.game req.move.denotes fen turn r now ∧
        (makeMoveLoop O pow10 req now retries txns game0 s).emitted =
          s.emitted ++ (.move_made fen r turn ::
            if r.status ≠ Status.active then
              [.game_over r.status (applyMove s.game req.move.denotes fen turn r now).winner]
            else [])) := by
  rcases (makeMoveLoop_effects O pow10 req now retries txns game0 s).2 with
    h1 | ⟨c, fen, turn, r, hpc, hval, hgame, hemit⟩
  · exact Or.inl h1
  · rcases (makeMoveLoop_game O pow10 req now retries txns game0 s).2 with h2 | ⟨hst, -⟩
    · rw [hgame] at h2
      exact absurd h2 (applyMove_ne _ _ _ _ _ _)
    · exact Or.inr ⟨hst, c, fen, turn, r, hpc, hval, hgame, hemit⟩

/-- A submission of `p` when no move of `p` can be accepted: the stored game
stays as it was and exactly one `move_rejected` is emitted. -/
theorem makeMove_cannotMove {Pos : Type} (O : Oracle Pos) (pow10 : Rat → Rat)
    (x : Submission) (s : Sys) (h : cannotMove O s.game x.req.userId) :
    (makeMove O pow10 x.req x.now x.txns s).game = s.game ∧
    ∃ reason fen, (makeMove O pow10 x.req x.now x.txns s).emitted =
      s.emitted ++ [.move_rejected reason fen] := by
  rcases makeMoveLoop_committed O pow10 x.req x.now 3 x.txns none s with
    h1 | ⟨hst, c, fen, turn, r, hpc, hval, -, -⟩
  · exact h1
  · exfalso
    obtain ⟨chess, chess1, hload, hturn, -⟩ :=
      validateMove_valid O s.game.fen x.req.move.denotes c fen turn r hval
    rcases h with h | h
    · exact h hst
    · exact h c hpc chess hload hturn

theorem playerColorOf_congr (g g1 : Game) (p : UserId) (hw : g1.whitePlayer = g.whitePlayer)
    (hb : g1.blackPlayer = g.blackPlayer) : playerColorOf g1 p = playerColorOf g p := by
  unfold playerColorOf
  rw [hw, hb]

theorem applyMove_players (game : Game) (move : Move) (fen : String) (turn : Color)
    (r : MoveResult) (now : Int) :
    (applyMove game move fen turn r now).whitePlayer = game.whitePlayer ∧
    (applyMove game move fen turn r now).blackPlayer = game.blackPlayer ∧
    (applyMove game move fen turn r now).fen = fen := by
  unfold applyMove; simp only; split_ifs <;> exact ⟨rfl, rfl, rfl⟩

/-- Once a move of `p` is committed, no further move of `p` can be accepted
until the other side has moved, if the rules engine passes the turn. -/
theorem makeMove_then_cannotMove {Pos : Type} (O : Oracle Pos) (pow10 : Rat → Rat)
    (hO : turnPasses O) (x : Submission) (s : Sys)
    (hacc : (makeMove O pow10 x.req x.now x.txns s).game ≠ s.game) :
    cannotMove O (makeMove O pow10 x.req x.now x.txns s).game x.req.userId := by
  rcases makeMoveLoop_committed O pow10 x.req x.now 3 x.txns none s with
    ⟨h1, -⟩ | ⟨hst, c, fen, turn, r, hpc, hval, hgame, -⟩
  · exact absurd h1 hacc
  · obtain ⟨chess, chess1, hload, hturn, hmove, hfen, -⟩ :=
      validateMove_valid O s.game.fen x.req.move.denotes c fen turn r hval
    obtain ⟨hw, hb, hf⟩ := applyMove_players s.game x.req.move.denotes fen turn r x.now
    right
    intro c1 hpc1 chess2 hload2
    have hG : (makeMove O pow10 x.req x.now x.txns s).game =
        applyMove s.game x.req.move.denotes fen turn r x.now := hgame
    rw [hG] at hpc1 hload2
    rw [playerColorOf_congr _ _ _ hw hb, hpc] at hpc1
    simp only [Except.ok.injEq, Option.some.injEq] at hpc1
    subst hpc1
    rw [hf, hfen] at hload2
    rw [← hturn]
    exact hO chess x.req.move.denotes chess1 hmove chess2 hload2

theorem submitAll_cons {Pos : Type} (O : Oracle Pos) (pow10 : Rat → Rat) (s : Sys)
    (x : Submission) (rest : List Submission) :
    submitAll O pow10 s (x :: rest) =
      submitAll O pow10 (makeMove O pow10 x.req x.now x.txns s) rest := rfl

/-- Every submission is answered: either it is not committed, the stored game is
as before and one `move_rejected` is added to the events, or it is committed,
the stored game changes and one `move_made` is added. -/
theorem makeMove_answered {Pos : Type} (O : Oracle Pos) (pow10 : Rat → Rat)
    (x : Submission) (s : Sys) :
    ((makeMove O pow10 x.req x.now x.txns s).game = s.game ∧
      ((makeMove O pow10 x.req x.now x.txns s).emitted.filter Emit.isMoveMade).length =
        (s.emitted.filter Emit.isMoveMade).length ∧
      ((makeMove O pow10 x.req x.now x.txns s).emitted.filter Emit.isMoveRejected).length =
        (s.emitted.filter Emit.isMoveRejected).length + 1) ∨
    ((makeMove O pow10 x.req x.now x.txns s).game ≠ s.game ∧
      ((makeMove O pow10 x.req x.now x.txns s).emitted.filter Emit.isMoveMade).length =
        (s.emitted.filter Emit.isMoveMade).length + 1 ∧
      ((makeMove O pow10 x.req x.now x.txns s).emitted.filter Emit.isMoveRejected).length =
        (s.emitted.filter Emit.isMoveRejected).length) := by
  rcases makeMoveLoop_committed O pow10 x.req x.now 3 x.txns none s with
    ⟨h1, reason, fen, he⟩ | ⟨hst, c, fen, turn, r, hpc, hval, hgame, he⟩
  · left
    have hE : (makeMove O pow10 x.req x.now x.txns s).emitted =
        s.emitted ++ [.move_rejected reason fen] := he
    refine ⟨h1, ?_, ?_⟩
    · rw [hE, List.filter_append]
      simp [Emit.isMoveMade]
    · rw [hE, List.filter_append]
      simp [Emit.isMoveRejected]
  · right
    have hE : (makeMove O pow10 x.req x.now x.txns s).emitted = _ := he
    have hG : (makeMove O pow10 x.req x.now x.txns s).game = _ := hgame
    refine ⟨?_, ?_, ?_⟩
    · rw [hG]
      exact applyMove_ne _ _ _ _ _ _
    · rw [hE, List.filter_append]
      split_ifs <;> simp [Emit.isMoveMade]
    · rw [hE, List.filter_append]
      split_ifs <;> simp [Emit.isMoveRejected]

/-- While no move of `p` can be accepted, every submission of `p` is rejected. -/
theorem submitAll_cannotMove {Pos : Type} (O : Oracle Pos) (pow10 : Rat → Rat) (p : UserId)
    (subs : List Submission) :
    ∀ s : Sys, (∀ x ∈ subs, x.req.userId = p) → cannotMove O s.game p →
      (submitAll O pow10 s subs).game = s.game ∧
      ((submitAll O pow10 s subs).emitted.filter Emit.isMoveMade).length =
        (s.emitted.filter Emit.isMoveMade).length ∧
      ((submitAll O pow10 s subs).emitted.filter Emit.isMoveRejected).length =
        (s.emitted.filter Emit.isMoveRejected).length + subs.length := by
  induction subs with
  | nil => intro s _ _; exact ⟨rfl, rfl, rfl⟩
  | cons x rest ih =>
    intro s hp hc
    have hx : x.req.userId = p := hp x (List.mem_cons_self x rest)
    have hrest : ∀ y ∈ rest, y.req.userId = p := fun y hy => hp y (List.mem_cons_of_mem x hy)
    obtain ⟨hg, -⟩ := makeMove_cannotMove O pow10 x s (hx ▸ hc)
    rcases makeMove_answered O pow10 x s with ⟨-, hm, hr⟩ | ⟨hne, -, -⟩
    · obtain ⟨i1, i2, i3⟩ := ih (makeMove O pow10 x.req x.now x.txns s) hrest (by rw [hg]; exact hc)
      rw [submitAll_cons]
      refine ⟨i1.trans hg, i2.trans hm, ?_⟩
      rw [i3, hr, List.length_cons]
      omega
    · exact absurd hg hne

/-- C23, amended. Submissions are handled one after the other, each against the
game stored when it is handled, whatever the store does.  Of the submissions
of one participant `p`, at most one is committed, if the rules engine passes
the turn to the other side after a move; and every submission is answered:
one that is not committed leaves the stored game as it was and receives
exactly one `move_rejected`, one that is committed changes the stored game
and is followed by exactly one `move_made`. -/
theorem same_sender_commits_once {Pos : Type} (O : Oracle Pos) (pow10 : Rat → Rat)
    (hO : turnPasses O) (p : UserId) (subs : List Submission)
    (hp : ∀ x ∈ subs, x.req.userId = p) (s : Sys) :
    ((submitAll O pow10 s subs).emitted.filter Emit.isMoveMade).length ≤
      (s.emitted.filter Emit.isMoveMade).length + 1 ∧
    ((submitAll O pow10 s subs).emitted.filter Emit.isMoveMade).length +
        ((submitAll O pow10 s subs).emitted.filter Emit.isMoveRejected).length =
      (s.emitted.filter Emit.isMoveMade).length +
        (s.emitted.filter Emit.isMoveRejected).length + subs.length ∧
    ∀ (x : Submission) (s1 : Sys),
      ((makeMove O pow10 x.req x.now x.txns s1).game = s1.game ∧
        ((makeMove O pow10 x.req x.now x.txns s1).emitted.filter Emit.isMoveMade).length =
          (s1.emitted.filter Emit.isMoveMade).length ∧
        ((makeMove O pow10 x.req x.now x.txns s1).emitted.filter Emit.isMoveRejected).length =
          (s1.emitted.filter Emit.isMoveRejected).length + 1) ∨
      ((makeMove O pow10 x.req x.now x.txns s1).game ≠ s1.game ∧
        ((makeMove O pow10 x.req x.now x.txns s1).emitted.filter Emit.isMoveMade).length =
          (s1.emitted.filter Emit.isMoveMade).length + 1 ∧
        ((makeMove O pow10 x.req x.now x.txns s1).emitted.filter Emit.isMoveRejected).length =
          (s1.emitted.filter Emit.isMoveRejected).length) := by
  have key : ∀ (subs : List Submission) (s : Sys), (∀ x ∈ subs, x.req.userId = p) →
      ((submitAll O pow10 s subs).emitted.filter Emit.isMoveMade).length ≤
        (s.emitted.filter Emit.isMoveMade).length + 1 ∧
      ((submitAll O pow10 s subs).emitted.filter Emit.isMoveMade).length +
          ((submitAll O pow10 s subs).emitted.filter Emit.isMoveRejected).length =
        (s.emitted.filter Emit.isMoveMade).length +
          (s.emitted.filter Emit.isMoveRejected).length + subs.length := by
    intro subs
    induction subs with
    | nil => intro s _; exact ⟨Nat.le_succ _, rfl⟩
    | cons x rest ih =>
      intro s hp
      have hx : x.req.userId = p := hp x (List.mem_cons_self x rest)
      have hrest : ∀ y ∈ rest, y.req.userId = p :=
        fun y hy => hp y (List.mem_cons_of_mem x hy)
      rw [submitAll_cons, List.length_cons]
      rcases makeMove_answered O pow10 x s with ⟨-, hm, hr⟩ | ⟨hne, hm, hr⟩
      · obtain ⟨i1, i2⟩ := ih (makeMove O pow10 x.req x.now x.txns s) hrest
        omega
      · have hc := makeMove_then_cannotMove O pow10 hO x s hne
        rw [hx] at hc
        obtain ⟨-, i2, i3⟩ := submitAll_cannotMove O pow10 p rest
          (makeMove O pow10 x.req x.now x.txns s) hrest hc
        omega
  exact ⟨(key subs s hp).1, (key subs s hp).2, fun x s1 => makeMove_answered O pow10 x s1⟩

theorem toyOracle_turnPasses : turnPasses toyOracle := by
  intro chess move chess1 hmove chess2 hload
  have h1 : ∃ x, chess1 = chess ++ [x] := by
    simp only [toyOracle] at hmove
    by_cases hfrom : move.from_ = ""
    · rw [if_pos hfrom] at hmove
      cases hmove
    · by_cases heq : move.from_ = move.to_
      · rw [if_neg hfrom, if_pos heq] at hmove
        cases hmove
      · simp only [hfrom, heq, ↓reduceIte, Except.ok.injEq, Option.some.injEq] at hmove
        exact ⟨_, hmove.symm⟩
  obtain ⟨x, rfl⟩ := h1
  have hne : String.mk (chess ++ [x]) ≠ "" := by
    intro h
    have := congrArg String.length h
    simp [String.length] at this
  have h2 : chess2 = chess ++ [x] := by
    simp only [toyOracle] at hload
    rw [fenOrDefault, if_neg hne] at hload
    split_ifs at hload
    simp only [Except.ok.injEq] at hload
    exact hload.symm
  subst h2
  show (if (chess ++ [x]).length % 2 = 0 then Color.w else Color.b) ≠
    (if chess.length % 2 = 0 then Color.w else Color.b)
  rw [List.length_append, List.length_singleton]
  split_ifs <;> first | omega | simp

/-- C23 fails as stated: in the toy game `alice` and `bob` submit `e2e4` and
`e7e5` at the same moment.  Only `e2e4` is legal from the current position,
where `bob` is not to move; the server handles `e2e4` and then `e7e5`, which is
legal by then, and commits both. -/
theorem concurrent_moves_counterexample :
    colorOf toyJoined.game "bob" = some Color.b ∧
    notTurnOf toyOracle toyJoined.game.fen Color.b ∧
    (makeMove toyOracle toyPow10 ⟨"bob", .str "e7e5"⟩ 2001 [] toyJoined).game.moves = [] ∧
    (submitAll toyOracle toyPow10 toyJoined
      [⟨⟨"alice", .str "e2e4"⟩, 2000, []⟩, ⟨⟨"bob", .str "e7e5"⟩, 2001, []⟩]).game.moves =
      [⟨"e2", "e4", none⟩, ⟨"e7", "e5", none⟩] ∧
    ((submitAll toyOracle toyPow10 toyJoined
      [⟨⟨"alice", .str "e2e4"⟩, 2000, []⟩, ⟨⟨"bob", .str "e7e5"⟩, 2001, []⟩]).emitted.filter
        Emit.isMoveMade).length = 2 ∧
    ((submitAll toyOracle toyPow10 toyJoined
      [⟨⟨"alice", .str "e2e4"⟩, 2000, []⟩, ⟨⟨"bob", .str "e7e5"⟩, 2001, []⟩]).emitted.filter
        Emit.isMoveRejected).length = 0 :=
  ⟨by decide, by decide, by decide, by decide, by decide, by decide⟩

/-- C23, amended, at a concrete run: `alice` submits `e2e4` and `d2d4` at the
same moment; the first is committed and the second rejected. -/
theorem same_sender_commits_once_witness :
    turnPasses toyOracle ∧
    (∀ x ∈ ([⟨⟨"alice", .str "e2e4"⟩, 2000, []⟩, ⟨⟨"alice", .str "d2d4"⟩, 2001, []⟩] :
      List Submission), x.req.userId = "alice") ∧
    ((submitAll toyOracle toyPow10 toyJoined
      [⟨⟨"alice", .str "e2e4"⟩, 2000, []⟩, ⟨⟨"alice", .str "d2d4"⟩, 2001, []⟩]).emitted.filter
        Emit.isMoveMade).length ≤ (toyJoined.emitted.filter Emit.isMoveMade).length + 1 :=
  ⟨toyOracle_turnPasses, by simp,
    (same_sender_commits_once toyOracle toyPow10 toyOracle_turnPasses "alice"
      [⟨⟨"alice", .str "e2e4"⟩, 2000, []⟩, ⟨⟨"alice", .str "d2d4"⟩, 2001, []⟩] (by simp)
      toyJoined).1⟩

/-! ## Theorems: rating updates are zero-sum -/

theorem calculateEloChange_eq_in (pow10 : Rat → Rat) (playerRating opponentRating : Int)
    (result : Rat) :
    calculateEloChange pow10 playerRating opponentRating result =
      calculateEloChangeIn pow10 playerRating opponentRating result := rfl

/-- Rounding halves upward is odd away from the halves: `round(y) + round(-y) = 0`
unless `y + 1/2` is an integer. -/
theorem floor_half_add_neg {K : Type} [LinearOrderedField K] [FloorRing K] (y : K)
    (h : ∀ n : Int, y + 1 / 2 ≠ (n : K)) : ⌊y + 1 / 2⌋ + ⌊-y + 1 / 2⌋ = 0 := by
  have h1 : (⌊y + 1 / 2⌋ : K) ≤ y + 1 / 2 := Int.floor_le _
  have h2 : y + 1 / 2 < (⌊y + 1 / 2⌋ : K) + 1 := Int.lt_floor_add_one _
  have h3 : (⌊y + 1 / 2⌋ : K) < y + 1 / 2 := lt_of_le_of_ne h1 (fun e => h _ e.symm)
  have h4 : ⌊-y + 1 / 2⌋ = -⌊y + 1 / 2⌋ := by
    rw [Int.floor_eq_iff]
    push_cast
    constructor <;> linarith
  rw [h4]
  omega

/-- The two changes in terms of the loser's expected score, and their bounds,
for a power that is positive and turns negation into the reciprocal. -/
theorem eloChange_generic {K : Type} [LinearOrderedField K] [FloorRing K] (pow10 : K → K)
    (w l : Int)
    (hpos : 0 < pow10 (((w : K) - (l : K)) / 400))
    (hrec : pow10 (((l : K) - (w : K)) / 400) = (pow10 (((w : K) - (l : K)) / 400))⁻¹) :
    calculateEloChangeIn pow10 w l 1 = ⌊32 / (1 + pow10 (((w : K) - (l : K)) / 400)) + 1 / 2⌋ ∧
    calculateEloChangeIn pow10 l w 0 =
      ⌊-(32 / (1 + pow10 (((w : K) - (l : K)) / 400))) + 1 / 2⌋ ∧
    0 ≤ calculateEloChangeIn pow10 w l 1 ∧ calculateEloChangeIn pow10 w l 1 ≤ 32 ∧
    -32 ≤ calculateEloChangeIn pow10 l w 0 ∧ calculateEloChangeIn pow10 l w 0 ≤ 0 := by
  set v := pow10 (((w : K) - (l : K)) / 400) with hv
  have h1v : 0 < 1 + v := by linarith
  have hy0 : 0 < 32 / (1 + v) := by positivity
  have hy32 : 32 / (1 + v) < 32 := by
    rw [div_lt_iff₀ h1v]
    nlinarith
  have e1 : calculateEloChangeIn pow10 w l 1 = ⌊32 / (1 + v) + 1 / 2⌋ := by
    unfold calculateEloChangeIn
    simp only
    rw [hrec]
    congr 1
    field_simp
    ring
  have e2 : calculateEloChangeIn pow10 l w 0 = ⌊-(32 / (1 + v)) + 1 / 2⌋ := by
    unfold calculateEloChangeIn
    simp only
    congr 1
    rw [← hv]
    field_simp
  refine ⟨e1, e2, ?_, ?_, ?_, ?_⟩
  · rw [e1]
    apply Int.floor_nonneg.mpr
    linarith
  · rw [e1, Int.floor_le_iff]
    push_cast
    linarith
  · rw [e2, Int.le_floor]
    push_cast
    linarith
  · rw [e2, Int.floor_le_iff]
    push_cast
    linarith

/-- No power of ten is the 400th power of a quotient of two odd integers, unless
the exponent is `0`; and then the two odd integers do not add up to 64. -/
theorem odd_pow_ne_pow_ten (a b : Int) (d : Int) (ha : a % 2 = 1) (hb : b % 2 = 1)
    (hab : a + b = 64) : (10 : ℝ) ^ d * (b : ℝ) ^ 400 ≠ (a : ℝ) ^ 400 := by
  have hodd : ∀ c : Int, c % 2 = 1 → (c ^ 400) % 2 = 1 := by
    intro c hc
    exact Int.odd_iff.mp (Odd.pow (Int.odd_iff.mpr hc))
  have heven : ∀ (m : Nat) (c : Int), ((10 : Int) ^ (m + 1) * c) % 2 = 0 := by
    intro m c
    have : (2 : Int) ∣ 10 ^ (m + 1) * c :=
      Dvd.dvd.mul_right (dvd_pow (by norm_num) (Nat.succ_ne_zero m)) c
    exact Int.emod_eq_zero_of_dvd this
  intro h
  rcases Int.lt_trichotomy d 0 with hd | hd | hd
  · obtain ⟨m, rfl⟩ : ∃ m : Nat, d = -((m : Int) + 1) := ⟨(-d - 1).toNat, by omega⟩
    have h10 : (10 : ℝ) ^ (-((m : Int) + 1)) = ((10 : ℝ) ^ (m + 1))⁻¹ := by
      rw [zpow_neg]
      norm_cast
    rw [h10] at h
    have h2 : (b : ℝ) ^ 400 = (10 : ℝ) ^ (m + 1) * (a : ℝ) ^ 400 := by
      have hne : ((10 : ℝ) ^ (m + 1)) ≠ 0 := by positivity
      field_simp at h
      linarith
    have h3 : b ^ 400 = (10 : Int) ^ (m + 1) * a ^ 400 := by exact_mod_cast h2
    have := hodd b hb
    rw [h3, heven] at this
    omega
  · subst hd
    simp only [zpow_zero, one_mul] at h
    have h3 : b ^ 400 = a ^ 400 := by exact_mod_cast h
    have h4 : |b| = |a| := by
      have := (pow_left_inj₀ (abs_nonneg b) (abs_nonneg a) (by norm_num : (400 : Nat) ≠ 0)).mp
        (by rw [Even.pow_abs (by decide), Even.pow_abs (by decide), h3])
      exact this
    rcases abs_eq_abs.mp h4 with h5 | h5 <;> omega
  · obtain ⟨m, rfl⟩ : ∃ m : Nat, d = (m : Int) + 1 := ⟨(d - 1).toNat, by omega⟩
    have h10 : (10 : ℝ) ^ ((m : Int) + 1) = (10 : ℝ) ^ (m + 1) := by norm_cast
    rw [h10] at h
    have h3 : (10 : Int) ^ (m + 1) * b ^ 400 = a ^ 400 := by exact_mod_cast h
    have := hodd a ha
    rw [← h3, heven] at this
    omega

/-- In exact arithmetic, 32 times an expected score is never an odd multiple of
one half. -/
theorem expected_not_half (w l : Int) (n : Int) :
    32 / (1 + (10 : ℝ) ^ (((w : ℝ) - (l : ℝ)) / 400)) + 1 / 2 ≠ (n : ℝ) := by
  intro h
  have hv : 0 < (10 : ℝ) ^ (((w : ℝ) - (l : ℝ)) / 400) := Real.rpow_pos_of_pos (by norm_num) _
  set v := (10 : ℝ) ^ (((w : ℝ) - (l : ℝ)) / 400) with hvdef
  have h1v : (1 + v) ≠ 0 := by positivity
  have hlin : v * ((2 * n - 1 : Int) : ℝ) = ((65 - 2 * n : Int) : ℝ) := by
    field_simp at h
    push_cast
    linarith
  have hpow : v ^ 400 = (10 : ℝ) ^ (w - l) := by
    rw [hvdef, ← Real.rpow_natCast, ← Real.rpow_mul (by norm_num)]
    have : ((w : ℝ) - (l : ℝ)) / 400 * ((400 : Nat) : ℝ) = ((w - l : Int) : ℝ) := by
      push_cast
      ring
    rw [this, Real.rpow_intCast]
  have h400 : (10 : ℝ) ^ (w - l) * ((2 * n - 1 : Int) : ℝ) ^ 400 =
      ((65 - 2 * n : Int) : ℝ) ^ 400 := by
    rw [← hpow, ← mul_pow, hlin]
  exact odd_pow_ne_pow_ten (65 - 2 * n) (2 * n - 1) (w - l) (by omega) (by omega) (by omega) h400

/-- C28. In exact arithmetic, with the real power of ten and halves rounded
upward, the changes `calculateEloChange` computes for the winner and for the
loser add up to zero for all integer ratings, the winner's lies in `[0, 32]`
and the loser's in `[-32, 0]`.  And `updateRatings`, for a game won by one of
two distinct registered participants, leaves the sum of their ratings
unchanged, moving the winner's by a value in `[0, 32]`, whenever the power the
code computed is positive, is the reciprocal of the power of the opposite
exponent, and does not put 32 times the expected score on an odd multiple of
one half, as is the case of the exact power. -/
theorem eloChange_zero_sum :
    (∀ w l : Int,
      calculateEloChangeIn (fun x : ℝ => (10 : ℝ) ^ x) w l 1 +
          calculateEloChangeIn (fun x : ℝ => (10 : ℝ) ^ x) l w 0 = 0 ∧
        0 ≤ calculateEloChangeIn (fun x : ℝ => (10 : ℝ) ^ x) w l 1 ∧
        calculateEloChangeIn (fun x : ℝ => (10 : ℝ) ^ x) w l 1 ≤ 32 ∧
        -32 ≤ calculateEloChangeIn (fun x : ℝ => (10 : ℝ) ^ x) l w 0 ∧
        calculateEloChangeIn (fun x : ℝ => (10 : ℝ) ^ x) l w 0 ≤ 0) ∧
    (∀ (pow10 : Rat → Rat) (game : Game) (users : Users) (winnerId loserId : UserId)
        (w l : Int),
      game.winner = some winnerId → loserOf game winnerId = some loserId →
      loserId ≠ winnerId → users winnerId = some w → users loserId = some l →
      0 < pow10 (((w : Rat) - (l : Rat)) / 400) →
      pow10 (((l : Rat) - (w : Rat)) / 400) = (pow10 (((w : Rat) - (l : Rat)) / 400))⁻¹ →
      (∀ n : Int, 32 / (1 + pow10 (((w : Rat) - (l : Rat)) / 400)) + 1 / 2 ≠ (n : Rat)) →
      ∃ w1 l1 : Int,
        updateRatings pow10 game users winnerId = some w1 ∧
        updateRatings pow10 game users loserId = some l1 ∧
        w1 + l1 = w + l ∧ 0 ≤ w1 - w ∧ w1 - w ≤ 32 ∧
        w1 - w = calculateEloChange pow10 w l 1 ∧
        l1 - l = calculateEloChange pow10 l w 0) := by
  refine ⟨fun w l => ?_, ?_⟩
  · have hpos : 0 < (fun x : ℝ => (10 : ℝ) ^ x) (((w : ℝ) - (l : ℝ)) / 400) :=
      Real.rpow_pos_of_pos (by norm_num) _
    have hrec : (fun x : ℝ => (10 : ℝ) ^ x) (((l : ℝ) - (w : ℝ)) / 400) =
        ((fun x : ℝ => (10 : ℝ) ^ x) (((w : ℝ) - (l : ℝ)) / 400))⁻¹ := by
      show (10 : ℝ) ^ (((l : ℝ) - (w : ℝ)) / 400) = ((10 : ℝ) ^ (((w : ℝ) - (l : ℝ)) / 400))⁻¹
      rw [← Real.rpow_neg (by norm_num)]
      congr 1
      ring
    obtain ⟨e1, e2, b1, b2, b3, b4⟩ := eloChange_generic (fun x : ℝ => (10 : ℝ) ^ x) w l hpos hrec
    refine ⟨?_, b1, b2, b3, b4⟩
    rw [e1, e2]
    exact floor_half_add_neg _ (fun n => expected_not_half w l n)
  · intro pow10 game users winnerId loserId w l hwin hlos hne hw hl hpos hrec hhalf
    obtain ⟨e1, e2, b1, b2, -, -⟩ := eloChange_generic pow10 w l hpos hrec
    have hzero : calculateEloChange pow10 w l 1 + calculateEloChange pow10 l w 0 = 0 := by
      rw [calculateEloChange_eq_in, calculateEloChange_eq_in, e1, e2]
      exact floor_half_add_neg _ hhalf
    have hU : updateRatings pow10 game users =
        (users.setRating winnerId (w + calculateEloChange pow10 w l 1)).setRating loserId
          (l + calculateEloChange pow10 l w 0) := by
      unfold updateRatings
      unfold loserOf at hlos
      simp only [hwin, hw, hlos, Option.bind_some, Option.some_bind, hl]
    refine ⟨w + calculateEloChange pow10 w l 1, l + calculateEloChange pow10 l w 0, ?_, ?_, ?_,
      ?_, ?_, ?_, ?_⟩
    · rw [hU]
      simp [Users.setRating, hne.symm]
    · rw [hU]
      simp [Users.setRating]
    · omega
    · have := b1
      rw [← calculateEloChange_eq_in] at this
      omega
    · have := b2
      rw [← calculateEloChange_eq_in] at this
      omega
    · omega
    · omega

/-- C28 at a concrete game: `alice` has mated `bob`, both rated 1500; the toy
power is exact at the exponent 0. -/
theorem eloChange_zero_sum_witness :
    toyMated.game.winner = some "alice" ∧ loserOf toyMated.game "alice" = some "bob" ∧
    ∃ w1 l1 : Int,
      updateRatings toyPow10 toyMated.game toyUsers "alice" = some w1 ∧
      updateRatings toyPow10 toyMated.game toyUsers "bob" = some l1 ∧
      w1 + l1 = 1500 + 1500 := by
  have hhalf : ∀ n : Int,
      32 / (1 + toyPow10 ((((1500 : Int) : Rat) - ((1500 : Int) : Rat)) / 400)) + 1 / 2
        ≠ (n : Rat) := by
    intro n h
    have h1 : toyPow10 ((((1500 : Int) : Rat) - ((1500 : Int) : Rat)) / 400) = 1 := by
      simp [toyPow10]
    rw [h1] at h
    have h2 : (33 : Rat) = 2 * (n : Rat) := by linarith
    have h3 : (33 : Int) = 2 * n := by exact_mod_cast h2
    omega
  obtain ⟨w1, l1, h1, h2, h3, -⟩ := eloChange_zero_sum.2 toyPow10 toyMated.game toyUsers
    "alice" "bob" 1500 1500 (by decide) (by decide) (by decide) (by decide) (by decide)
    (by simp [toyPow10]) (by simp [toyPow10]) hhalf
  exact ⟨by decide, by decide, w1, l1, h1, h2, h3⟩

end ChessServer
